import Mathlib

/-! # Library_for_Bitcoin_JS

A shallow embedding of `src/ecc.js`, `src/helper.js`, `src/op.js`, `src/script.js` and
`src/tx.js`.

Conventions of the embedding.

* A value of the `big-integer` package (`bigInt(..)`) is an `Int`; its methods are the
  functions of the namespace `bigInt` below, written after the package's documented
  behaviour (`mod` and `divide` truncate towards zero, the remainder takes the sign of the
  dividend, a zero divisor raises).
* A JavaScript exception is the `error` side of `Except JsError _`; the constructor of
  `JsError` is the class of the thrown object.
* A `Buffer` is a `List Nat` of bytes (each below 256).
* Mutation is explicit state passing: a method that changes its receiver returns the new
  receiver next to its result.
* JavaScript is dynamically typed: where the kind of a value decides what an operator or a
  method call does, the value is a `JsValue` and the operator is a function that follows
  ECMAScript's `ToPrimitive` / `ToNumeric` steps.  Calling a method that the receiver does
  not have raises `TypeError`.
* The sources call a few methods on big-integer values under names the package does not
  have: `ge`, `mul`, `sub`, `rmul` and `truediv`.  Calling one of them on a big-integer
  value raises `TypeError`, like any call of a method the receiver does not have.
  `toBytes(n)`, which the package does not have either, is modelled from the spec as the
  `n`-byte big-endian encoding.
* A name that a file imports is bound to the definition of that name in the repository.
  Names that no file of the repository defines (`OP_CODE_FUNCTIONS`, `OP_CODE_NAMES`,
  `opHash160`, `opEqual`, `opVerify` in script.js) and the functions of Node's `crypto`
  module are parameters of the model.
-/

set_option autoImplicit false

/-- The classes of exception the sources raise, directly or through the runtime. -/
inductive JsError where
  | Error
  | TypeError
  | RangeError
  | SyntaxError
  | ReferenceError
deriving DecidableEq, Repr

deriving instance DecidableEq for Except

/-! ## The `big-integer` package -/

namespace bigInt

/-- `a.mod(b)`: remainder of the truncating division, sign of the dividend; a zero divisor
raises `Error("Cannot divide by zero")`. -/
def mod (a b : Int) : Except JsError Int :=
  if b = 0 then .error .Error else .ok (a.tmod b)

/-- `a.divide(b)`: the quotient truncated towards zero; a zero divisor raises. -/
def divide (a b : Int) : Except JsError Int :=
  if b = 0 then .error .Error else .ok (a.tdiv b)

/-- The loop of `modInv` (extended Euclid on `(t, newT, r, newR)`); it returns the final
`(t, r)`.  Each round replaces `newR` by a remainder of smaller magnitude, so `fuel`
rounds with `fuel` above `|newR|` reach `newR = 0`. -/
def modInvLoop : Nat → Int → Int → Int → Int → Int × Int
  | 0, t, _, r, _ => (t, r)
  | fuel + 1, t, newT, r, newR =>
    if newR = 0 then (t, r)
    else
      let q := r.tdiv newR
      modInvLoop fuel newT (t - q * newT) newR (r - q * newR)

/-- `a.modInv(n)`: raises when `a` and `n` are not co-prime. -/
def modInv (a n : Int) : Except JsError Int :=
  let (t, r) := modInvLoop (a.natAbs + 1) 0 1 n (Int.ofNat a.natAbs)
  if r.natAbs ≠ 1 then .error .Error
  else
    let t := if t < 0 then t + n else t
    if a < 0 then .ok (-t) else .ok t

/-- The `while (exp.isPositive())` loop of `modPow`: square-and-multiply over the bits of
`exp`, least significant first, with the early exit `if (base.isZero()) return 0`.
`exp` is halved in every round, so `exp.toNat` rounds of fuel are never used up. -/
def modPowLoop (m : Int) : Nat → Int → Int → Int → Int
  | 0, r, _, _ => r
  | fuel + 1, r, base, exp =>
    if 0 < exp then
      if base = 0 then 0
      else
        modPowLoop m fuel (if exp % 2 = 1 then (r * base).tmod m else r)
          ((base * base).tmod m) (exp.tdiv 2)
    else r

/-- `b.modPow(exp, m)`: a zero modulus raises; a negative exponent is negated and the base
replaced by its modular inverse. -/
def modPow (b exp m : Int) : Except JsError Int :=
  if m = 0 then .error .Error
  else
    let base := b.tmod m
    if exp < 0 then do
      let base ← modInv base m
      pure (modPowLoop m (-exp).toNat 1 base (-exp))
    else
      pure (modPowLoop m exp.toNat 1 base exp)

end bigInt

/-! ## `FieldElement` (ecc.js 4-62) -/

/-- The two fields `num` and `prime` of a `FieldElement` object. -/
structure FieldElement where
  num : Int
  prime : Int
deriving DecidableEq, Repr

/-! ## JavaScript values -/

/-- What `Object.prototype.toString` prints between `[object ` and `]`: `Promise` for a
promise, `Object` for an instance of one of the repository's classes or an object
literal. -/
inductive ObjTag where
  | Object
  | Promise
deriving DecidableEq, Repr

/-- A JavaScript value, as far as the operators and method calls of the sources tell its
kinds apart.  `number v` is the Number with the integer value `v` (the sources compute
Numbers from integers only; a Number read from bytes is rounded to a double where it is
made, in `littleEndianToInt`).  `bigint` is a BigInt primitive
(`2n`, `BigInt(..)`), `bigInteger` an object of the big-integer package, `field` a
`FieldElement` object, `object` any other object. -/
inductive JsValue where
  | undefined
  | null
  | number (v : Int)
  | nan
  | string (s : List Char)
  | bigint (v : Int)
  | bigInteger (v : Int)
  | field (f : FieldElement)
  | object (tag : ObjTag)
deriving DecidableEq, Repr

namespace FieldElement

/-- The constructor (ecc.js 5-11): `if (num.ge(prime) || num.lt(0)) throw new Error(..)`.
The big-integer package has `geq` and `greaterOrEquals`, no method `ge`: the call
`num.ge(prime)`, the first thing the constructor does, raises `TypeError` whatever `num`
and `prime` are, and neither field is ever stored. -/
def new (_num _prime : Int) : Except JsError FieldElement :=
  .error .TypeError

/-- An object that the constructor has returned: the constructor accepts its fields. -/
def Constructed (x : FieldElement) : Prop :=
  FieldElement.new x.num x.prime = .ok x

instance (x : FieldElement) : Decidable x.Constructed := by
  unfold Constructed; infer_instance

/-- `equals(other)` for a non-null `other`. -/
def equals (this other : FieldElement) : Bool :=
  decide (this.num = other.num) && decide (this.prime = other.prime)

/-- `add(other)`. -/
def add (this other : FieldElement) : Except JsError FieldElement :=
  if this.prime ≠ other.prime then .error .TypeError
  else do
    let num ← bigInt.mod (this.num + other.num) this.prime
    FieldElement.new num this.prime

/-- `sub(other)`. -/
def sub (this other : FieldElement) : Except JsError FieldElement :=
  if this.prime ≠ other.prime then .error .TypeError
  else do
    let num ← bigInt.mod (this.num - other.num) this.prime
    FieldElement.new num this.prime

/-- `mul(other)`. -/
def mul (this other : FieldElement) : Except JsError FieldElement :=
  if this.prime ≠ other.prime then .error .TypeError
  else do
    let num ← bigInt.mod (this.num * other.num) this.prime
    FieldElement.new num this.prime

/-- `pow(exponent)`.  The body calls `exponent.mod(..)`: only a value of the big-integer
package has that method, so any other exponent (the Number literals `2` and `3` that
`Point` and `S256Point.parse` pass, a BigInt primitive, ..) raises `TypeError`. -/
def pow (this : FieldElement) (exponent : JsValue) : Except JsError FieldElement :=
  match exponent with
  | .bigInteger e => do
    let n ← bigInt.mod e (this.prime - 1)
    let num ← bigInt.modPow this.num n this.prime
    FieldElement.new num this.prime
  | _ => .error .TypeError

/-- `truediv(other)`. -/
def truediv (this other : FieldElement) : Except JsError FieldElement :=
  if this.prime ≠ other.prime then .error .TypeError
  else do
    let inv ← bigInt.modPow other.num (this.prime - 2) this.prime
    let num ← bigInt.mod (this.num * inv) this.prime
    FieldElement.new num this.prime

end FieldElement

/-! ## Method calls on a value whose kind is only known at run time -/

namespace bigInt

/-- `parseValue(v)`, which every method of the package applies to its argument: a Number, a
BigInt or a value of the package gives its integer.  Any other argument is handed on as it
is and the method then fails on it; the model raises `TypeError` (a `NaN` or a string that
is not a decimal numeral raises `Error("Invalid integer")`). -/
def parseValue : JsValue → Except JsError Int
  | .number v => .ok v
  | .bigint v => .ok v
  | .bigInteger v => .ok v
  | .nan => .error .Error
  | .string s =>
    if s ≠ [] ∧ s.all Char.isDigit then
      .ok (Int.ofNat (s.foldl (fun acc c => acc * 10 + (c.toNat - 48)) 0))
    else .error .Error
  | _ => .error .TypeError

/-- `a.pow(n)` of the package. -/
def pow (a : Int) (arg : JsValue) : Except JsError Int := do
  let n ← parseValue arg
  if n = 0 then pure 1
  else if a = 0 then pure 0
  else if a = 1 then pure 1
  else if a = -1 then pure (if n % 2 = 0 then 1 else -1)
  else if n < 0 then pure 0
  else pure (a ^ n.toNat)

/-- `bigInt.fromArray(digits, 256, false)`: the value of a big-endian digit string. -/
def fromArray (digits : List Nat) : Int :=
  Int.ofNat (digits.foldl (fun acc d => acc * 256 + d) 0)

/-- Modelled from the spec: `toBytes(n)`, which neither the repository nor the big-integer
package defines; the spec (4.3, 4.4) has it produce the `n`-byte big-endian encoding. -/
def toBytes (v : Int) (n : Nat) : List Nat :=
  (List.range n).reverse.map (fun i => (v.toNat / 256 ^ i) % 256)

end bigInt

namespace JsValue

/-- Whether a value counts as true in a condition: every object does, also a big-integer
value that stands for 0. -/
def truthy : JsValue → Bool
  | .undefined => false
  | .null => false
  | .number v => decide (v ≠ 0)
  | .nan => false
  | .string s => !s.isEmpty
  | .bigint v => decide (v ≠ 0)
  | .bigInteger _ => true
  | .field _ => true
  | .object _ => true

/-- A method of `FieldElement` that takes another element: reading `other.prime` or
`other.num` of anything else ends in a `TypeError`. -/
def fieldBinary (m : FieldElement → FieldElement → Except JsError FieldElement)
    (f : FieldElement) (other : JsValue) : Except JsError JsValue :=
  match other with
  | .field g => .field <$> m f g
  | _ => .error .TypeError

/-- `recv.pow(arg)`. -/
def callPow (recv arg : JsValue) : Except JsError JsValue :=
  match recv with
  | .field f => .field <$> f.pow arg
  | .bigInteger v => .bigInteger <$> bigInt.pow v arg
  | _ => .error .TypeError

/-- `recv.mul(arg)`: `FieldElement.mul`; the package has `multiply` and `times`, no method
`mul`, so the call raises `TypeError` on a big-integer value as on any other. -/
def callMul (recv arg : JsValue) : Except JsError JsValue :=
  match recv with
  | .field f => fieldBinary FieldElement.mul f arg
  | _ => .error .TypeError

/-- `recv.add(arg)`. -/
def callAdd (recv arg : JsValue) : Except JsError JsValue :=
  match recv with
  | .field f => fieldBinary FieldElement.add f arg
  | .bigInteger v => do
    let n ← bigInt.parseValue arg
    pure (.bigInteger (v + n))
  | _ => .error .TypeError

/-- `recv.sub(arg)`: `FieldElement.sub`; the package has no `sub`. -/
def callSub (recv arg : JsValue) : Except JsError JsValue :=
  match recv with
  | .field f => fieldBinary FieldElement.sub f arg
  | _ => .error .TypeError

/-- `recv.truediv(arg)`: `FieldElement.truediv`; the package has no such method. -/
def callTruediv (recv arg : JsValue) : Except JsError JsValue :=
  match recv with
  | .field f => fieldBinary FieldElement.truediv f arg
  | _ => .error .TypeError

/-- `recv.equals(arg)`: `FieldElement.equals` (which answers `false` to `null`), or the
package's `equals`. -/
def callEquals (recv arg : JsValue) : Except JsError Bool :=
  match recv with
  | .field f =>
    match arg with
    | .null => .ok false
    | .field g => .ok (f.equals g)
    | _ => .error .TypeError
  | .bigInteger v =>
    match arg with
    | .field _ => .ok false
    | .object _ => .ok false
    | _ => do
      let n ← bigInt.parseValue arg
      pure (decide (v = n))
  | _ => .error .TypeError

end JsValue

/-! ## `Point` (ecc.js 64-129) -/

/-- The four fields of a `Point` object; `x` and `y` are `null` at infinity. -/
structure Point where
  x : JsValue
  y : JsValue
  a : JsValue
  b : JsValue
deriving DecidableEq, Repr

namespace Point

/-- The constructor (ecc.js 65-76): the point at infinity is stored as it is, any other
pair of coordinates goes through the curve test
`this.y.pow(2).equals(this.x.pow(3).add(this.a.mul(this.x)).add(this.b))`. -/
def new (x y a b : JsValue) : Except JsError Point :=
  if x = .null ∧ y = .null then .ok ⟨x, y, a, b⟩
  else do
    let lhs ← y.callPow (.number 2)
    let x3 ← x.callPow (.number 3)
    let ax ← a.callMul x
    let t ← x3.callAdd ax
    let rhs ← t.callAdd b
    let same ← lhs.callEquals rhs
    if same then pure ⟨x, y, a, b⟩ else .error .Error

/-- A point that the constructor has returned. -/
def Constructed (p : Point) : Prop :=
  Point.new p.x p.y p.a p.b = .ok p

instance (p : Point) : Decidable p.Constructed := by
  unfold Constructed; infer_instance

/-- `equals(other)` (ecc.js 78-85), with the short circuit of `&&`. -/
def equals (this other : Point) : Except JsError Bool := do
  if !(← this.x.callEquals other.x) then return false
  if !(← this.y.callEquals other.y) then return false
  if !(← this.a.callEquals other.a) then return false
  this.b.callEquals other.b

/-- `add(other)` (ecc.js 87-114).  The result is `none` when control falls off the end of
the function, which returns `undefined`. -/
def add (this other : Point) : Except JsError (Option Point) := do
  let sameA ← this.a.callEquals other.a
  let sameCurve ← if !sameA then pure false else this.b.callEquals other.b
  if !sameCurve then throw .TypeError
  if this.x = .null then return some other
  if other.x = .null then return some this
  let sameX ← this.x.callEquals other.x
  let vertical ← if sameX then (do let sameY ← this.y.callEquals other.y; pure (!sameY))
    else pure false
  if vertical then return some (← Point.new .null .null this.a this.b)
  let sameX ← this.x.callEquals other.x
  if !sameX then
    let dy ← other.y.callSub this.y
    let dx ← other.x.callSub this.x
    let s ← dy.callTruediv dx
    let s2 ← s.callPow (.number 2)
    let x ← (← s2.callSub this.x).callSub other.x
    let y ← (← s.callMul (← this.x.callSub x)).callSub this.y
    return some (← Point.new x y this.a this.b)
  let same ← this.equals other
  let yIsZero ← if same then
      (do let zero ← (JsValue.bigInteger 0).callMul this.x; this.y.callEquals zero)
    else pure false
  if yIsZero then return some (← Point.new .null .null this.a this.b)
  let same ← this.equals other
  if same then
    let x2 ← this.x.callPow (.number 2)
    let num ← (← (JsValue.bigInteger 3).callMul x2).callAdd this.a
    let den ← (JsValue.bigInteger 2).callMul this.y
    let s ← num.callTruediv den
    let s2 ← s.callPow (.number 2)
    let x ← s2.callSub (← (JsValue.bigInteger 2).callMul this.x)
    let y ← (← s.callMul (← this.x.callSub x)).callSub this.y
    return some (← Point.new x y this.a this.b)
  return none

/-- `p.add(q)` where `p` and `q` hold what earlier calls of `add` returned: `undefined` has
no method `add`, and `add` cannot read `other.a` of `undefined`. -/
def addTo (p : Option Point) (q : Option Point) : Except JsError (Option Point) :=
  match p, q with
  | some p, some q => p.add q
  | _, _ => .error .TypeError

end Point

namespace Point

/-- The `while (coef)` loop of `rmul` (ecc.js 120-126) on the variables `coef`, `current`
and `result`.  The condition is the truth value of `coef` itself; `coef.and(..)` and
`coef.shiftRight(1)` are methods of the big-integer package.  `none`: the fuel ran out
before the loop was left. -/
def rmulLoop : Nat → JsValue → Option Point → Option Point →
    Option (Except JsError (Option Point))
  | 0, _, _, _ => none
  | fuel + 1, coef, current, result =>
    if coef.truthy then
      match coef with
      | .bigInteger c =>
        let odd : Bool := decide (c % 2 = 1)
        match (if odd then Point.addTo result current else .ok result) with
        | .error e => some (.error e)
        | .ok result =>
          match Point.addTo current current with
          | .error e => some (.error e)
          | .ok current => rmulLoop fuel (.bigInteger (c.fdiv 2)) current result
      | _ => some (.error .TypeError)
    else some (.ok result)

/-- `rmul(coefficient)` (ecc.js 116-128), run for at most `fuel` tests of the loop
condition. -/
def rmul (fuel : Nat) (this : Point) (coefficient : JsValue) :
    Option (Except JsError (Option Point)) :=
  match Point.new .null .null this.a this.b with
  | .error e => some (.error e)
  | .ok result => rmulLoop fuel coefficient (some this) (some result)

end Point

/-! ## secp256k1 (ecc.js 131-223) -/

/-- `A`. -/
def A : Int := 0

/-- `B`. -/
def B : Int := 7

/-- `P = 2^256 - 2^32 - 977`. -/
def P : Int := 2 ^ 256 - 2 ^ 32 - 977

/-- `N`, the order of the group. -/
def N : Int := 0xfffffffffffffffffffffffffffffffebaaedce6af48a03bbfd25e8cd0364141

namespace S256Field

/-- `new S256Field(num)`: the constructor of `FieldElement` with `prime = P`. -/
def new (num : Int) : Except JsError FieldElement :=
  FieldElement.new num P

/-- `S256Field(num)` without `new` (ecc.js 150, 205): a class constructor cannot be
invoked as a function; the call raises `TypeError` whatever the argument. -/
def callWithoutNew (_num : Int) : Except JsError FieldElement :=
  .error .TypeError

/-- `sqrt()`: `this.pow(P.add(1).divide(4))`. -/
def sqrt (this : FieldElement) : Except JsError FieldElement :=
  this.pow (.bigInteger ((P + 1).tdiv 4))

end S256Field

namespace S256Point

/-- `new S256Point(x, y)` with two arguments, which is how every call in the sources is
written.  The default values `a = S256Field(A)` and `b = S256Field(B)` are evaluated
first; then the body passes `x` and `y` on to `Point`, after wrapping them when
`typeof x === "number"`. -/
def new (x y : JsValue) : Except JsError Point := do
  let a ← S256Field.callWithoutNew A
  let b ← S256Field.callWithoutNew B
  match x with
  | .number _ | .nan =>
    let xf ← S256Field.new (← bigInt.parseValue x)
    let yf ← S256Field.new (← bigInt.parseValue y)
    Point.new (.field xf) (.field yf) (.field a) (.field b)
  | _ => Point.new x y (.field a) (.field b)

/-- `rmul(coefficient)` (ecc.js 158-161): `coefficient.mod(N)`, then `Point.rmul`. -/
def rmul (fuel : Nat) (this : Point) (coefficient : JsValue) :
    Option (Except JsError (Option Point)) :=
  match coefficient with
  | .bigInteger c =>
    match bigInt.mod c N with
    | .error e => some (.error e)
    | .ok coef => Point.rmul fuel this (.bigInteger coef)
  | _ => some (.error .TypeError)

/-- `sec(compressed)` (ecc.js 171-185). -/
def sec (this : Point) (compressed : Bool) : Except JsError (List Nat) :=
  match this.x, this.y with
  | .field x, .field y =>
    if compressed then do
      let parity ← bigInt.mod y.num 2
      if parity = 0 then pure ([0x02] ++ bigInt.toBytes x.num 32)
      else pure ([0x03] ++ bigInt.toBytes x.num 32)
    else pure ([0x04] ++ bigInt.toBytes x.num 32 ++ bigInt.toBytes y.num 32)
  | _, _ => .error .TypeError

/-- `S256Point.parse(secBin)` (ecc.js 197-211). -/
def parse (secBin : List Nat) : Except JsError Point :=
  if secBin.head? = some 4 then
    let x := bigInt.fromArray ((secBin.drop 1).take 32)
    let y := bigInt.fromArray ((secBin.drop 33).take 32)
    S256Point.new (.bigInteger x) (.bigInteger y)
  else do
    let isEven : Bool := decide (secBin.head? = some 2)
    let x ← S256Field.new (bigInt.fromArray (secBin.drop 1))
    let x3 ← x.pow (.number 3)
    let alpha ← x3.add (← S256Field.callWithoutNew B)
    let beta ← S256Field.sqrt alpha
    let parity ← bigInt.mod beta.num 2
    let other ← S256Field.new (P - beta.num)
    let evenBeta := if parity = 0 then beta else other
    let oddBeta := if parity = 0 then other else beta
    S256Point.new (.field x) (.field (if isEven then evenBeta else oddBeta))

end S256Point

/-- The binding `const G = new S256Point(bigInt("0x79be..."), bigInt("0x483a..."))`
(ecc.js 214-223), evaluated when the module is loaded. -/
def G : Except JsError Point :=
  S256Point.new
    (.bigInteger 0x79be667ef9dcbbac55a06295ce870b07029bfcdb2dce28d959f2815b16f81798)
    (.bigInteger 0x483ada7726a3c4655da4fbfc0e1108a8fd17b448a68554199c47d08ffb10d4b8)

/-- The object that the declaration of `G` describes: the generator with its coordinates
and the curve parameters as elements of the field, as `S256Point` would store them. -/
def generator : Point :=
  ⟨.field ⟨0x79be667ef9dcbbac55a06295ce870b07029bfcdb2dce28d959f2815b16f81798, P⟩,
   .field ⟨0x483ada7726a3c4655da4fbfc0e1108a8fd17b448a68554199c47d08ffb10d4b8, P⟩,
   .field ⟨A, P⟩, .field ⟨B, P⟩⟩

/-! ## `Signature` (ecc.js 225-264) -/

/-- The fields `r` and `s` of a `Signature` object: values of the big-integer package when
the object comes from `Signature.parse`, BigInt primitives when it comes from
`PrivateKey.sign`. -/
structure Signature where
  r : JsValue
  s : JsValue
deriving DecidableEq, Repr

namespace Signature

/-- One half of `der()` (ecc.js 232-237 and 238-243): `toBytes(32)`, then
`filter((byte) => byte !== 0)`, which drops every zero byte, then a leading `0x00` when
`rbin[0] & 0x80` is non-zero, then the marker `0x02` and the length. -/
def derInteger (v : JsValue) : Except JsError (List Nat) :=
  match v with
  | .bigInteger n =>
    let bin := (bigInt.toBytes n 32).filter (fun byte => byte ≠ 0)
    let bin := if (bin.headD 0) % 256 ≥ 128 then [0x00] ++ bin else bin
    .ok ([0x02, bin.length] ++ bin)
  | _ => .error .TypeError

/-- `der()` (ecc.js 231-245). -/
def der (this : Signature) : Except JsError (List Nat) := do
  let rpart ← derInteger this.r
  let spart ← derInteger this.s
  let result := rpart ++ spart
  pure ([0x30, result.length] ++ result)

/-- `Signature.parse(sigBin)` (ecc.js 247-263).  An index past the end of the buffer reads
`undefined`; a slice bound computed from it is `NaN`, which `slice` takes as 0. -/
def parse (sigBin : List Nat) : Except JsError Signature :=
  if sigBin.head? ≠ some 0x30 then .error .Error
  else
    match sigBin.get? 3 with
    | none => .ok ⟨.bigInteger (bigInt.fromArray []), .bigInteger (bigInt.fromArray [])⟩
    | some rlen =>
      let r := bigInt.fromArray ((sigBin.drop 4).take rlen)
      match sigBin.get? (4 + rlen + 1) with
      | none => .ok ⟨.bigInteger r, .bigInteger (bigInt.fromArray [])⟩
      | some slen =>
        let s := bigInt.fromArray ((sigBin.drop (4 + rlen + 2)).take slen)
        .ok ⟨.bigInteger r, .bigInteger s⟩

end Signature

/-! ## The arithmetic operators of JavaScript -/

namespace JsValue

/-- `ToPrimitive`: a value of the big-integer package answers `valueOf()` with a Number; an
object without `valueOf` of its own is turned into the string `[object ..]`. -/
def toPrimitive : JsValue → JsValue
  | .bigInteger v => .number v
  | .field _ => .string "[object Object]".toList
  | .object .Object => .string "[object Object]".toList
  | .object .Promise => .string "[object Promise]".toList
  | v => v

/-- `StringToNumber` on the strings the model meets: a string of decimal digits is its
value (the empty string is 0), a string with any other character (`[`, a letter, ..) is
`NaN`.  Signs, fractions, exponents and radix prefixes are not modelled; no string built by
the sources has them. -/
def stringToNumber (s : List Char) : JsValue :=
  if s.all Char.isDigit then .number (Int.ofNat (s.foldl (fun acc c => acc * 10 + (c.toNat - 48)) 0))
  else .nan

/-- `ToNumeric`: the result is a Number (`number`, `nan`) or a BigInt (`bigint`). -/
def toNumeric (v : JsValue) : JsValue :=
  match v.toPrimitive with
  | .undefined => .nan
  | .null => .number 0
  | .string s => stringToNumber s
  | p => p

/-- `ToString` of a primitive. -/
def toStr : JsValue → List Char
  | .undefined => "undefined".toList
  | .null => "null".toList
  | .number v => (toString v).toList
  | .nan => "NaN".toList
  | .string s => s
  | .bigint v => (toString v).toList
  | .bigInteger v => (toString v).toList
  | .field _ => "[object Object]".toList
  | .object .Object => "[object Object]".toList
  | .object .Promise => "[object Promise]".toList

/-- A binary numeric operator: both operands go through `ToNumeric`; two BigInts are
combined exactly, a BigInt with a Number raises `TypeError` ("Cannot mix BigInt and other
types"), two Numbers are combined as Numbers.  A Number result that is not an integer is
outside the model and stands as `nan`. -/
def numericOp (big : Int → Int → Except JsError Int) (num : Int → Int → JsValue)
    (a b : JsValue) : Except JsError JsValue :=
  match a.toNumeric, b.toNumeric with
  | .bigint x, .bigint y => .bigint <$> big x y
  | .bigint _, _ => .error .TypeError
  | _, .bigint _ => .error .TypeError
  | .number x, .number y => .ok (num x y)
  | _, _ => .ok .nan

/-- `a * b`. -/
def opMul : JsValue → JsValue → Except JsError JsValue :=
  numericOp (fun x y => .ok (x * y)) (fun x y => .number (x * y))

/-- `a - b`. -/
def opSub : JsValue → JsValue → Except JsError JsValue :=
  numericOp (fun x y => .ok (x - y)) (fun x y => .number (x - y))

/-- `a % b`: the remainder has the sign of the dividend; a BigInt zero divisor raises
`RangeError`. -/
def opRem : JsValue → JsValue → Except JsError JsValue :=
  numericOp (fun x y => if y = 0 then .error .RangeError else .ok (x.tmod y))
    (fun x y => if y = 0 then .nan else .number (x.tmod y))

/-- `a / b`: BigInt division truncates; a BigInt zero divisor raises `RangeError`. -/
def opDiv : JsValue → JsValue → Except JsError JsValue :=
  numericOp (fun x y => if y = 0 then .error .RangeError else .ok (x.tdiv y))
    (fun x y => if y ≠ 0 ∧ x % y = 0 then .number (x / y) else .nan)

/-- `a ** b`: a negative BigInt exponent raises `RangeError`. -/
def opExp : JsValue → JsValue → Except JsError JsValue :=
  numericOp (fun x y => if y < 0 then .error .RangeError else .ok (x ^ y.toNat))
    (fun x y => if y < 0 then .nan else .number (x ^ y.toNat))

/-- `a + b`: when either operand is a string after `ToPrimitive`, the two are concatenated
as strings; otherwise they are added as numbers. -/
def opAdd (a b : JsValue) : Except JsError JsValue :=
  match a.toPrimitive, b.toPrimitive with
  | .string x, y => .ok (.string (x ++ y.toStr))
  | x, .string y => .ok (.string (x.toStr ++ y))
  | x, y => numericOp (fun x y => .ok (x + y)) (fun x y => .number (x + y)) x y

/-- `a < b`: a comparison with `NaN` is false; a BigInt and a Number are compared by
value. -/
def opLt (a b : JsValue) : Bool :=
  match a.toPrimitive, b.toPrimitive with
  | .string x, .string y => decide (x < y)
  | x, y =>
    match x.toNumeric, y.toNumeric with
    | .number u, .number v => decide (u < v)
    | .number u, .bigint v => decide (u < v)
    | .bigint u, .number v => decide (u < v)
    | .bigint u, .bigint v => decide (u < v)
    | _, _ => false

/-- `a > b`. -/
def opGt (a b : JsValue) : Bool :=
  opLt b a

/-- `v.x` for a value that is not one of the repository's objects: reading a property of
`undefined` or `null` raises, any other primitive has no such property. -/
def getX : JsValue → Except JsError JsValue
  | .undefined => .error .TypeError
  | .null => .error .TypeError
  | _ => .ok .undefined

end JsValue

/-! ## `PrivateKey` (ecc.js 305-384) -/

/-- `G` as an operand of `*`: were the binding of `G` to succeed, it would hold an instance
of `S256Point`, an object that defines neither `valueOf` nor `toString`. -/
def G_operand : JsValue := .object .Object

/-- The function `pow(base, exponent, modulus)` (ecc.js 382-384):
`base ** exponent % modulus`. -/
def pow (base exponent modulus : JsValue) : Except JsError JsValue := do
  let p ← JsValue.opExp base exponent
  JsValue.opRem p modulus

/-- The fields of a `PrivateKey` object. -/
structure PrivateKey where
  secret : Int
  point : JsValue
deriving DecidableEq, Repr

namespace PrivateKey

/-- The constructor (ecc.js 306-309): `this.secret = BigInt(secret)`, then
`this.point = this.secret * G`. -/
def new (secret : Int) : Except JsError PrivateKey := do
  let point ← JsValue.opMul (.bigint secret) G_operand
  pure ⟨secret, point⟩

/-- `sign(z)` (ecc.js 315-324).  `deterministicK` is the method of lines 326-368, which
depends on Node's `crypto`; it yields the BigInt `candidate` when it returns. -/
def sign (deterministicK : Int → JsValue → Except JsError Int) (secret : Int) (z : JsValue) :
    Except JsError Signature := do
  let k ← deterministicK secret z
  let kG ← JsValue.opMul (.bigint k) G_operand
  let r ← kG.getX
  let exponent ← JsValue.opSub (.bigInteger N) (.bigint 2)
  let kInv ← pow (.bigint k) exponent (.bigInteger N)
  let rs ← JsValue.opMul r (.bigint secret)
  let sum ← JsValue.opAdd z rs
  let prod ← JsValue.opMul sum kInv
  let s ← JsValue.opRem prod (.bigInteger N)
  let half ← JsValue.opDiv (.bigInteger N) (.bigint 2)
  let s ← if JsValue.opGt s half then JsValue.opSub (.bigInteger N) s else pure s
  pure ⟨r, s⟩

end PrivateKey

namespace S256Point

/-- `verify(z, sig)` (ecc.js 163-169).  `modPow`, `multiply` and `mod` are methods of the
big-integer package, so `sig.s`, `z` and `sig.r` have to be values of the package; `u` and
`v` are then values of the package too, and the package has no method `rmul`. -/
def verify (_this : Point) (z : JsValue) (sig : Signature) : Except JsError Bool :=
  match sig.s, z, sig.r with
  | .bigInteger s, .bigInteger z, .bigInteger r => do
    let s_inv ← bigInt.modPow s (N - 2) N
    let _u ← bigInt.mod (z * s_inv) N
    let _v ← bigInt.mod (r * s_inv) N
    -- `u.rmul(G)`
    .error .TypeError
  | _, _, _ => .error .TypeError

end S256Point

/-! ## helper.js -/

/-- The hash functions of Node's `crypto` module, parameters of the model. -/
structure Crypto where
  sha256 : List Nat → List Nat
  ripemd160 : List Nat → List Nat

/-- What the model needs to know of the hash functions: a SHA-256 digest is 32 bytes and a
RIPEMD-160 digest 20 bytes. -/
def Crypto.WellFormed (c : Crypto) : Prop :=
  (∀ s, (c.sha256 s).length = 32 ∧ ∀ b ∈ c.sha256 s, b < 256) ∧
  (∀ s, (c.ripemd160 s).length = 20 ∧ ∀ b ∈ c.ripemd160 s, b < 256)

/-- A stand-in for the hash functions, used where a statement has to be evaluated: every
digest is a string of zero bytes. -/
def Crypto.zeros : Crypto :=
  ⟨fun _ => List.replicate 32 0, fun _ => List.replicate 20 0⟩

/-- `hash160(s)` (helper.js 9-14). -/
def hash160 (c : Crypto) (s : List Nat) : List Nat :=
  c.ripemd160 (c.sha256 s)

/-- `hash256(s)` (helper.js 16-21). -/
def hash256 (c : Crypto) (s : List Nat) : List Nat :=
  c.sha256 (c.sha256 s)

/-- `BASE58_ALPHABET`. -/
def BASE58_ALPHABET : List Char :=
  "123456789ABCDEFGHJKLMNPQRSTUVWXYZabcdefghijkmnopqrstuvwxyz".toList

/-- The value of a buffer read as a big-endian number: `BigInt("0x" + b.toString("hex"))`
for a non-empty buffer. -/
def bigEndian (b : List Nat) : Nat :=
  b.foldl (fun acc d => acc * 256 + d) 0

/-- The digit of value `d` in `toString(16)`. -/
def hexDigit (d : Nat) : Char :=
  "0123456789abcdef".toList.getD d '0'

/-- The value of a character as a hexadecimal digit, if it is one. -/
def hexVal (c : Char) : Option Nat :=
  if '0' ≤ c ∧ c ≤ '9' then some (c.toNat - 48)
  else if 'a' ≤ c ∧ c ≤ 'f' then some (c.toNat - 87)
  else if 'A' ≤ c ∧ c ≤ 'F' then some (c.toNat - 55)
  else none

/-- The digits of `n.toString(16)`, most significant first, put in front of `acc`;
`n` rounds of fuel are enough. -/
def natHexLoop : Nat → Nat → List Char → List Char
  | 0, _, acc => acc
  | fuel + 1, n, acc =>
    if n = 0 then acc else natHexLoop fuel (n / 16) (hexDigit (n % 16) :: acc)

/-- `n.toString(16)` for an integer `n` (a Number or a BigInt). -/
def toStringHex (n : Int) : List Char :=
  if n = 0 then ['0']
  else if n < 0 then '-' :: natHexLoop n.natAbs n.natAbs []
  else natHexLoop n.natAbs n.natAbs []

/-- `s.padStart(w, "0")`. -/
def padStart (w : Nat) (s : List Char) : List Char :=
  List.replicate (w - s.length) '0' ++ s

/-- `Buffer.from(s, "hex")`: two digits give one byte; decoding stops at the first pair
that is not two hexadecimal digits, and a last single character is dropped. -/
def hexDecode : List Char → List Nat
  | c1 :: c2 :: rest =>
    match hexVal c1, hexVal c2 with
    | some a, some b => (16 * a + b) :: hexDecode rest
    | _, _ => []
  | _ => []

/-- The `while (num > 0)` loop of `encodeBase58` on the variables `num` and `result`. -/
def encodeBase58Loop : Nat → Nat → List Char → List Char
  | 0, _, result => result
  | fuel + 1, num, result =>
    if num > 0 then
      encodeBase58Loop fuel (num / 58) (BASE58_ALPHABET.getD (num % 58) '1' :: result)
    else result

/-- `encodeBase58(buffer)` (helper.js 23-39).  `BigInt("0x" + buffer.toString("hex"))`
raises `SyntaxError` on the empty buffer, whose hex string is empty: `"0x"` is no numeral.
One `"1"` is put in front for every leading zero byte. -/
def encodeBase58 (buffer : List Nat) : Except JsError (List Char) :=
  if buffer = [] then .error .SyntaxError
  else
    let num := bigEndian buffer
    let result := encodeBase58Loop num num []
    .ok (List.replicate (buffer.takeWhile (fun b => b = 0)).length '1' ++ result)

/-- `encodeBase58Checksum(buffer)` (helper.js 40-43). -/
def encodeBase58Checksum (c : Crypto) (buffer : List Nat) : Except JsError (List Char) :=
  encodeBase58 (buffer ++ (hash256 c buffer).take 4)

/-- `BASE58_ALPHABET.indexOf(ch)`: -1 for a character that is not in the alphabet. -/
def indexOf58 (ch : Char) : Int :=
  let i := BASE58_ALPHABET.indexOf ch
  if i < BASE58_ALPHABET.length then Int.ofNat i else -1

/-- `decodeBase58(s)` (helper.js 45-64): the number is written out in hexadecimal, padded
to 50 digits, that is 25 bytes, and split into the last four bytes and the rest. -/
def decodeBase58 (c : Crypto) (s : List Char) : Except JsError (List Nat) :=
  let num : Int := s.foldl (fun num ch => num * 58 + indexOf58 ch) 0
  let combined := hexDecode (padStart 50 (toStringHex num))
  let checksum := combined.drop (combined.length - 4)
  let payload := combined.take (combined.length - 4)
  if checksum ≠ (hash256 c payload).take 4 then .error .Error
  else .ok payload

/-- The number of binary digits of `n`, counted in at most `fuel` halvings (`fuel = n` is
always enough). -/
def bitLength : Nat → Nat → Nat
  | 0, _ => 0
  | fuel + 1, n => if n = 0 then 0 else bitLength fuel (n / 2) + 1

/-- The Number that stands for a natural number: the value itself below `2 ^ 53`, and
above that the nearest value with 53 significant bits, a tie going to the even one (the
rounding of IEEE 754 doubles, which `parseInt` applies to the integer it has read).
Values from `2 ^ 1024` on, which a double holds as `Infinity`, are outside the model. -/
def roundToNumber (n : Nat) : Nat :=
  if n < 2 ^ 53 then n
  else
    let e := bitLength n n - 53
    let q := n / 2 ^ e
    let r := n % 2 ^ e
    let half := 2 ^ (e - 1)
    if r > half ∨ (r = half ∧ q % 2 = 1) then (q + 1) * 2 ^ e else q * 2 ^ e

/-- `littleEndianToInt(buffer)` (helper.js 65-68): `parseInt` of the hex string of the
reversed buffer, `NaN` for the empty buffer.  The result is a Number: the value read,
rounded to a double.  (`buffer.slice()` shares the memory of `buffer`, so `reverse()` also
turns the bytes of the argument around; every caller passes a slice that it does not read
again, and the model leaves this effect out.) -/
def littleEndianToInt (buffer : List Nat) : JsValue :=
  if buffer = [] then .nan else .number (Int.ofNat (roundToNumber (bigEndian buffer.reverse)))

/-- `intToLittleEndian(num, length)` (helper.js 70-75) for an integer `num`:
`num.toString(16)`, padded to `2 * length` digits, decoded as hex and reversed. -/
def intToLittleEndian (num : Int) (length : Nat) : List Nat :=
  (hexDecode (padStart (length * 2) (toStringHex num))).reverse

/-- What `readVarint` returns: the object `{ value, remainingBuffer }`. -/
structure Varint where
  value : JsValue
  remainingBuffer : List Nat
deriving DecidableEq, Repr

/-- `readVarint(s)` (helper.js 77-98); `readUInt8(0)` raises `RangeError` on the empty
buffer. -/
def readVarint (s : List Nat) : Except JsError Varint :=
  match s with
  | [] => .error .RangeError
  | i :: s =>
    if i = 0xfd then .ok ⟨littleEndianToInt (s.take 2), s.drop 2⟩
    else if i = 0xfe then .ok ⟨littleEndianToInt (s.take 4), s.drop 4⟩
    else if i = 0xff then .ok ⟨littleEndianToInt (s.take 8), s.drop 8⟩
    else .ok ⟨.number i, s⟩

/-- `encodeVarint(i)` (helper.js 100-112) for a natural number `i`: the value of a Number
or, from `0xfd` on, of a BigInt (`toString(16)` writes either one exactly). -/
def encodeVarint (i : Nat) : Except JsError (List Nat) :=
  if i < 0xfd then .ok [i]
  else if i < 0x10000 then .ok ([0xfd] ++ intToLittleEndian i 2)
  else if i < 0x100000000 then .ok ([0xfe] ++ intToLittleEndian i 4)
  else if i < 0x10000000000000000 then .ok ([0xff] ++ intToLittleEndian i 8)
  else .error .Error

/-! ## script.js -/

/-- `p2pkhScript(h160)` (script.js 17-26): the five buffers concatenated. -/
def p2pkhScript (h160 : List Nat) : List Nat :=
  [0x76] ++ [0xa9] ++ h160 ++ [0x88] ++ [0xac]

/-- `p2shScript(h160)` (script.js 29-36). -/
def p2shScript (h160 : List Nat) : List Nat :=
  [0xa9] ++ h160 ++ [0x87]

/-- An element of `cmds`: a Number (an opcode) or a Buffer (data). -/
inductive Cmd where
  | op (code : Nat)
  | data (bytes : List Nat)
deriving DecidableEq, Repr

/-- A `Script` object: its field `cmds`. -/
structure Script where
  cmds : List Cmd
deriving DecidableEq, Repr

namespace Script

/-- The loop of `Script.parse` (script.js 66-91) on the variables `buffer`, `count` and
`cmds`, under the loop condition `cond count`.  `count` is `none` once it is `NaN` (a
length byte read past the end of the buffer).  `none` as a result: the fuel ran out. -/
def parseLoop (cond : Option Nat → Bool) :
    Nat → List Nat → Option Nat → List Cmd → Option (Except JsError (List Cmd × Option Nat))
  | 0, _, _, _ => none
  | fuel + 1, buffer, count, cmds =>
    if cond count then
      match buffer with
      | [] => some (.error .RangeError)
      | current :: buffer =>
        let count := count.map (· + 1)
        if 1 ≤ current ∧ current ≤ 75 then
          parseLoop cond fuel (buffer.drop current) (count.map (· + current))
            (cmds ++ [.data (buffer.take current)])
        else if current = 76 then
          match buffer with
          | [] => parseLoop cond fuel [] none (cmds ++ [.data []])
          | dataLength :: buffer =>
            parseLoop cond fuel (buffer.drop dataLength) (count.map (· + (dataLength + 1)))
              (cmds ++ [.data (buffer.take dataLength)])
        else if current = 77 then
          match littleEndianToInt (buffer.take 2) with
          | .number dataLength =>
            let buffer := buffer.drop 2
            parseLoop cond fuel (buffer.drop dataLength.toNat)
              (count.map (· + (dataLength.toNat + 2)))
              (cmds ++ [.data (buffer.take dataLength.toNat)])
          | _ => parseLoop cond fuel [] none (cmds ++ [.data []])
        else parseLoop cond fuel buffer count (cmds ++ [.op current])
    else some (.ok (cmds, count))

/-- `Script.parse(buffer)` (script.js 61-98).  `length` is bound to the object that
`readVarint` returns, not to its `value`: `count < length` compares a Number with an
object, whose `ToNumeric` is `NaN`, so the condition is false and the loop body never
runs; `count !== length` is then true, a Number never being identical to an object, and
the function raises `SyntaxError`. -/
def parse (buffer : List Nat) : Option (Except JsError Script) :=
  match readVarint buffer with
  | .error e => some (.error e)
  | .ok _length =>
    match parseLoop (fun count =>
        JsValue.opLt (match count with | some n => .number n | none => .nan) (.object .Object))
        (buffer.length + 1) buffer (some 0) [] with
    | none => none
    | some (.error e) => some (.error e)
    | some (.ok (_cmds, _count)) => some (.error .SyntaxError)

/-- The rules of `Script.parse` applied to raw script bytes of a known length: the loop
and the final test of `Script.parse` with a Number `length` in place of the object. -/
def parseRaw (length : Nat) (buffer : List Nat) : Option (Except JsError Script) :=
  match parseLoop (fun count => match count with | some n => decide (n < length) | none => false)
      (length + 1) buffer (some 0) [] with
  | none => none
  | some (.error e) => some (.error e)
  | some (.ok (cmds, count)) =>
    if count ≠ some length then some (.error .SyntaxError) else some (.ok ⟨cmds⟩)

/-- `rawSerialize()` (script.js 100-130).  `ValueError` is not defined anywhere:
evaluating `new ValueError(..)` raises `ReferenceError`. -/
def rawSerialize (this : Script) : Except JsError (List Nat) :=
  this.cmds.foldlM (fun result cmd =>
    match cmd with
    | .op code => .ok (result ++ intToLittleEndian code 1)
    | .data bytes =>
      let length := bytes.length
      if length < 75 then .ok (result ++ intToLittleEndian length 1 ++ bytes)
      else if length ≥ 75 ∧ length < 0x100 then
        .ok (result ++ intToLittleEndian 76 1 ++ intToLittleEndian length 1 ++ bytes)
      else if length ≥ 0x100 ∧ length ≤ 520 then
        .ok (result ++ intToLittleEndian 77 1 ++ intToLittleEndian length 2 ++ bytes)
      else .error .ReferenceError) []

/-- `serialize()` (script.js 132-136). -/
def serialize (this : Script) : Except JsError (List Nat) := do
  let raw ← this.rawSerialize
  let total ← encodeVarint raw.length
  pure (total ++ raw)

/-- `isP2PKHScriptPubKey()` (script.js 208-218). -/
def isP2PKHScriptPubKey (this : Script) : Bool :=
  match this.cmds with
  | [.op 0x76, .op 0xa9, .data h, .op 0x88, .op 0xac] => decide (h.length = 20)
  | _ => false

/-- `isP2SHScriptPubKey()` (script.js 220-228). -/
def isP2SHScriptPubKey (this : Script) : Bool :=
  match this.cmds with
  | [.op 0xa9, .data h, .op 0x87] => decide (h.length = 20)
  | _ => false

end Script

/-! ## op.js -/

/-- `ToInt32`, which the bitwise operators apply to their operands. -/
def toInt32 (x : Int) : Int :=
  (x + 2 ^ 31) % 2 ^ 32 - 2 ^ 31

/-- The `while (absNum)` loop of `encodeNum` (op.js 12-15): `absNum & 0xff` is the low byte,
`absNum >>= 8` the arithmetic shift of the 32-bit value.  `none`: the fuel ran out.  The
array `result` is taken as unbounded: a run that never leaves the loop ends, in an engine,
only when the array can grow no further. -/
def encodeNumLoop : Nat → Int → List Nat → Option (List Nat)
  | 0, _, _ => none
  | fuel + 1, absNum, result =>
    if absNum ≠ 0 then
      encodeNumLoop fuel ((toInt32 absNum).fdiv 256) (result ++ [(absNum % 256).toNat])
    else some result

/-- `encodeNum(num)` (op.js 5-26), with `fuel` rounds for its loop. -/
def encodeNum (num : Int) (fuel : Nat := 8) : Option (List Nat) :=
  if num = 0 then some []
  else
    match encodeNumLoop fuel (Int.ofNat num.natAbs) [] with
    | none => none
    | some result =>
      let negative : Bool := decide (num < 0)
      if (result.getLastD 0) % 256 ≥ 128 then
        some (result ++ [if negative then 0x80 else 0])
      else if negative then
        some (result.dropLast ++ [result.getLastD 0 + 128])
      else some result

/-- `decodeNum(element)` (op.js 28-40): `result <<= 8` is a 32-bit shift, `result += byte`
an addition of Numbers. -/
def decodeNum (element : List Nat) : Int :=
  match element.reverse with
  | [] => 0
  | first :: rest =>
    let result := rest.foldl (fun result byte => toInt32 (result * 256) + Int.ofNat byte)
      (Int.ofNat (first % 128))
    if first % 256 ≥ 128 then -result else result

/-- The stack of the interpreter: an array of buffers, the top element last. -/
abbrev Stack := List (List Nat)

/-- `stack.push(encodeNum(n))` for a literal `n`. -/
def pushNum (stack : Stack) (n : Int) : Option Stack :=
  (encodeNum n).map (fun e => stack ++ [e])

/-- `op_verify(stack)` (op.js 217-223). -/
def op_verify (stack : Stack) : Bool × Stack :=
  if stack.length < 1 then (false, stack)
  else (decide (decodeNum (stack.getLastD []) ≠ 0), stack.dropLast)

/-- `op_dup(stack)` (op.js 317-323). -/
def op_dup (stack : Stack) : Bool × Stack :=
  if stack.length < 1 then (false, stack)
  else (true, stack ++ [stack.getLastD []])

/-- `op_2swap(stack)` (op.js 286-293): `stack.slice(-2)` copies the top two elements, and
`stack.splice(-4, 2, ...topTwo)` puts the copies in the place of the two elements at the
fourth and third position from the top. -/
def op_2swap (stack : Stack) : Bool × Stack :=
  if stack.length < 4 then (false, stack)
  else
    let topTwo := stack.drop (stack.length - 2)
    (true, stack.take (stack.length - 4) ++ topTwo ++ stack.drop (stack.length - 2))

/-- `op_equal(stack)` (op.js 400-412); `none` if `encodeNum` did not return. -/
def op_equal (stack : Stack) : Option (Bool × Stack) :=
  if stack.length < 2 then some (false, stack)
  else
    let element1 := stack.getLastD []
    let element2 := stack.dropLast.getLastD []
    let stack := stack.dropLast.dropLast
    (pushNum stack (if element1 = element2 then 1 else 0)).map (fun st => (true, st))

/-- `op_equalverify(stack)` (op.js 414-416): `op_equal(stack) && op_verify(stack)`. -/
def op_equalverify (stack : Stack) : Option (Bool × Stack) :=
  (op_equal stack).map (fun r => if r.1 then op_verify r.2 else (false, r.2))

/-- `op_hash160(stack)` (op.js 641-650). -/
def op_hash160 (c : Crypto) (stack : Stack) : Bool × Stack :=
  if stack.length < 1 then (false, stack)
  else (true, stack.dropLast ++ [c.ripemd160 (c.sha256 (stack.getLastD []))])

/-- `op_checksig(stack, z)` (op.js 663-683).  Only the two calls of `parse` stand inside
`try`; an exception of `point.verify` leaves the handler. -/
def op_checksig (stack : Stack) (z : JsValue) : Option (Except JsError (Bool × Stack)) :=
  if stack.length < 2 then some (.ok (false, stack))
  else
    let secPubkey := stack.getLastD []
    let derSignature := (stack.dropLast.getLastD []).dropLast
    let stack := stack.dropLast.dropLast
    match S256Point.parse secPubkey with
    | .error _ => some (.ok (false, stack))
    | .ok point =>
      match Signature.parse derSignature with
      | .error _ => some (.ok (false, stack))
      | .ok sig =>
        match S256Point.verify point z sig with
        | .error e => some (.error e)
        | .ok valid => (pushNum stack (if valid then 1 else 0)).map (fun st => .ok (true, st))

/-- The loop `while (items.length > 0)` of `op_if` (op.js 146-164) and, word for word, of
`op_notif` (op.js 186-204), on the variables `items`, `trueItems`, `falseItems`,
`currentArray` (`inFalse` tells that it is `falseItems`) and `numEndifsNeeded`.  The result
is `found`, what is left of `items`, `trueItems` and `falseItems`. -/
def op_ifLoop : List Cmd → List Cmd → List Cmd → Bool → Int →
    Bool × List Cmd × List Cmd × List Cmd
  | [], trueItems, falseItems, _, _ => (false, [], trueItems, falseItems)
  | item :: items, trueItems, falseItems, inFalse, numEndifsNeeded =>
    let trueItems' := if inFalse then trueItems else trueItems ++ [item]
    let falseItems' := if inFalse then falseItems ++ [item] else falseItems
    if item = .op 99 ∨ item = .op 100 then
      op_ifLoop items trueItems' falseItems' inFalse (numEndifsNeeded + 1)
    else if numEndifsNeeded = 1 ∧ item = .op 103 then
      op_ifLoop items trueItems falseItems true numEndifsNeeded
    else if item = .op 104 then
      if numEndifsNeeded = 1 then (true, items, trueItems, falseItems)
      else op_ifLoop items trueItems' falseItems' inFalse (numEndifsNeeded - 1)
    else op_ifLoop items trueItems' falseItems' inFalse numEndifsNeeded

/-- `op_if(stack, items)` (op.js 137-175): the truth value returned, and the two arrays as
the call leaves them. -/
def op_if (stack : Stack) (items : List Cmd) : Bool × Stack × List Cmd :=
  if stack.length < 1 then (false, stack, items)
  else
    match op_ifLoop items [] [] false 1 with
    | (false, items, _, _) => (false, stack, items)
    | (true, items, trueItems, falseItems) =>
      let element := stack.getLastD []
      if decodeNum element = 0 then (true, stack.dropLast, falseItems ++ items)
      else (true, stack.dropLast, trueItems ++ items)

/-- `op_notif(stack, items)` (op.js 177-215). -/
def op_notif (stack : Stack) (items : List Cmd) : Bool × Stack × List Cmd :=
  if stack.length < 1 then (false, stack, items)
  else
    match op_ifLoop items [] [] false 1 with
    | (false, items, _, _) => (false, stack, items)
    | (true, items, trueItems, falseItems) =>
      let element := stack.getLastD []
      if decodeNum element = 0 then (true, stack.dropLast, trueItems ++ items)
      else (true, stack.dropLast, falseItems ++ items)

/-- Follows the claim on `op_if`, not the source: the nesting depth below the block under
scan after `items`, from the depth `depth`; `none` when an `OP_ELSE` (103) or an `OP_ENDIF`
(104) stands at the level of the block under scan. -/
def nestingAfter : Nat → List Cmd → Option Nat
  | depth, [] => some depth
  | depth, item :: items =>
    if item = .op 99 ∨ item = .op 100 then nestingAfter (depth + 1) items
    else if item = .op 103 then (if depth = 0 then none else nestingAfter depth items)
    else if item = .op 104 then (if depth = 0 then none else nestingAfter (depth - 1) items)
    else nestingAfter depth items

/-- Follows the claim on `op_if`, not the source: `items` holds only balanced blocks
`IF/NOTIF .. ENDIF`, and no `OP_ELSE` or `OP_ENDIF` outside them. -/
def balancedBranch (items : List Cmd) : Bool :=
  nestingAfter 0 items = some 0

/-- The loop `while (points.length > 0)` of `op_checkmultisig` (op.js 716-722) for the
signature `sig`: the points left when one has verified it, `none` when the points ran out;
the points tried are gone. -/
def op_checkmultisigScan {P S : Type} (verify : P → JsValue → S → Except JsError Bool)
    (z : JsValue) (sig : S) : List P → Except JsError (Option (List P))
  | [] => .ok none
  | point :: points =>
    match verify point z sig with
    | .error e => .error e
    | .ok true => .ok (some points)
    | .ok false => op_checkmultisigScan verify z sig points

/-- The loop `for (const sig of signatures)` of `op_checkmultisig` (op.js 714-727):
whether every signature found a point. -/
def op_checkmultisigLoop {P S : Type} (verify : P → JsValue → S → Except JsError Bool)
    (z : JsValue) : List S → List P → Except JsError Bool
  | [], _ => .ok true
  | sig :: signatures, points =>
    match op_checkmultisigScan verify z sig points with
    | .error e => .error e
    | .ok none => .ok false
    | .ok (some points) => op_checkmultisigLoop verify z signatures points

/-- The body of `op_checkmultisig(stack, z)` (op.js 689-732), with the three functions of
ecc.js that it calls (`S256Point.parse`, `Signature.parse`, `point.verify`) as parameters.
`stack.pop()` on an empty array is `undefined`, on which `decodeNum` raises `TypeError`;
everything inside `try` that raises makes the handler return false. -/
def op_checkmultisigWith {P S : Type} (parsePoint : List Nat → Except JsError P)
    (parseSignature : List Nat → Except JsError S)
    (verify : P → JsValue → S → Except JsError Bool)
    (stack : Stack) (z : JsValue) : Option (Except JsError (Bool × Stack)) :=
  if stack.length < 1 then some (.ok (false, stack))
  else
    let n := decodeNum (stack.getLastD [])
    let stack := stack.dropLast
    if (stack.length : Int) < n + 1 then some (.ok (false, stack))
    else
      let secPubkeys := stack.reverse.take n.toNat
      let stack := stack.take (stack.length - n.toNat)
      match stack.getLast? with
      | none => some (.error .TypeError)
      | some element =>
        let m := decodeNum element
        let stack := stack.dropLast
        if (stack.length : Int) < m + 1 then some (.ok (false, stack))
        else
          let derSignatures := (stack.reverse.take m.toNat).map List.dropLast
          let stack := stack.take (stack.length - m.toNat)
          let stack := stack.dropLast
          match secPubkeys.mapM parsePoint with
          | .error _ => some (.ok (false, stack))
          | .ok points =>
            match derSignatures.mapM parseSignature with
            | .error _ => some (.ok (false, stack))
            | .ok signatures =>
              match op_checkmultisigLoop verify z signatures points with
              | .error _ => some (.ok (false, stack))
              | .ok valid => (pushNum stack (if valid then 1 else 0)).map (fun st => .ok (true, st))

/-- `op_checkmultisig(stack, z)` (op.js 689-732). -/
def op_checkmultisig (stack : Stack) (z : JsValue) : Option (Except JsError (Bool × Stack)) :=
  op_checkmultisigWith S256Point.parse Signature.parse S256Point.verify stack z

/-- `x & y` on Numbers that hold integers: both operands go through `ToInt32`, and so
does the result. -/
def bitAnd (x y : Int) : Int :=
  toInt32 (Int.ofNat (Nat.land (x % 2 ^ 32).toNat (y % 2 ^ 32).toNat))

/-- `1 << k` for `k < 32`: a 32-bit value, negative for `k = 31`. -/
def shiftLeftOne (k : Nat) : Int :=
  toInt32 (2 ^ k)

/-- `op_checklocktimeverify(stack, locktime, sequence)` (op.js 738-756); the stack is read,
not changed. -/
def op_checklocktimeverify (stack : Stack) (locktime sequence : Int) : Bool :=
  if sequence = 0xffffffff then false
  else if stack.length < 1 then false
  else
    let element := decodeNum (stack.getLastD [])
    if element < 0 then false
    else if element < 500000000 ∧ locktime > 500000000 then false
    else if locktime < element then false
    else true

/-- `op_checksequenceverify(stack, version, sequence)` (op.js 758-784). -/
def op_checksequenceverify (stack : Stack) (version sequence : Int) : Bool :=
  if bitAnd sequence (shiftLeftOne 31) ≠ 0 then false
  else if stack.length < 1 then false
  else
    let element := decodeNum (stack.getLastD [])
    if element < 0 then false
    else if bitAnd element (shiftLeftOne 31) ≠ 0 then
      if version < 2 then false
      else if bitAnd sequence (shiftLeftOne 31) ≠ 0 then false
      else if bitAnd element (shiftLeftOne 22) ≠ bitAnd sequence (shiftLeftOne 22) then false
      else if bitAnd element 0xffff > bitAnd sequence 0xffff then false
      else true
    else true

/-! ## `Script.evaluate` (script.js 138-206) -/

/-- The second argument that `evaluate` hands to a handler: the remaining instructions for
opcodes 99 and 100, the alt-stack for 107 and 108, `z` for 172 to 175, nothing
otherwise. -/
inductive Extra where
  | cmds (items : List Cmd)
  | altstack (items : Stack)
  | z (value : JsValue)
  | absent

/-- A function of the table `OP_CODE_FUNCTIONS`, called as `operation(stack, extra)`: it
returns a truth value and leaves the two arrays changed, or raises, or (`none`) does not
return. -/
abbrev Operation := Stack → Extra → Option (Except JsError (Bool × Stack × Extra))

/-- The names that script.js imports from op.js and that op.js does not define: the table
`OP_CODE_FUNCTIONS` (an opcode without an entry reads `undefined`) and the three handlers
that the pay-to-script-hash branch calls by name. -/
structure OpImports where
  OP_CODE_FUNCTIONS : Nat → Option Operation
  opHash160 : Stack → Option (Except JsError (Bool × Stack))
  opEqual : Stack → Option (Except JsError (Bool × Stack))
  opVerify : Stack → Option (Except JsError (Bool × Stack))

namespace Script

/-- What one round of the `while (cmds.length > 0)` loop does: `return false`, raise, not
return at all, or go on with the three arrays changed. -/
inductive Step where
  | returns (value : Bool)
  | raises (e : JsError)
  | hangs
  | continues (cmds : List Cmd) (stack : Stack) (altstack : Stack)

/-- `if (!operation(stack, extra)) return false`, for the handler and second argument that
belong to the opcode. -/
def callOperation (operation : Operation) (stack : Stack) (extra : Extra)
    (cmds : List Cmd) (altstack : Stack) : Step :=
  match operation stack extra with
  | none => .hangs
  | some (.error e) => .raises e
  | some (.ok (false, _, _)) => .returns false
  | some (.ok (true, stack, extra)) =>
    match extra with
    | .cmds items => .continues items stack altstack
    | .altstack items => .continues cmds stack items
    | _ => .continues cmds stack altstack

/-- The pay-to-script-hash branch (script.js 181-197), entered with `cmds` already
emptied by the three `shift()`s. -/
def p2sh (imp : OpImports) (cmd h160 : List Nat) (stack altstack : Stack) : Step :=
  match imp.opHash160 stack with
  | none => .hangs
  | some (.error e) => .raises e
  | some (.ok (false, _)) => .returns false
  | some (.ok (true, stack)) =>
    match imp.opEqual (stack ++ [h160]) with
    | none => .hangs
    | some (.error e) => .raises e
    | some (.ok (false, _)) => .returns false
    | some (.ok (true, stack)) =>
      match imp.opVerify stack with
      | none => .hangs
      | some (.error e) => .raises e
      | some (.ok (false, _)) => .returns false
      | some (.ok (true, stack)) =>
        match encodeVarint cmd.length with
        | .error e => .raises e
        | .ok prefix_ =>
          match Script.parse (prefix_ ++ cmd) with
          | none => .hangs
          | some (.error e) => .raises e
          | some (.ok redeem) => .continues redeem.cmds stack altstack

/-- The second argument of the call `operation(stack, ..)` for an opcode (script.js
148-171). -/
def extraFor (code : Nat) (cmds : List Cmd) (altstack : Stack) (z : JsValue) : Extra :=
  if code = 99 ∨ code = 100 then .cmds cmds
  else if code = 107 ∨ code = 108 then .altstack altstack
  else if code = 172 ∨ code = 173 ∨ code = 174 ∨ code = 175 then .z z
  else .absent

/-- One round of the loop of `evaluate`, for the instruction `cmd` taken off the front of
the instructions and the remaining instructions `cmds`.  An opcode without an entry in the
table reads `undefined`, and calling that raises `TypeError`. -/
def step (imp : OpImports) (z : JsValue) (cmd : Cmd) (cmds : List Cmd)
    (stack altstack : Stack) : Step :=
  match cmd with
  | .op code =>
    match imp.OP_CODE_FUNCTIONS code with
    | none => .raises .TypeError
    | some operation =>
      callOperation operation stack (extraFor code cmds altstack z) cmds altstack
  | .data bytes =>
    let stack := stack ++ [bytes]
    match cmds with
    | [.op 0xa9, .data h160, .op 0x87] =>
      if h160.length = 20 then p2sh imp bytes h160 stack altstack
      else .continues cmds stack altstack
    | _ => .continues cmds stack altstack

/-- The value that `evaluate` returns when the instructions are used up (script.js
202-205): false for an empty stack or an empty top element. -/
def verdict (stack : Stack) : Bool :=
  !(decide (stack.length = 0) || decide (stack.getLastD [] = []))

/-- The loop of `evaluate`, for at most `fuel` tests of `cmds.length > 0`. -/
def evaluateLoop (imp : OpImports) (z : JsValue) :
    Nat → List Cmd → Stack → Stack → Option (Except JsError Bool)
  | 0, _, _, _ => none
  | _ + 1, [], stack, _ => some (.ok (verdict stack))
  | fuel + 1, cmd :: cmds, stack, altstack =>
    match step imp z cmd cmds stack altstack with
    | .returns value => some (.ok value)
    | .raises e => some (.error e)
    | .hangs => none
    | .continues cmds stack altstack => evaluateLoop imp z fuel cmds stack altstack

/-- `evaluate(z)` (script.js 138-206). -/
def evaluate (imp : OpImports) (fuel : Nat) (this : Script) (z : JsValue) :
    Option (Except JsError Bool) :=
  evaluateLoop imp z fuel this.cmds [] []

/-- Rounds of the loop, none of which returns or raises, use up the instructions
`cmds` and leave the stack `final`. -/
inductive Reaches (imp : OpImports) (z : JsValue) :
    List Cmd → Stack → Stack → Stack → Prop where
  | done (stack altstack : Stack) : Reaches imp z [] stack altstack stack
  | round {cmd : Cmd} {cmds cmds' : List Cmd} {stack altstack stack' altstack' final : Stack} :
      step imp z cmd cmds stack altstack = .continues cmds' stack' altstack' →
      Reaches imp z cmds' stack' altstack' final →
      Reaches imp z (cmd :: cmds) stack altstack final

/-- Rounds of the loop, none of which returns or raises, lead to a round that returns
false. -/
inductive Aborts (imp : OpImports) (z : JsValue) : List Cmd → Stack → Stack → Prop where
  | here {cmd : Cmd} {cmds : List Cmd} {stack altstack : Stack} :
      step imp z cmd cmds stack altstack = .returns false →
      Aborts imp z (cmd :: cmds) stack altstack
  | later {cmd : Cmd} {cmds cmds' : List Cmd} {stack altstack stack' altstack' : Stack} :
      step imp z cmd cmds stack altstack = .continues cmds' stack' altstack' →
      Aborts imp z cmds' stack' altstack' →
      Aborts imp z (cmd :: cmds) stack altstack

end Script

/-- Modelled from the spec: the table `OP_CODE_FUNCTIONS` and the imports `opHash160`,
`opEqual`, `opVerify`, which no file of the repository defines; the spec (4.6, 6) has
every opcode invoke the handler of its name.  The table holds the handlers of op.js
that the claims settled so far use: `OP_VERIFY` (105), `OP_DUP` (118), `OP_EQUAL` (135),
`OP_EQUALVERIFY` (136), `OP_HASH160` (169), `OP_CHECKSIG` (172). -/
def opImports (c : Crypto) : OpImports where
  OP_CODE_FUNCTIONS := fun code =>
    if code = 105 then some (fun stack extra =>
      some (.ok ((op_verify stack).1, (op_verify stack).2, extra)))
    else if code = 118 then some (fun stack extra =>
      some (.ok ((op_dup stack).1, (op_dup stack).2, extra)))
    else if code = 135 then some (fun stack extra =>
      (op_equal stack).map (fun r => .ok (r.1, r.2, extra)))
    else if code = 136 then some (fun stack extra =>
      (op_equalverify stack).map (fun r => .ok (r.1, r.2, extra)))
    else if code = 169 then some (fun stack extra =>
      some (.ok ((op_hash160 c stack).1, (op_hash160 c stack).2, extra)))
    else if code = 172 then some (fun stack extra =>
      match extra with
      | .z z => (op_checksig stack z).map (fun r => r.map (fun r => (r.1, r.2, extra)))
      | _ => (op_checksig stack .undefined).map (fun r => r.map (fun r => (r.1, r.2, extra))))
    else none
  opHash160 := fun stack => some (.ok (op_hash160 c stack))
  opEqual := fun stack => (op_equal stack).map .ok
  opVerify := fun stack => some (.ok (op_verify stack))

/-! ## tx.js -/

/-- `SIGHASH_ALL`. -/
def SIGHASH_ALL : Int := 1

/-- `num.toString(16)` for a field of a transaction, whatever it holds. -/
def JsValue.toString16 : JsValue → Except JsError (List Char)
  | .undefined => .error .TypeError
  | .null => .error .TypeError
  | .number v => .ok (toStringHex v)
  | .nan => .ok "NaN".toList
  | .string s => .ok s
  | .bigint v => .ok (toStringHex v)
  | .bigInteger v => .ok (toStringHex v)
  | .field _ => .ok "[object Object]".toList
  | .object .Object => .ok "[object Object]".toList
  | .object .Promise => .ok "[object Promise]".toList

/-- `intToLittleEndian(num, length)` (helper.js 70-75) for a field of a transaction. -/
def intToLittleEndianOf (num : JsValue) (length : Nat) : Except JsError (List Nat) := do
  let hex ← num.toString16
  pure (hexDecode (padStart (length * 2) hex)).reverse

/-- What the field `scriptSig` of a `TxIn` holds: a `Script`, or the promise that the
`async` method `scriptPubkey` returns (tx.js 168-175). -/
inductive ScriptValue where
  | script (s : Script)
  | promise
deriving DecidableEq, Repr

/-- The fields of a `TxIn` object. -/
structure TxIn where
  prevTx : List Nat
  prevIndex : JsValue
  scriptSig : ScriptValue
  sequence : JsValue
deriving DecidableEq, Repr

/-- The fields of a `TxOut` object. -/
structure TxOut where
  amount : JsValue
  scriptPubkey : Script
deriving DecidableEq, Repr

/-- The fields of a `Tx` object. -/
structure Tx where
  version : JsValue
  txIns : List TxIn
  txOuts : List TxOut
  locktime : JsValue
  testnet : Bool
deriving DecidableEq, Repr

namespace TxIn

/-- `TxIn.parse(buffer)` (tx.js 250-259).  `sequence` is read from
`buffer.slice(buffer.length - 4)`, the last four bytes of everything that is left of the
transaction; `scriptSig.size()` names a method that `Script` does not have. -/
def parse (buffer : List Nat) : Option (Except JsError (TxIn × List Nat)) :=
  let _prevTx := (buffer.take 32).reverse
  let _prevIndex := littleEndianToInt ((buffer.drop 32).take 4)
  match Script.parse (buffer.drop 36) with
  | none => none
  | some (.error e) => some (.error e)
  | some (.ok _scriptSig) =>
    let _sequence := littleEndianToInt (buffer.drop (buffer.length - 4))
    some (.error .TypeError)

/-- `serialize()` (tx.js 261-267), with the receiver as it is afterwards: `Buffer.reverse`
reverses `this.prevTx` in place, before anything can raise. -/
def serialize (this : TxIn) : Except JsError (List Nat) × TxIn :=
  let this' : TxIn := { this with prevTx := this.prevTx.reverse }
  let result : Except JsError (List Nat) := do
    let result := this'.prevTx
    let result := result ++ (← intToLittleEndianOf this.prevIndex 4)
    let script ← match this.scriptSig with
      | .script s => s.serialize
      | .promise => .error .TypeError
    let result := result ++ script
    pure (result ++ (← intToLittleEndianOf this.sequence 4))
  (result, this')

/-- `value(testnet)` (tx.js 273-276): an `async` method; the call returns a promise and
raises nothing. -/
def value (_this : TxIn) (_testnet : Bool) : JsValue :=
  .object .Promise

/-- `scriptPubkey(testnet)` (tx.js 278-281): an `async` method as well. -/
def scriptPubkey (_this : TxIn) (_testnet : Bool) : ScriptValue :=
  .promise

end TxIn

namespace TxOut

/-- `TxOut.parse(buffer)` (tx.js 294-301). -/
def parse (buffer : List Nat) : Option (Except JsError (TxOut × List Nat)) :=
  let _amount := littleEndianToInt (buffer.take 8)
  match Script.parse (buffer.drop 8) with
  | none => none
  | some (.error e) => some (.error e)
  | some (.ok _scriptPubkey) => some (.error .TypeError)

/-- `serialize()` (tx.js 303-307). -/
def serialize (this : TxOut) : Except JsError (List Nat) := do
  let result ← intToLittleEndianOf this.amount 8
  pure (result ++ (← this.scriptPubkey.serialize))

end TxOut

namespace Tx

/-- The loop `for (let i = 0; i < numInputs; i++)` of `Tx.parse` (tx.js 115-119). -/
def parseInputs (numInputs : JsValue) :
    Nat → Nat → List Nat → List TxIn → Option (Except JsError (List TxIn × List Nat))
  | 0, _, _, _ => none
  | fuel + 1, i, buf, inputs =>
    if JsValue.opLt (.number i) numInputs then
      match TxIn.parse buf with
      | none => none
      | some (.error e) => some (.error e)
      | some (.ok (txIn, rest)) => parseInputs numInputs fuel (i + 1) rest (inputs ++ [txIn])
    else some (.ok (inputs, buf))

/-- The loop `for (let i = 0; i < numOutputs; i++)` of `Tx.parse` (tx.js 126-130). -/
def parseOutputs (numOutputs : JsValue) :
    Nat → Nat → List Nat → List TxOut → Option (Except JsError (List TxOut × List Nat))
  | 0, _, _, _ => none
  | fuel + 1, i, buf, outputs =>
    if JsValue.opLt (.number i) numOutputs then
      match TxOut.parse buf with
      | none => none
      | some (.error e) => some (.error e)
      | some (.ok (txOut, rest)) =>
        parseOutputs numOutputs fuel (i + 1) rest (outputs ++ [txOut])
    else some (.ok (outputs, buf))

/-- `Tx.parse(buffer, testnet)` (tx.js 107-134), with `fuel` rounds for each loop. -/
def parse (fuel : Nat) (buffer : List Nat) (testnet : Bool) : Option (Except JsError Tx) :=
  let version := littleEndianToInt (buffer.take 4)
  match readVarint (buffer.drop 4) with
  | .error e => some (.error e)
  | .ok ⟨numInputs, inputsBuffer⟩ =>
    match parseInputs numInputs fuel 0 inputsBuffer [] with
    | none => none
    | some (.error e) => some (.error e)
    | some (.ok (inputs, buf)) =>
      match readVarint buf with
      | .error e => some (.error e)
      | .ok ⟨numOutputs, outputsBuffer⟩ =>
        match parseOutputs numOutputs fuel 0 outputsBuffer [] with
        | none => none
        | some (.error e) => some (.error e)
        | some (.ok (outputs, buf)) =>
          let locktime := littleEndianToInt (buf.take 4)
          some (.ok ⟨version, inputs, outputs, locktime, testnet⟩)

/-- The loop over `this.txIns` in `serialize`: every input is serialised, and changed by
it, until one raises. -/
def serializeInputs : List TxIn → List Nat → Except JsError (List Nat) × List TxIn
  | [], result => (.ok result, [])
  | txIn :: rest, result =>
    match txIn.serialize with
    | (.error e, txIn') => (.error e, txIn' :: rest)
    | (.ok bytes, txIn') =>
      let (r, rest') := serializeInputs rest (result ++ bytes)
      (r, txIn' :: rest')

/-- The loop over `this.txOuts` in `serialize` and in `sigHash`. -/
def serializeOutputs (txOuts : List TxOut) (result : List Nat) : Except JsError (List Nat) :=
  txOuts.foldlM (fun result txOut => do pure (result ++ (← txOut.serialize))) result

/-- `serialize()` (tx.js 136-148), with the transaction as it is afterwards. -/
def serialize (this : Tx) : Except JsError (List Nat) × Tx :=
  match (do
      let result ← intToLittleEndianOf this.version 4
      pure (result ++ (← encodeVarint this.txIns.length)) : Except JsError (List Nat)) with
  | .error e => (.error e, this)
  | .ok result =>
    match serializeInputs this.txIns result with
    | (.error e, txIns) => (.error e, { this with txIns := txIns })
    | (.ok result, txIns) =>
      ((do
        let result := result ++ (← encodeVarint this.txOuts.length)
        let result ← serializeOutputs this.txOuts result
        pure (result ++ (← intToLittleEndianOf this.locktime 4))),
       { this with txIns := txIns })

/-- `fee()` (tx.js 150-160): `inputSum += txIn.value(..)` adds a promise to the sum. -/
def fee (this : Tx) : Except JsError JsValue := do
  let inputSum ← this.txIns.foldlM
    (fun inputSum txIn => JsValue.opAdd inputSum (txIn.value this.testnet)) (.number 0)
  let outputSum ← this.txOuts.foldlM
    (fun outputSum txOut => JsValue.opAdd outputSum txOut.amount) (.number 0)
  JsValue.opSub inputSum outputSum

/-- The `forEach` of `sigHash` (tx.js 166-189): a new `TxIn` is built around the same
`prevTx` buffer and serialised, which reverses the buffer of the transaction's input; the
script is the promise of `scriptPubkey` at `inputIndex` and the default `new Script()`
elsewhere. -/
def sigHashInputs (testnet : Bool) (inputIndex : Nat) :
    List TxIn → Nat → List Nat → Except JsError (List Nat) × List TxIn
  | [], _, s => (.ok s, [])
  | txIn :: rest, i, s =>
    let script : ScriptValue :=
      if i = inputIndex then txIn.scriptPubkey testnet else .script ⟨[]⟩
    match TxIn.serialize ⟨txIn.prevTx, txIn.prevIndex, script, txIn.sequence⟩ with
    | (.error e, copy) => (.error e, { txIn with prevTx := copy.prevTx } :: rest)
    | (.ok bytes, copy) =>
      let (r, rest') := sigHashInputs testnet inputIndex rest (i + 1) (s ++ bytes)
      (r, { txIn with prevTx := copy.prevTx } :: rest')

/-- `sigHash(inputIndex)` (tx.js 162-200), with the transaction as it is afterwards; the
result is the BigInt read from the digest. -/
def sigHash (c : Crypto) (this : Tx) (inputIndex : Nat) : Except JsError Int × Tx :=
  match (do
      let s ← intToLittleEndianOf this.version 4
      pure (s ++ (← encodeVarint this.txIns.length)) : Except JsError (List Nat)) with
  | .error e => (.error e, this)
  | .ok s =>
    match sigHashInputs this.testnet inputIndex this.txIns 0 s with
    | (.error e, txIns) => (.error e, { this with txIns := txIns })
    | (.ok s, txIns) =>
      ((do
        let s := s ++ (← encodeVarint this.txOuts.length)
        let s ← serializeOutputs this.txOuts s
        let s := s ++ (← intToLittleEndianOf this.locktime 4)
        let s := s ++ intToLittleEndian SIGHASH_ALL 4
        pure (Int.ofNat (bigEndian (hash256 c s)))),
       { this with txIns := txIns })

/-- `verifyInput(inputIndex)` (tx.js 202-208).  `scriptPubkey` is a promise, so
`txIn.scriptSig + scriptPubkey` is a string, and a string has no method `evaluate`. -/
def verifyInput (c : Crypto) (this : Tx) (inputIndex : Nat) : Except JsError Bool × Tx :=
  match this.txIns.get? inputIndex with
  | none => (.error .TypeError, this)
  | some _txIn =>
    match sigHash c this inputIndex with
    | (.error e, this') => (.error e, this')
    | (.ok _z, this') => (.error .TypeError, this')

/-- The loop `for (let i = 0; i < this.txIns.length; i++)` of `verify`. -/
def verifyInputs (c : Crypto) : Nat → Nat → Tx → Except JsError Bool × Tx
  | 0, _, this => (.ok true, this)
  | remaining + 1, i, this =>
    match verifyInput c this i with
    | (.error e, this') => (.error e, this')
    | (.ok false, this') => (.ok false, this')
    | (.ok true, this') => verifyInputs c remaining (i + 1) this'

/-- `verify()` (tx.js 210-220). -/
def verify (c : Crypto) (this : Tx) : Except JsError Bool × Tx :=
  match this.fee with
  | .error e => (.error e, this)
  | .ok fee =>
    if JsValue.opLt fee (.number 0) then (.ok false, this)
    else verifyInputs c this.txIns.length 0 this

/-- `signInput(inputIndex, privateKey)` (tx.js 222-230): `sigHash`, then
`privateKey.sign(z).toDer()`; `Signature` has a method `der`, none called `toDer`. -/
def signInput (c : Crypto) (deterministicK : Int → JsValue → Except JsError Int)
    (this : Tx) (inputIndex : Nat) (secret : Int) : Except JsError Bool × Tx :=
  match sigHash c this inputIndex with
  | (.error e, this') => (.error e, this')
  | (.ok z, this') =>
    match PrivateKey.sign deterministicK secret (.bigint z) with
    | .error e => (.error e, this')
    | .ok _sig => (.error .TypeError, this')

end Tx

/-! # Theorems -/

/-! ## Arithmetic of the `big-integer` loops -/

theorem bigInt.mod_ok {a b : Int} (ha : 0 ≤ a) (hb : 0 < b) :
    bigInt.mod a b = .ok (a % b) := by
  unfold bigInt.mod
  rw [if_neg (by omega), Int.tmod_eq_emod ha (by omega)]

/-- The loop of `modPow` on a non-negative exponent `n`, with enough fuel, returns
`r * base ^ n` reduced modulo `m`. -/
theorem bigInt.modPowLoop_eq (m : Int) (hm : 0 < m) :
    ∀ (fuel : Nat) (r base : Int) (n : Nat), n ≤ fuel → 0 ≤ r → r < m → 0 ≤ base →
      bigInt.modPowLoop m fuel r base (n : Int) = (r * base ^ n) % m := by
  intro fuel
  induction fuel with
  | zero =>
    intro r base n hn hr0 hrm _
    have : n = 0 := by omega
    subst this
    simp [bigInt.modPowLoop, Int.emod_eq_of_lt hr0 hrm]
  | succ fuel ih =>
    intro r base n hn hr0 hrm hb0
    unfold bigInt.modPowLoop
    by_cases hpos : (0 : Int) < (n : Int)
    · rw [if_pos hpos]
      have hn0 : n ≠ 0 := by omega
      by_cases hbz : base = 0
      · rw [if_pos hbz, hbz, zero_pow hn0]
        simp
      · rw [if_neg hbz]
        have hdiv : (n : Int).tdiv 2 = ((n / 2 : Nat) : Int) := by
          rw [Int.tdiv_eq_ediv (by omega) (by norm_num)]
          norm_cast
        have hsq : (base * base).tmod m = (base * base) % m :=
          Int.tmod_eq_emod (mul_nonneg hb0 hb0) (by omega)
        have hrb : (r * base).tmod m = (r * base) % m :=
          Int.tmod_eq_emod (mul_nonneg hr0 hb0) (by omega)
        rw [hdiv, hsq, hrb]
        have hb' : 0 ≤ (base * base) % m := Int.emod_nonneg _ (by omega)
        have key : ((base * base) % m) ^ (n / 2) ≡ base ^ (2 * (n / 2)) [ZMOD m] := by
          have h1 : (base * base) % m ≡ base * base [ZMOD m] := Int.mod_modEq _ _
          have h2 := h1.pow (n / 2)
          have h3 : (base * base) ^ (n / 2) = base ^ (2 * (n / 2)) := by
            rw [pow_mul, pow_two]
          rw [h3] at h2
          exact h2
        by_cases hodd : (n : Int) % 2 = 1
        · rw [if_pos hodd]
          have hn2 : n = 2 * (n / 2) + 1 := by omega
          rw [ih _ _ (n / 2) (by omega) (Int.emod_nonneg _ (by omega))
            (Int.emod_lt_of_pos _ hm) hb']
          have h3 : (r * base) % m ≡ r * base [ZMOD m] := Int.mod_modEq _ _
          have h4 := h3.mul key
          have h5 : r * base * base ^ (2 * (n / 2)) = r * base ^ n := by
            conv_rhs => rw [hn2]
            ring
          rw [h5] at h4
          exact h4
        · rw [if_neg hodd]
          have hn2 : n = 2 * (n / 2) := by omega
          rw [ih _ _ (n / 2) (by omega) hr0 hrm hb']
          have h4 := (Int.ModEq.refl r).mul key
          rw [← hn2] at h4
          exact h4
    · rw [if_neg hpos]
      have : n = 0 := by omega
      subst this
      simp [Int.emod_eq_of_lt hr0 hrm]

/-- `b.modPow(e, m)` for `b ≥ 0`, `e ≥ 0` and `m > 1` is `b ^ e mod m`. -/
theorem bigInt.modPow_eq {b m : Int} (n : Nat) (hb : 0 ≤ b) (hm : 1 < m) :
    bigInt.modPow b (n : Int) m = .ok (b ^ n % m) := by
  unfold bigInt.modPow
  rw [if_neg (by omega), if_neg (by omega)]
  simp only [Int.toNat_ofNat, pure, Except.pure]
  rw [bigInt.modPowLoop_eq m (by omega) n 1 _ n le_rfl (by omega) hm
    (by rw [Int.tmod_eq_emod hb (by omega)]; exact Int.emod_nonneg _ (by omega))]
  rw [Int.tmod_eq_emod hb (by omega), one_mul]
  congr 1
  exact (Int.ModEq.pow n (Int.mod_modEq b m))

/-! ## `FieldElement` : the constructor and the binary operations -/

theorem FieldElement.new_raises (num prime : Int) :
    FieldElement.new num prime = .error .TypeError := rfl

theorem FieldElement.not_constructed (x : FieldElement) : ¬ x.Constructed := by
  intro h
  unfold FieldElement.Constructed at h
  rw [FieldElement.new_raises] at h
  cases h

/-- A remainder handed to the constructor: the call raises, with the `Error` of the
division for a zero modulus and the `TypeError` of the constructor otherwise. -/
theorem FieldElement.mod_new_raises (v p : Int) :
    (bigInt.mod v p >>= fun num => FieldElement.new num p)
      = .error (if p = 0 then .Error else .TypeError) := by
  unfold bigInt.mod
  by_cases hp : p = 0
  · rw [if_pos hp, if_pos hp]
    rfl
  · rw [if_neg hp, if_neg hp]
    rfl

theorem FieldElement.add_raises (a b : FieldElement) : ∃ e, a.add b = .error e := by
  unfold FieldElement.add
  split_ifs
  · exact ⟨_, rfl⟩
  · exact ⟨_, FieldElement.mod_new_raises _ _⟩

theorem FieldElement.sub_raises (a b : FieldElement) : ∃ e, a.sub b = .error e := by
  unfold FieldElement.sub
  split_ifs
  · exact ⟨_, rfl⟩
  · exact ⟨_, FieldElement.mod_new_raises _ _⟩

theorem FieldElement.mul_raises (a b : FieldElement) : ∃ e, a.mul b = .error e := by
  unfold FieldElement.mul
  split_ifs
  · exact ⟨_, rfl⟩
  · exact ⟨_, FieldElement.mod_new_raises _ _⟩

theorem FieldElement.truediv_raises (a b : FieldElement) : ∃ e, a.truediv b = .error e := by
  unfold FieldElement.truediv
  split_ifs
  · exact ⟨_, rfl⟩
  · cases bigInt.modPow b.num (a.prime - 2) a.prime with
    | error e => exact ⟨e, rfl⟩
    | ok inv => exact ⟨_, FieldElement.mod_new_raises _ _⟩

theorem FieldElement.pow_raises (x : FieldElement) (exponent : JsValue) :
    ∃ e, x.pow exponent = .error e := by
  unfold FieldElement.pow
  split
  · rename_i e
    cases bigInt.mod e (x.prime - 1) with
    | error err => exact ⟨err, rfl⟩
    | ok n =>
      cases hpow : bigInt.modPow x.num n x.prime with
      | error err => exact ⟨err, by simp only [bind, Except.bind, hpow]⟩
      | ok num => exact ⟨.TypeError, by simp only [bind, Except.bind, hpow]; rfl⟩
  · exact ⟨_, rfl⟩

/-- C7 (code at `new FieldElement(bigInt(1), bigInt(7))` and
`new FieldElement(bigInt(2), bigInt(7))`, and at every input): the constructor raises
`TypeError` at `num.ge(prime)`, a method the big-integer package does not have, so no
`FieldElement` is ever constructed.  `add`, `sub` and `mul` end in a call of the
constructor: on objects with the fields `(1, 7)` and `(2, 7)` each raises `TypeError`
instead of returning the residues 3, 6 and 2, and on no pair of objects does any of them
return.  The values computed before the constructor is called are 3 and 2 for `add` and
`mul`, and `-1` for `sub`: the remainder of the package keeps the sign of the dividend. -/
theorem C7_field_operations_raise :
    FieldElement.new 1 7 = .error .TypeError ∧
    FieldElement.new 2 7 = .error .TypeError ∧
    (∀ num prime : Int, FieldElement.new num prime = .error .TypeError) ∧
    (∀ x : FieldElement, ¬ x.Constructed) ∧
    FieldElement.add ⟨1, 7⟩ ⟨2, 7⟩ = .error .TypeError ∧
    FieldElement.sub ⟨1, 7⟩ ⟨2, 7⟩ = .error .TypeError ∧
    FieldElement.mul ⟨1, 7⟩ ⟨2, 7⟩ = .error .TypeError ∧
    (∀ a b : FieldElement, ∃ e, a.add b = .error e) ∧
    (∀ a b : FieldElement, ∃ e, a.sub b = .error e) ∧
    (∀ a b : FieldElement, ∃ e, a.mul b = .error e) ∧
    bigInt.mod (1 + 2) 7 = .ok 3 ∧ bigInt.mod (1 * 2) 7 = .ok 2 ∧
    bigInt.mod (1 - 2) 7 = .ok (-1) :=
  ⟨rfl, rfl, FieldElement.new_raises, FieldElement.not_constructed, by decide, by decide,
    by decide, FieldElement.add_raises, FieldElement.sub_raises, FieldElement.mul_raises,
    by decide, by decide, by decide⟩

/-! ## `FieldElement.truediv` and `FieldElement.pow` -/

theorem fermat_inverse (p : Nat) (hp : p.Prime) (B : Int) (hB0 : 0 < B) (hBp : B < p) :
    B ^ (p - 2) * B ≡ 1 [ZMOD p] := by
  have h2 : 2 ≤ p := hp.two_le
  have hpow : B ^ (p - 2) * B = B ^ (p - 1) := by
    rw [← pow_succ]
    congr 1
    omega
  rw [hpow]
  apply Int.ModEq.pow_card_sub_one_eq_one hp
  obtain ⟨k, rfl⟩ := Int.eq_ofNat_of_zero_le hB0.le
  rw [Nat.isCoprime_iff_coprime]
  exact (Nat.coprime_of_lt_prime (by omega) (by omega) hp).symm

/-- The inverse that `truediv` computes: over a prime `p`, `b.modPow(p - 2, p)` returns a
value whose product with `b` is 1 modulo `p`. -/
theorem bigInt.modPow_inverse (p : Nat) (hp : p.Prime) (bn : Int) (h0 : 0 < bn)
    (hlt : bn < p) :
    ∃ inv, bigInt.modPow bn ((p : Int) - 2) p = .ok inv ∧ (inv * bn) % p = 1 := by
  have h2 : 2 ≤ p := hp.two_le
  have hpm : ((p : Int) - 2) = ((p - 2 : Nat) : Int) := by omega
  refine ⟨bn ^ (p - 2) % (p : Int), ?_, ?_⟩
  · rw [hpm, bigInt.modPow_eq (p - 2) h0.le (by omega)]
  · have hinv := fermat_inverse p hp bn h0 hlt
    have e1 : bn ^ (p - 2) % (p : Int) * bn ≡ bn ^ (p - 2) * bn [ZMOD p] :=
      (Int.mod_modEq _ _).mul (Int.ModEq.refl bn)
    have e2 := e1.trans hinv
    unfold Int.ModEq at e2
    rw [e2]
    exact Int.emod_eq_of_lt (by omega) (by omega)

/-- Fermat's check on the package's `modPow`: over a prime `p`, `x.modPow(p - 1, p)` is 1
for `0 < x < p`. -/
theorem bigInt.modPow_fermat (p : Nat) (hp : p.Prime) (xn : Int) (h0 : 0 < xn)
    (hlt : xn < p) : bigInt.modPow xn ((p : Int) - 1) p = .ok 1 := by
  have h2 : 2 ≤ p := hp.two_le
  have hpm : ((p : Int) - 1) = ((p - 1 : Nat) : Int) := by omega
  rw [hpm, bigInt.modPow_eq (p - 1) h0.le (by omega)]
  congr 1
  have hf := fermat_inverse p hp xn h0 hlt
  have hpow : xn ^ (p - 2) * xn = xn ^ (p - 1) := by
    rw [← pow_succ]
    congr 1
    omega
  rw [hpow] at hf
  unfold Int.ModEq at hf
  rw [hf]
  exact Int.emod_eq_of_lt (by omega) (by omega)

/-- C8 (code at objects with the fields `(3, 7)` and `(2, 7)`, and at every input):
`a.truediv(b)` raises `TypeError` instead of returning the quotient 5: the method ends in
`new FieldElement(num, this.prime)`, and the constructor raises at `num.ge(prime)`.  On no
pair of objects does `truediv` return, so no element `c` with `c.mul(b)` equal to `a` is
produced.  What the method computes before it calls the constructor is the quotient: the
inverse is `2.modPow(5, 7) = 4` and the remainder of `3 * 4` is 5, and over every prime `p`
the value of `b.modPow(p - 2, p)` times `b` is 1 modulo `p`. -/
theorem C8_truediv_returns_no_quotient :
    FieldElement.truediv ⟨3, 7⟩ ⟨2, 7⟩ = .error .TypeError ∧
    (∀ a b : FieldElement, ∃ e, a.truediv b = .error e) ∧
    bigInt.modPow 2 (7 - 2) 7 = .ok 4 ∧ bigInt.mod (3 * 4) 7 = .ok 5 ∧
    (∀ p : Nat, p.Prime → ∀ bn : Int, 0 < bn → bn < p →
      ∃ inv, bigInt.modPow bn ((p : Int) - 2) p = .ok inv ∧ (inv * bn) % p = 1) :=
  ⟨by decide, FieldElement.truediv_raises, by decide, by decide, bigInt.modPow_inverse⟩

/-- C9: for every `FieldElement` object `a` and the zero element `z` of the same modulus,
`a.truediv(z)` fails with an error and returns no field element.  The method has no test of
the divisor: the error is the one every call of `truediv` ends in, the `TypeError` of the
constructor (or, for the modulus 0, the `Error` of the package's `modPow`). -/
theorem C9_truediv_by_zero_raises (a z : FieldElement) (hp : a.prime = z.prime)
    (hz0 : z.num = 0) :
    (∃ e, a.truediv z = .error e) ∧ ∀ c : FieldElement, a.truediv z ≠ .ok c := by
  obtain ⟨e, he⟩ := FieldElement.truediv_raises a z
  refine ⟨⟨e, he⟩, ?_⟩
  intro c hc
  rw [he] at hc
  cases hc

theorem C9_truediv_by_zero_raises_witness :
    (⟨3, 7⟩ : FieldElement).prime = (⟨0, 7⟩ : FieldElement).prime ∧
    (⟨0, 7⟩ : FieldElement).num = 0 ∧
    ((∃ e, FieldElement.truediv ⟨3, 7⟩ ⟨0, 7⟩ = .error e) ∧
      ∀ c : FieldElement, FieldElement.truediv ⟨3, 7⟩ ⟨0, 7⟩ ≠ .ok c) :=
  ⟨rfl, rfl, C9_truediv_by_zero_raises ⟨3, 7⟩ ⟨0, 7⟩ rfl rfl⟩

/-- C10 (code at an object with the fields `(3, 7)`, and at every input): `x.pow(p - 1)`
with `p - 1 = bigInt(6)` raises `TypeError` instead of returning the element 1: the method
ends in `new FieldElement(num, this.prime)`, and the constructor raises at `num.ge(prime)`.
On no object and with no exponent does `pow` return.  What the method computes before it
calls the constructor is 1: the exponent is reduced to `6 mod 6 = 0` and `3.modPow(0, 7)`
is 1, and over every prime `p` the unreduced `x.modPow(p - 1, p)` is 1 as well. -/
theorem C10_pow_returns_no_element :
    FieldElement.pow ⟨3, 7⟩ (.bigInteger 6) = .error .TypeError ∧
    (∀ (x : FieldElement) (exponent : JsValue), ∃ e, x.pow exponent = .error e) ∧
    bigInt.mod 6 (7 - 1) = .ok 0 ∧ bigInt.modPow 3 0 7 = .ok 1 ∧
    (∀ p : Nat, p.Prime → ∀ xn : Int, 0 < xn → xn < p →
      bigInt.modPow xn ((p : Int) - 1) p = .ok 1) :=
  ⟨by decide, FieldElement.pow_raises, by decide, by decide, bigInt.modPow_fermat⟩

/-! ## `PrivateKey.sign` and `S256Point.verify` -/

set_option maxRecDepth 100000

theorem JsValue.bigint_mul_G_raises (k : Int) :
    JsValue.opMul (.bigint k) G_operand = .error .TypeError := by
  rfl

theorem PrivateKey.sign_eq (deterministicK : Int → JsValue → Except JsError Int)
    (secret : Int) (z : JsValue) :
    PrivateKey.sign deterministicK secret z =
      (deterministicK secret z).bind (fun _ => .error .TypeError) := by
  unfold PrivateKey.sign
  cases deterministicK secret z with
  | error e => rfl
  | ok k =>
    simp only [bind, Except.bind, JsValue.bigint_mul_G_raises]

theorem S256Point.verify_raises (this : Point) (z : JsValue) (sig : Signature) :
    S256Point.verify this z sig = .error .TypeError := by
  unfold S256Point.verify
  split
  · rename_i s z r
    have hN : N ≠ 0 := by decide
    have hN2 : ¬ (N - 2 < 0) := by decide
    simp only [bigInt.modPow, bigInt.mod, hN, hN2, if_false, bind, Except.bind, pure,
      Except.pure]
  · rfl

/-- C1 (code at every input): `new PrivateKey(e)` raises `TypeError` at
`this.secret * G`, a BigInt times an object; `sign(z)` raises whatever `deterministicK`
raises, or else `TypeError` at `k * G`; and `verify(z, sig)` raises `TypeError` for every
point, hash and signature (`u.rmul(G)` on a big-integer value, or before that a method of
the big-integer package called on a BigInt primitive).  No signature is returned and none
is accepted. -/
theorem C1_sign_and_verify_raise (deterministicK : Int → JsValue → Except JsError Int)
    (secret : Int) (z : JsValue) (sig : Signature) (pub : Point) :
    PrivateKey.new secret = .error .TypeError ∧
    PrivateKey.sign deterministicK secret z =
      (deterministicK secret z).bind (fun _ => .error .TypeError) ∧
    S256Point.verify pub z sig = .error .TypeError :=
  ⟨rfl, PrivateKey.sign_eq deterministicK secret z, S256Point.verify_raises pub z sig⟩

/-! ## `Point` -/

theorem bigInt.pow_number_ok (v n : Int) : ∃ w, bigInt.pow v (.number n) = .ok w := by
  unfold bigInt.pow
  simp only [bigInt.parseValue, bind, Except.bind, pure, Except.pure]
  split_ifs <;> exact ⟨_, rfl⟩

/-- With a curve parameter `a` that is a `FieldElement`, the constructor returns only the
point at infinity: for any other coordinates the curve test raises before it compares
anything. -/
theorem Point.new_finite_raises (x y b : JsValue) (fa : FieldElement)
    (hfin : ¬ (x = .null ∧ y = .null)) :
    Point.new x y (.field fa) b = .error .TypeError := by
  unfold Point.new
  rw [if_neg hfin]
  cases y <;> try rfl
  case bigInteger v =>
    obtain ⟨w, hw⟩ := bigInt.pow_number_ok v 2
    have h1 : (JsValue.bigInteger v).callPow (.number 2) = .ok (.bigInteger w) := by
      simp [JsValue.callPow, hw, Functor.map, Except.map]
    simp only [h1, bind, Except.bind]
    cases x <;> try rfl
    case bigInteger u =>
      obtain ⟨w3, hw3⟩ := bigInt.pow_number_ok u 3
      have h3 : (JsValue.bigInteger u).callPow (.number 3) = .ok (.bigInteger w3) := by
        simp [JsValue.callPow, hw3, Functor.map, Except.map]
      simp only [h3]
      rfl

/-- C11 (code at the failing input): over the prime 223 the pair (192, 105) satisfies
`y^2 = x^3 + 7`, yet the constructor raises `TypeError` on it (`this.y.pow(2)` hands the
Number 2 to `FieldElement.pow`, which calls `exponent.mod`).  On point objects with these
fields `add` raises `TypeError` as well: in the chord case at `other.y.sub(this.y)`, which
ends in the constructor of `FieldElement`, in the doubling case at `bigInt(0).mul(this.x)`.
Only the vertical case returns (the point at infinity). -/
theorem C11_finite_points_raise :
    (105 ^ 2 : Int) % 223 = (192 ^ 3 + 0 * 192 + 7) % 223 ∧
    Point.new (.field ⟨192, 223⟩) (.field ⟨105, 223⟩) (.field ⟨0, 223⟩) (.field ⟨7, 223⟩)
      = .error .TypeError ∧
    Point.add ⟨.field ⟨192, 223⟩, .field ⟨105, 223⟩, .field ⟨0, 223⟩, .field ⟨7, 223⟩⟩
        ⟨.field ⟨17, 223⟩, .field ⟨56, 223⟩, .field ⟨0, 223⟩, .field ⟨7, 223⟩⟩
      = .error .TypeError ∧
    Point.add ⟨.field ⟨17, 223⟩, .field ⟨56, 223⟩, .field ⟨0, 223⟩, .field ⟨7, 223⟩⟩
        ⟨.field ⟨192, 223⟩, .field ⟨105, 223⟩, .field ⟨0, 223⟩, .field ⟨7, 223⟩⟩
      = .error .TypeError ∧
    Point.add ⟨.field ⟨192, 223⟩, .field ⟨105, 223⟩, .field ⟨0, 223⟩, .field ⟨7, 223⟩⟩
        ⟨.field ⟨192, 223⟩, .field ⟨105, 223⟩, .field ⟨0, 223⟩, .field ⟨7, 223⟩⟩
      = .error .TypeError ∧
    Point.add ⟨.field ⟨192, 223⟩, .field ⟨105, 223⟩, .field ⟨0, 223⟩, .field ⟨7, 223⟩⟩
        ⟨.field ⟨192, 223⟩, .field ⟨118, 223⟩, .field ⟨0, 223⟩, .field ⟨7, 223⟩⟩
      = .ok (some ⟨.null, .null, .field ⟨0, 223⟩, .field ⟨7, 223⟩⟩) := by
  decide

/-- On the point at infinity the loop of `rmul` never ends: `coef` is an object of the
big-integer package, which is true in a condition also when it stands for 0, and doubling
the point at infinity raises nothing. -/
theorem Point.rmulLoop_infinity_never_returns (fa fb : FieldElement) :
    ∀ (fuel : Nat) (c : Int),
      Point.rmulLoop fuel (.bigInteger c) (some ⟨.null, .null, .field fa, .field fb⟩)
        (some ⟨.null, .null, .field fa, .field fb⟩) = none := by
  intro fuel
  induction fuel with
  | zero => intro c; rfl
  | succ fuel ih =>
    intro c
    have hadd : Point.addTo (some ⟨.null, .null, .field fa, .field fb⟩)
        (some ⟨.null, .null, .field fa, .field fb⟩)
        = .ok (some ⟨.null, .null, .field fa, .field fb⟩) := by
      simp [Point.addTo, Point.add, JsValue.callEquals, FieldElement.equals, bind,
        Except.bind, pure, Except.pure]
    unfold Point.rmulLoop
    simp only [JsValue.truthy, if_true, hadd, ite_self]
    exact ih _

/-- With a finite point whose fields are elements of the field, the first round of the
loop of `rmul` raises `TypeError`, at `current.add(current)`. -/
theorem Point.add_self_finite_raises (fx fy fa fb : FieldElement) :
    Point.add ⟨.field fx, .field fy, .field fa, .field fb⟩
      ⟨.field fx, .field fy, .field fa, .field fb⟩ = .error .TypeError := by
  simp [Point.add, Point.equals, JsValue.callEquals, JsValue.callMul, bigInt.parseValue,
    FieldElement.equals, bind, Except.bind, pure, Except.pure]

/-- C12 (code at the failing input): the binding of `G` itself raises `TypeError`
(`S256Field(A)` is called without `new`); on the generator as a point object
`rmul(bigInt(0))` and `rmul(N)` raise `TypeError` in the first round of the loop, at
`current.add(current)`; and on the point at infinity the loop never ends, whatever the
fuel, because `while (coef)` tests an object.  In no case is the point at infinity
returned. -/
theorem C12_rmul_raises_or_never_returns :
    G = .error .TypeError ∧
    (∀ fuel : Nat, S256Point.rmul (fuel + 1) generator (.bigInteger 0)
      = some (.error .TypeError)) ∧
    (∀ fuel : Nat, S256Point.rmul (fuel + 1) generator (.bigInteger N)
      = some (.error .TypeError)) ∧
    (∀ fuel : Nat, S256Point.rmul fuel ⟨.null, .null, .field ⟨A, P⟩, .field ⟨B, P⟩⟩
      (.bigInteger 0) = none) := by
  have hG : Point.addTo (some generator) (some generator) = .error .TypeError :=
    Point.add_self_finite_raises _ _ _ _
  have hnew : Point.new .null .null generator.a generator.b
      = .ok ⟨.null, .null, generator.a, generator.b⟩ := rfl
  have h0 : bigInt.mod 0 N = .ok 0 := by decide
  have hN : bigInt.mod N N = .ok 0 := by decide
  refine ⟨by decide, ?_, ?_, ?_⟩
  · intro fuel
    simp only [S256Point.rmul, h0, Point.rmul, hnew, Point.rmulLoop, JsValue.truthy, if_true]
    simp [hG]
  · intro fuel
    simp only [S256Point.rmul, hN, Point.rmul, hnew, Point.rmulLoop, JsValue.truthy, if_true]
    simp [hG]
  · intro fuel
    simp only [S256Point.rmul, h0, Point.rmul]
    have : Point.new .null .null (.field ⟨A, P⟩) (.field ⟨B, P⟩)
        = .ok ⟨.null, .null, .field ⟨A, P⟩, .field ⟨B, P⟩⟩ := rfl
    simp only [this]
    exact Point.rmulLoop_infinity_never_returns _ _ fuel 0

/-! ## `S256Point.sec`, `S256Point.parse` -/

/-- `S256Point.parse` raises on every byte string: with the prefix 4 at the default
parameter `S256Field(A)` of `new S256Point(x, y)`, and otherwise at `new S256Field(..)`,
whose constructor raises at `num.ge(prime)`. -/
theorem S256Point.parse_raises (secBin : List Nat) :
    S256Point.parse secBin = .error .TypeError ∨ S256Point.parse secBin = .error .Error := by
  unfold S256Point.parse
  split_ifs with h4
  · left
    rfl
  · left
    rfl

/-- C13 (code at the failing input): for the generator, `sec(true)` yields the 33 bytes
`02 79be..1798`, and `S256Point.parse` raises `TypeError` on them instead of returning the
point; indeed `parse` returns a point for no byte string at all, so no round trip through
`sec` and `parse`, compressed or not, gives the point back. -/
theorem C13_parse_of_sec_raises :
    S256Point.sec generator true = .ok
      [0x02, 0x79, 0xbe, 0x66, 0x7e, 0xf9, 0xdc, 0xbb, 0xac, 0x55, 0xa0, 0x62, 0x95, 0xce,
       0x87, 0x0b, 0x07, 0x02, 0x9b, 0xfc, 0xdb, 0x2d, 0xce, 0x28, 0xd9, 0x59, 0xf2, 0x81,
       0x5b, 0x16, 0xf8, 0x17, 0x98] ∧
    S256Point.parse
      [0x02, 0x79, 0xbe, 0x66, 0x7e, 0xf9, 0xdc, 0xbb, 0xac, 0x55, 0xa0, 0x62, 0x95, 0xce,
       0x87, 0x0b, 0x07, 0x02, 0x9b, 0xfc, 0xdb, 0x2d, 0xce, 0x28, 0xd9, 0x59, 0xf2, 0x81,
       0x5b, 0x16, 0xf8, 0x17, 0x98] = .error .TypeError ∧
    (∀ (secBin : List Nat) (p : Point), S256Point.parse secBin ≠ .ok p) := by
  refine ⟨by decide, by decide, ?_⟩
  intro secBin p h
  rcases S256Point.parse_raises secBin with h1 | h1 <;> rw [h1] at h <;> cases h

/-- C14: on a byte string whose first byte is none of 0x02, 0x03, 0x04 (or that has no
first byte), `S256Point.parse` fails with an error and returns no point.  The code has no
test of the prefix as such: the error is the one that `parse` raises on every input that
does not start with 0x04, the `TypeError` of `new S256Field(..)`, whose constructor raises
at `num.ge(prime)`. -/
theorem C14_parse_rejects_other_prefixes (secBin : List Nat)
    (h2 : secBin.head? ≠ some 0x02) (h3 : secBin.head? ≠ some 0x03)
    (h4 : secBin.head? ≠ some 0x04) :
    (S256Point.parse secBin = .error .TypeError ∨ S256Point.parse secBin = .error .Error) ∧
    ∀ p : Point, S256Point.parse secBin ≠ .ok p := by
  refine ⟨S256Point.parse_raises secBin, ?_⟩
  intro p h
  rcases S256Point.parse_raises secBin with h1 | h1 <;> rw [h1] at h <;> cases h

theorem C14_parse_rejects_other_prefixes_witness :
    (S256Point.parse [0x05, 0x01] = .error .TypeError ∨
      S256Point.parse [0x05, 0x01] = .error .Error) ∧
    ∀ p : Point, S256Point.parse [0x05, 0x01] ≠ .ok p :=
  C14_parse_rejects_other_prefixes [0x05, 0x01] (by decide) (by decide) (by decide)

/-! ## `PrivateKey.sign` : the low-s step;  `Signature.der` -/

/-- C15 (code at the failing input): `sign` returns no signature, in low-s form or
otherwise, for any `deterministicK`, secret and hash (the defect of C1: `k * G`).  The
low-s step taken by itself raises too: `N / 2n` and `N - s` combine the big-integer
object `N` with a BigInt. -/
theorem C15_sign_returns_no_signature :
    PrivateKey.sign (fun _ _ => .ok 1) 1 (.bigint 1) = .error .TypeError ∧
    JsValue.opDiv (.bigInteger N) (.bigint 2) = .error .TypeError ∧
    (∀ s : Int, JsValue.opSub (.bigInteger N) (.bigint s) = .error .TypeError) ∧
    (∀ (deterministicK : Int → JsValue → Except JsError Int) (secret : Int) (z : JsValue)
      (sig : Signature), PrivateKey.sign deterministicK secret z ≠ .ok sig) := by
  refine ⟨by decide, by decide, fun s => rfl, ?_⟩
  intro deterministicK secret z sig h
  rw [PrivateKey.sign_eq] at h
  cases hk : deterministicK secret z <;> rw [hk] at h <;> cases h

/-- C16 (code at the failing input): for `r = 256` and `s = 1`, both in `[1, N-1]`,
`der()` yields `30 06 02 01 01 02 01 01`: `filter((byte) => byte !== 0)` has dropped the
low zero byte of `r` along with the leading ones.  `Signature.parse` reads `r = 1` from
it. -/
theorem C16_der_drops_inner_zero_bytes :
    (1 ≤ (256 : Int) ∧ (256 : Int) ≤ N - 1) ∧
    Signature.der ⟨.bigInteger 256, .bigInteger 1⟩
      = .ok [0x30, 0x06, 0x02, 0x01, 0x01, 0x02, 0x01, 0x01] ∧
    Signature.parse [0x30, 0x06, 0x02, 0x01, 0x01, 0x02, 0x01, 0x01]
      = .ok ⟨.bigInteger 1, .bigInteger 1⟩ := by
  decide

/-! ## Base58Check -/

theorem indexOf58_alphabet : ∀ d : Nat, d < 58 → indexOf58 (BASE58_ALPHABET.getD d '1') = d := by
  decide

theorem hexVal_hexDigit : ∀ d : Nat, d < 16 → hexVal (hexDigit d) = some d := by
  decide

theorem encodeBase58Loop_fold (fuel : Nat) :
    ∀ (n : Nat) (acc : List Char), n ≤ fuel →
      (encodeBase58Loop fuel n acc).foldl (fun num ch => num * 58 + indexOf58 ch) (0 : Int)
        = acc.foldl (fun num ch => num * 58 + indexOf58 ch) (n : Int) := by
  induction fuel with
  | zero =>
    intro n acc hn
    have : n = 0 := by omega
    subst this
    rfl
  | succ fuel ih =>
    intro n acc hn
    unfold encodeBase58Loop
    by_cases hpos : n > 0
    · rw [if_pos hpos, ih (n / 58) _ (by omega)]
      rw [List.foldl_cons, indexOf58_alphabet (n % 58) (Nat.mod_lt _ (by norm_num))]
      congr 1
      have := Nat.div_add_mod n 58
      push_cast
      omega
    · rw [if_neg hpos]
      have : n = 0 := by omega
      subst this
      rfl

theorem fold58_ones (k : Nat) (rest : List Char) :
    (List.replicate k '1' ++ rest).foldl (fun num ch => num * 58 + indexOf58 ch) (0 : Int)
      = rest.foldl (fun num ch => num * 58 + indexOf58 ch) (0 : Int) := by
  induction k with
  | zero => rfl
  | succ k ih =>
    rw [List.replicate_succ, List.cons_append, List.foldl_cons]
    have : (0 : Int) * 58 + indexOf58 '1' = 0 := by decide
    rw [this, ih]

/-- The number that `decodeBase58` reads from the output of `encodeBase58` is the value of
the encoded buffer. -/
theorem decode_fold_encodeBase58 (buffer : List Nat) (s : List Char)
    (h : encodeBase58 buffer = .ok s) :
    s.foldl (fun num ch => num * 58 + indexOf58 ch) (0 : Int) = (bigEndian buffer : Int) := by
  unfold encodeBase58 at h
  split_ifs at h
  simp only [Except.ok.injEq] at h
  subst h
  rw [fold58_ones, encodeBase58Loop_fold _ _ _ le_rfl]
  rfl

/-! ## Hexadecimal strings -/

theorem natHexLoop_fold (fuel : Nat) :
    ∀ (n : Nat) (acc : List Char), n ≤ fuel →
      (natHexLoop fuel n acc).foldl (fun a c => a * 16 + (hexVal c).getD 0) 0
        = acc.foldl (fun a c => a * 16 + (hexVal c).getD 0) n := by
  induction fuel with
  | zero =>
    intro n acc hn
    have : n = 0 := by omega
    subst this
    rfl
  | succ fuel ih =>
    intro n acc hn
    unfold natHexLoop
    by_cases h0 : n = 0
    · rw [if_pos h0, h0]
    · rw [if_neg h0, ih (n / 16) _ (by omega)]
      rw [List.foldl_cons, hexVal_hexDigit (n % 16) (Nat.mod_lt _ (by norm_num))]
      congr 1
      have := Nat.div_add_mod n 16
      simp only [Option.getD_some]
      omega

theorem natHexLoop_length (fuel : Nat) :
    ∀ (n : Nat) (acc : List Char) (w : Nat), n ≤ fuel → n < 16 ^ w →
      (natHexLoop fuel n acc).length ≤ w + acc.length := by
  induction fuel with
  | zero =>
    intro n acc w _ _
    simp [natHexLoop]
  | succ fuel ih =>
    intro n acc w hn hw
    unfold natHexLoop
    by_cases h0 : n = 0
    · rw [if_pos h0]
      omega
    · rw [if_neg h0]
      cases w with
      | zero => simp at hw; omega
      | succ w =>
        have hdiv : n / 16 < 16 ^ w := by
          rw [Nat.div_lt_iff_lt_mul (by norm_num)]
          rw [pow_succ] at hw
          exact hw
        have := ih (n / 16) (hexDigit (n % 16) :: acc) w (by omega) hdiv
        simp only [List.length_cons] at this
        omega

theorem natHexLoop_valid (fuel : Nat) :
    ∀ (n : Nat) (acc : List Char), (∀ c ∈ acc, (hexVal c).isSome) →
      ∀ c ∈ natHexLoop fuel n acc, (hexVal c).isSome := by
  induction fuel with
  | zero => intro n acc h; exact h
  | succ fuel ih =>
    intro n acc h
    unfold natHexLoop
    by_cases h0 : n = 0
    · rw [if_pos h0]; exact h
    · rw [if_neg h0]
      apply ih
      intro c hc
      rcases List.mem_cons.1 hc with rfl | hc
      · rw [hexVal_hexDigit (n % 16) (Nat.mod_lt _ (by norm_num))]; rfl
      · exact h c hc

/-- Decoding a string of hexadecimal digits of even length: one byte for two digits, and
the big-endian value of the bytes is the value of the string. -/
theorem hexDecode_spec : ∀ (m : Nat) (s : List Char) (a : Nat), s.length = 2 * m →
    (∀ c ∈ s, (hexVal c).isSome) →
    (hexDecode s).length = m ∧ (∀ b ∈ hexDecode s, b < 256) ∧
    (hexDecode s).foldl (fun acc d => acc * 256 + d) a
      = s.foldl (fun a c => a * 16 + (hexVal c).getD 0) a := by
  intro m
  induction m with
  | zero =>
    intro s a hlen _
    have : s = [] := List.length_eq_zero.1 (by omega)
    subst this
    simp [hexDecode]
  | succ m ih =>
    intro s a hlen hvalid
    match s, hlen, hvalid with
    | c1 :: c2 :: rest, hlen, hvalid =>
      have h1 := hvalid c1 (by simp)
      have h2 := hvalid c2 (by simp)
      obtain ⟨x, hx⟩ := Option.isSome_iff_exists.1 h1
      obtain ⟨y, hy⟩ := Option.isSome_iff_exists.1 h2
      have hx16 : x < 16 := by
        unfold hexVal at hx
        split_ifs at hx with p1 p2 p3 <;> simp only [Option.some.injEq] at hx <;> subst hx
        · have := p1.2; have : c1.toNat ≤ ('9' : Char).toNat := this; simp at this; omega
        · have := p2.2; have : c1.toNat ≤ ('f' : Char).toNat := this; simp at this; omega
        · have := p3.2; have : c1.toNat ≤ ('F' : Char).toNat := this; simp at this; omega
      have hy16 : y < 16 := by
        unfold hexVal at hy
        split_ifs at hy with p1 p2 p3 <;> simp only [Option.some.injEq] at hy <;> subst hy
        · have := p1.2; have : c2.toNat ≤ ('9' : Char).toNat := this; simp at this; omega
        · have := p2.2; have : c2.toNat ≤ ('f' : Char).toNat := this; simp at this; omega
        · have := p3.2; have : c2.toNat ≤ ('F' : Char).toNat := this; simp at this; omega
      have hrest := ih rest (a * 256 + (16 * x + y)) (by simp at hlen; omega)
        (fun c hc => hvalid c (by simp [hc]))
      have hd : hexDecode (c1 :: c2 :: rest) = (16 * x + y) :: hexDecode rest := by
        simp [hexDecode, hx, hy]
      rw [hd]
      refine ⟨by simp [hrest.1], ?_, ?_⟩
      · intro b hb
        rcases List.mem_cons.1 hb with rfl | hb
        · omega
        · exact hrest.2.1 b hb
      · rw [List.foldl_cons, hrest.2.2, List.foldl_cons, List.foldl_cons, hx, hy]
        congr 1
        simp only [Option.getD_some]
        ring
    | [], hlen, _ => simp at hlen
    | [_], hlen, _ => simp at hlen; omega

theorem bigEndian_eq_ofDigits (b : List Nat) : bigEndian b = Nat.ofDigits 256 b.reverse := by
  unfold bigEndian
  rw [Nat.ofDigits_eq_foldr, List.foldr_reverse]
  congr 1
  funext acc d
  simp only [Nat.cast_id]
  ring

theorem ofDigits_256_injective : ∀ (l1 l2 : List Nat), l1.length = l2.length →
    (∀ x ∈ l1, x < 256) → (∀ x ∈ l2, x < 256) →
    Nat.ofDigits 256 l1 = Nat.ofDigits 256 l2 → l1 = l2 := by
  intro l1
  induction l1 with
  | nil =>
    intro l2 hlen _ _ _
    exact (List.length_eq_zero.1 hlen.symm).symm
  | cons x l1 ih =>
    intro l2 hlen h1 h2 h
    match l2, hlen, h2, h with
    | [], hlen, _, _ => simp at hlen
    | y :: l2, hlen, h2, h =>
      rw [Nat.ofDigits_cons, Nat.ofDigits_cons] at h
      have hx := h1 x (by simp)
      have hy := h2 y (by simp)
      have hxy : x = y := by omega
      subst hxy
      have hrest : Nat.ofDigits 256 l1 = Nat.ofDigits 256 l2 := by omega
      rw [ih l2 (by simpa using hlen) (fun z hz => h1 z (by simp [hz]))
        (fun z hz => h2 z (by simp [hz])) hrest]

/-- Two buffers of the same length with the same big-endian value are the same buffer. -/
theorem bigEndian_injective (b1 b2 : List Nat) (hlen : b1.length = b2.length)
    (h1 : ∀ x ∈ b1, x < 256) (h2 : ∀ x ∈ b2, x < 256) (h : bigEndian b1 = bigEndian b2) :
    b1 = b2 := by
  rw [bigEndian_eq_ofDigits, bigEndian_eq_ofDigits] at h
  have := ofDigits_256_injective b1.reverse b2.reverse (by simp [hlen])
    (fun l hl => h1 l (List.mem_reverse.1 hl)) (fun l hl => h2 l (List.mem_reverse.1 hl)) h
  exact List.reverse_injective this

theorem bigEndian_lt (b : List Nat) (h : ∀ x ∈ b, x < 256) : bigEndian b < 256 ^ b.length := by
  rw [bigEndian_eq_ofDigits]
  have := Nat.ofDigits_lt_base_pow_length (by norm_num : 1 < 256)
    (fun l hl => h l (List.mem_reverse.1 hl) : ∀ x ∈ b.reverse, x < 256)
  simpa using this

theorem hexFold_zeros (k : Nat) (s : List Char) :
    (List.replicate k '0' ++ s).foldl (fun a c => a * 16 + (hexVal c).getD 0) 0
      = s.foldl (fun a c => a * 16 + (hexVal c).getD 0) 0 := by
  induction k with
  | zero => rfl
  | succ k ih =>
    rw [List.replicate_succ, List.cons_append, List.foldl_cons]
    have : 0 * 16 + (hexVal '0').getD 0 = 0 := by decide
    rw [this, ih]

/-- `toString(16)` of a natural number below `16^w`: at most `w` hexadecimal digits whose
value is the number. -/
theorem toStringHex_spec (v w : Nat) (hw : v < 16 ^ w) (hw1 : 1 ≤ w) :
    (toStringHex (v : Int)).length ≤ w ∧ (∀ c ∈ toStringHex (v : Int), (hexVal c).isSome) ∧
    (toStringHex (v : Int)).foldl (fun a c => a * 16 + (hexVal c).getD 0) 0 = v := by
  unfold toStringHex
  by_cases h0 : (v : Int) = 0
  · rw [if_pos h0]
    have : v = 0 := by exact_mod_cast h0
    subst this
    refine ⟨by simpa using hw1, ?_, by decide⟩
    intro c hc
    simp only [List.mem_singleton] at hc
    subst hc
    decide
  · rw [if_neg h0, if_neg (by omega), Int.natAbs_ofNat]
    refine ⟨?_, ?_, ?_⟩
    · simpa using natHexLoop_length v v [] w le_rfl hw
    · exact natHexLoop_valid v v [] (by simp)
    · rw [natHexLoop_fold v v [] le_rfl]
      rfl

/-- Writing the value of a 25-byte buffer in hexadecimal, padding to 50 digits and
decoding gives the buffer back. -/
theorem hexDecode_padStart_toStringHex (b : List Nat) (hlen : b.length = 25)
    (hb : ∀ x ∈ b, x < 256) :
    hexDecode (padStart 50 (toStringHex (bigEndian b : Int))) = b := by
  have hlt : bigEndian b < 16 ^ 50 := by
    have := bigEndian_lt b hb
    rw [hlen] at this
    calc bigEndian b < 256 ^ 25 := this
      _ = 16 ^ 50 := by norm_num
  obtain ⟨h1, h2, h3⟩ := toStringHex_spec (bigEndian b) 50 hlt (by norm_num)
  have hpadlen : (padStart 50 (toStringHex (bigEndian b : Int))).length = 2 * 25 := by
    unfold padStart
    rw [List.length_append, List.length_replicate]
    omega
  have hpadvalid : ∀ c ∈ padStart 50 (toStringHex (bigEndian b : Int)), (hexVal c).isSome := by
    intro c hc
    unfold padStart at hc
    rcases List.mem_append.1 hc with hc | hc
    · rw [(List.mem_replicate.1 hc).2]
      decide
    · exact h2 c hc
  obtain ⟨d1, d2, d3⟩ := hexDecode_spec 25 _ 0 hpadlen hpadvalid
  apply bigEndian_injective _ _ (by rw [d1, hlen]) d2 hb
  have e1 : bigEndian (hexDecode (padStart 50 (toStringHex (bigEndian b : Int))))
      = (padStart 50 (toStringHex (bigEndian b : Int))).foldl
          (fun a c => a * 16 + (hexVal c).getD 0) 0 := d3
  rw [e1]
  unfold padStart
  rw [hexFold_zeros, h3]

/-- The round trip of Base58Check on a payload of 21 bytes. -/
theorem decodeBase58_encodeBase58Checksum (c : Crypto) (hc : c.WellFormed)
    (payload : List Nat) (hlen : payload.length = 21) (hb : ∀ x ∈ payload, x < 256) :
    ∃ s, encodeBase58Checksum c payload = .ok s ∧ decodeBase58 c s = .ok payload := by
  have hh := hc.1 (c.sha256 payload)
  have hcs : ((hash256 c payload).take 4).length = 4 := by
    unfold hash256
    rw [List.length_take, hh.1]
    rfl
  have hcomb_len : (payload ++ (hash256 c payload).take 4).length = 25 := by
    rw [List.length_append, hcs, hlen]
  have hcomb_b : ∀ x ∈ payload ++ (hash256 c payload).take 4, x < 256 := by
    intro x hx
    rcases List.mem_append.1 hx with hx | hx
    · exact hb x hx
    · exact hh.2 x (List.mem_of_mem_take hx)
  have hne : payload ++ (hash256 c payload).take 4 ≠ [] := by
    intro h
    rw [h] at hcomb_len
    simp at hcomb_len
  obtain ⟨s, hs⟩ : ∃ s, encodeBase58 (payload ++ (hash256 c payload).take 4) = .ok s := by
    unfold encodeBase58
    rw [if_neg hne]
    exact ⟨_, rfl⟩
  refine ⟨s, hs, ?_⟩
  unfold decodeBase58
  simp only
  rw [decode_fold_encodeBase58 _ s hs, hexDecode_padStart_toStringHex _ hcomb_len hcomb_b]
  have hdrop : List.drop ((payload ++ (hash256 c payload).take 4).length - 4)
      (payload ++ (hash256 c payload).take 4) = (hash256 c payload).take 4 := by
    rw [hcomb_len]
    have : 25 - 4 = payload.length := by omega
    rw [this, List.drop_left]
  have htake : List.take ((payload ++ (hash256 c payload).take 4).length - 4)
      (payload ++ (hash256 c payload).take 4) = payload := by
    rw [hcomb_len]
    have : 25 - 4 = payload.length := by omega
    rw [this, List.take_left]
  rw [hdrop, htake, if_neg (by simp)]

theorem toStringHex_valid (v : Nat) : ∀ c ∈ toStringHex (v : Int), (hexVal c).isSome := by
  unfold toStringHex
  by_cases h0 : (v : Int) = 0
  · rw [if_pos h0]
    intro c hc
    simp only [List.mem_singleton] at hc
    subst hc
    decide
  · rw [if_neg h0, if_neg (by omega), Int.natAbs_ofNat]
    exact natHexLoop_valid v v [] (by simp)

theorem hexDecode_length : ∀ (m : Nat) (s : List Char), s.length < 2 * m + 2 →
    (∀ c ∈ s, (hexVal c).isSome) → (hexDecode s).length = s.length / 2 := by
  intro m
  induction m with
  | zero =>
    intro s hlen _
    match s, hlen with
    | [], _ => rfl
    | [_], _ => simp [hexDecode]
    | _ :: _ :: _, hlen => simp at hlen; omega
  | succ m ih =>
    intro s hlen hvalid
    match s, hlen, hvalid with
    | [], _, _ => rfl
    | [_], _, _ => simp [hexDecode]
    | c1 :: c2 :: rest, hlen, hvalid =>
      obtain ⟨x, hx⟩ := Option.isSome_iff_exists.1 (hvalid c1 (by simp))
      obtain ⟨y, hy⟩ := Option.isSome_iff_exists.1 (hvalid c2 (by simp))
      have hd : hexDecode (c1 :: c2 :: rest) = (16 * x + y) :: hexDecode rest := by
        simp [hexDecode, hx, hy]
      rw [hd, List.length_cons, ih rest (by simp at hlen; omega)
        (fun c hc => hvalid c (by simp [hc]))]
      simp only [List.length_cons]
      omega

/-- Whatever the hash function, a payload that `decodeBase58` returns from the output of
`encodeBase58` has at least 21 bytes: the decoded number is padded to 25 bytes before the
four bytes of the checksum are cut off. -/
theorem decodeBase58_length (c : Crypto) (buffer : List Nat) (s : List Char) (out : List Nat)
    (hs : encodeBase58 buffer = .ok s) (hd : decodeBase58 c s = .ok out) :
    21 ≤ out.length := by
  unfold decodeBase58 at hd
  simp only at hd
  rw [decode_fold_encodeBase58 _ s hs] at hd
  split_ifs at hd
  simp only [Except.ok.injEq] at hd
  subst hd
  have hvalid : ∀ ch ∈ padStart 50 (toStringHex (bigEndian buffer : Int)),
      (hexVal ch).isSome := by
    intro ch hch
    unfold padStart at hch
    rcases List.mem_append.1 hch with hch | hch
    · rw [(List.mem_replicate.1 hch).2]
      decide
    · exact toStringHex_valid _ ch hch
  have hlen : 50 ≤ (padStart 50 (toStringHex (bigEndian buffer : Int))).length := by
    unfold padStart
    rw [List.length_append, List.length_replicate]
    omega
  have := hexDecode_length _ _ (Nat.lt_succ_of_le (Nat.le_mul_of_pos_left _ (by norm_num) |>.trans (Nat.le_succ _))) hvalid
  rw [List.length_take, this]
  omega

theorem Crypto.zeros_wellFormed : Crypto.zeros.WellFormed := by
  refine ⟨fun s => ⟨by simp [Crypto.zeros], ?_⟩, fun s => ⟨by simp [Crypto.zeros], ?_⟩⟩
  · intro b hb
    simp only [Crypto.zeros, List.mem_replicate] at hb
    omega
  · intro b hb
    simp only [Crypto.zeros, List.mem_replicate] at hb
    omega

theorem alphabet_ne_one : ∀ d : Nat, d < 58 → 0 < d → BASE58_ALPHABET.getD d '1' ≠ '1' := by
  decide

theorem encodeBase58Loop_zero (fuel : Nat) (acc : List Char) :
    encodeBase58Loop fuel 0 acc = acc := by
  cases fuel <;> simp [encodeBase58Loop]

/-- The digits that `encodeBase58` writes for a positive number do not start with `'1'`,
the digit of value 0. -/
theorem encodeBase58Loop_head (fuel : Nat) :
    ∀ (n : Nat) (acc : List Char), n ≤ fuel → 0 < n →
      (encodeBase58Loop fuel n acc).head? ≠ some '1' := by
  induction fuel with
  | zero => intro n acc hn hpos; omega
  | succ fuel ih =>
    intro n acc hn hpos
    unfold encodeBase58Loop
    rw [if_pos hpos]
    by_cases hq : n / 58 = 0
    · rw [hq, encodeBase58Loop_zero]
      have hlt : n < 58 := by
        by_contra hge
        have := Nat.div_pos (Nat.le_of_not_lt hge) (by norm_num : 0 < 58)
        omega
      simp only [List.head?_cons, ne_eq, Option.some.injEq]
      rw [Nat.mod_eq_of_lt hlt]
      exact alphabet_ne_one n hlt hpos
    · exact ih (n / 58) _ (by omega) (Nat.pos_of_ne_zero hq)

/-- On a non-empty buffer with `k` leading zero bytes `encodeBase58` returns `k` times
`'1'` followed by a string that is empty or starts with another character. -/
theorem encodeBase58_leading_ones (b : List Nat) (hb : b ≠ []) :
    ∃ rest : List Char,
      encodeBase58 b = .ok (List.replicate (b.takeWhile (fun x => x = 0)).length '1' ++ rest) ∧
      rest.head? ≠ some '1' := by
  unfold encodeBase58
  rw [if_neg hb]
  refine ⟨_, rfl, ?_⟩
  by_cases h0 : bigEndian b = 0
  · rw [h0]
    simp [encodeBase58Loop]
  · exact encodeBase58Loop_head _ _ _ le_rfl (Nat.pos_of_ne_zero h0)

/-- C17 (the claim fails): for the empty payload, `decodeBase58` does not return the
payload.  With the stand-in hash the address is `1111` and the decoder returns 21 zero
bytes; with any hash function whatever it returns, if it returns at all, has 21 bytes or
more, because the decoder pads the number to 25 bytes. -/
theorem C17_round_trip_fails_on_short_payload :
    encodeBase58Checksum Crypto.zeros [] = .ok ['1', '1', '1', '1'] ∧
    decodeBase58 Crypto.zeros ['1', '1', '1', '1'] = .ok (List.replicate 21 0) ∧
    (∀ (c : Crypto) (s : List Char) (out : List Nat),
      encodeBase58Checksum c [] = .ok s → decodeBase58 c s = .ok out → out ≠ []) := by
  refine ⟨by decide, by decide, ?_⟩
  intro c s out hs hd hout
  have := decodeBase58_length c _ s out hs hd
  rw [hout] at this
  simp at this

/-- C17 (amended): for a payload of exactly 21 bytes, a version byte and a 20-byte hash,
`decodeBase58(encodeBase58Checksum(payload))` succeeds, the checksum matching, and returns
exactly the payload. -/
theorem C17_round_trip_of_21_bytes (c : Crypto) (hc : c.WellFormed) (payload : List Nat)
    (hlen : payload.length = 21) (hb : ∀ x ∈ payload, x < 256) :
    ∃ s, encodeBase58Checksum c payload = .ok s ∧ decodeBase58 c s = .ok payload :=
  decodeBase58_encodeBase58Checksum c hc payload hlen hb

theorem C17_round_trip_of_21_bytes_witness :
    ∃ s, encodeBase58Checksum Crypto.zeros (0x6f :: List.replicate 20 7) = .ok s ∧
      decodeBase58 Crypto.zeros s = .ok (0x6f :: List.replicate 20 7) :=
  C17_round_trip_of_21_bytes Crypto.zeros Crypto.zeros_wellFormed
    (0x6f :: List.replicate 20 7) (by decide) (by decide)

/-- C18 (code at the failing input): on the empty buffer, which has no leading zero byte,
`encodeBase58` raises `SyntaxError` (`BigInt("0x")`) instead of returning the empty
string.  On every other buffer the claim holds: `k` leading zero bytes give `k` times
`'1'`, followed by the end of the string or by another character. -/
theorem C18_encodeBase58_raises_on_empty_buffer :
    encodeBase58 [] = .error .SyntaxError ∧
    (∀ b : List Nat, b ≠ [] → ∃ rest : List Char,
      encodeBase58 b = .ok (List.replicate (b.takeWhile (fun x => x = 0)).length '1' ++ rest) ∧
      rest.head? ≠ some '1') :=
  ⟨rfl, encodeBase58_leading_ones⟩

/-- C19 (code at the failing input): for the version byte 0x6f and the hash `07 .. 07`
the decoder returns the 21 bytes `6f 07 .. 07`, the version byte included, not the 20-byte
hash.  So it is for every version byte, hash and hash function: the decoder returns the
whole payload `v || h`; what it returns never has fewer than 21 bytes. -/
theorem C19_decodeBase58_keeps_version_byte :
    (∃ s, encodeBase58Checksum Crypto.zeros (0x6f :: List.replicate 20 7) = .ok s ∧
      decodeBase58 Crypto.zeros s = .ok (0x6f :: List.replicate 20 7)) ∧
    (∀ (c : Crypto) (v : Nat) (h : List Nat), c.WellFormed → h.length = 20 → v < 256 →
      (∀ x ∈ h, x < 256) →
      ∃ s, encodeBase58Checksum c (v :: h) = .ok s ∧ decodeBase58 c s = .ok (v :: h)) ∧
    (∀ (c : Crypto) (v : Nat) (h : List Nat) (s : List Char) (out : List Nat),
      h.length = 20 → encodeBase58Checksum c (v :: h) = .ok s → decodeBase58 c s = .ok out →
      out ≠ h) := by
  refine ⟨?_, ?_, ?_⟩
  · exact decodeBase58_encodeBase58Checksum Crypto.zeros Crypto.zeros_wellFormed _
      (by decide) (by decide)
  · intro c v h hc hlen hv hb
    apply decodeBase58_encodeBase58Checksum c hc (v :: h) (by simp [hlen])
    intro x hx
    rcases List.mem_cons.1 hx with rfl | hx
    · exact hv
    · exact hb x hx
  · intro c v h s out hlen hs hd hout
    have := decodeBase58_length c _ s out hs hd
    rw [hout, hlen] at this
    omega

/-! ## `p2pkhScript` -/

/-- C20 (code at the failing input): `p2pkhScript` concatenates `76 a9`, the hash and
`88 ac` without the length byte `14` of the data push, 24 bytes for a 20-byte hash.  Read
by the rules of `Script.parse`, the bytes for the hash `11 .. 11` do not parse (`11` starts
a push of 17 bytes, and the last push runs past the end: `SyntaxError`), and the bytes for
the hash `00 .. 00` decode to 24 opcodes, not a P2PKH script.  The script of five items
serialises with the length byte, and those 25 bytes do decode to the five items. -/
theorem C20_p2pkhScript_omits_the_push_length :
    (∀ h : List Nat, (p2pkhScript h).length = h.length + 4) ∧
    Script.parseRaw 24 (p2pkhScript (List.replicate 20 0x11)) = some (.error .SyntaxError) ∧
    Script.parseRaw 24 (p2pkhScript (List.replicate 20 0))
      = some (.ok ⟨[.op 0x76, .op 0xa9] ++ List.replicate 20 (.op 0) ++ [.op 0x88, .op 0xac]⟩) ∧
    Script.isP2PKHScriptPubKey
      ⟨[.op 0x76, .op 0xa9] ++ List.replicate 20 (.op 0) ++ [.op 0x88, .op 0xac]⟩ = false ∧
    Script.rawSerialize ⟨[.op 0x76, .op 0xa9, .data (List.replicate 20 0x11), .op 0x88, .op 0xac]⟩
      = .ok ([0x76, 0xa9, 0x14] ++ List.replicate 20 0x11 ++ [0x88, 0xac]) ∧
    Script.parseRaw 25 ([0x76, 0xa9, 0x14] ++ List.replicate 20 0x11 ++ [0x88, 0xac])
      = some (.ok ⟨[.op 0x76, .op 0xa9, .data (List.replicate 20 0x11), .op 0x88, .op 0xac]⟩) := by
  refine ⟨?_, by decide, by decide, by decide, by decide, by decide⟩
  intro h
  simp [p2pkhScript]

/-! ## `Script.evaluate` -/

theorem op_checksig_fails (stack : Stack) (z : JsValue) :
    ∃ st, op_checksig stack z = some (.ok (false, st)) := by
  unfold op_checksig
  split_ifs
  · exact ⟨_, rfl⟩
  · simp only
    rcases S256Point.parse_raises (stack.getLastD []) with h | h <;> rw [h] <;> exact ⟨_, rfl⟩

theorem encodeNum_one : encodeNum 1 = some [1] := by decide

theorem encodeNum_zero : encodeNum 0 = some [] := by decide

/-- C2 (code at every input): on the P2PKH program
`[sig, sec, OP_DUP, OP_HASH160, h, OP_EQUALVERIFY, OP_CHECKSIG]` `evaluate` returns false
for every `sig`, `sec`, `h` and `z`, also when `hash160(sec) = h` and the signature is a
valid one: `op_checksig` returns failure whenever it is reached, because
`S256Point.parse` raises on every key and the handler's `catch` answers `false`. -/
theorem C2_p2pkh_evaluates_to_false (c : Crypto) (sig sec h : List Nat) (z : JsValue)
    (fuel : Nat) :
    Script.evaluate (opImports c) (fuel + 7)
      ⟨[.data sig, .data sec, .op 0x76, .op 0xa9, .data h, .op 0x88, .op 0xac]⟩ z
      = some (.ok false) := by
  obtain ⟨st, hst⟩ := op_checksig_fails [sig, sec] z
  by_cases heq : h = c.ripemd160 (c.sha256 sec)
  · simp [Script.evaluate, Script.evaluateLoop, Script.step, Script.callOperation,
      Script.extraFor, opImports, op_dup, op_hash160, op_equalverify, op_equal, op_verify,
      pushNum, encodeNum_one, encodeNum_zero, heq, decodeNum, hst, Except.map]
  · simp [Script.evaluate, Script.evaluateLoop, Script.step, Script.callOperation,
      Script.extraFor, opImports, op_dup, op_hash160, op_equalverify, op_equal, op_verify,
      pushNum, encodeNum_one, encodeNum_zero, heq, decodeNum]

theorem Script.verdict_iff (stack : Stack) :
    Script.verdict stack = true ↔ ∃ rest top, stack = rest ++ [top] ∧ top ≠ [] := by
  rcases List.eq_nil_or_concat stack with h | ⟨rest, top, h⟩
  · subst h
    simp [Script.verdict]
  · subst h
    simp only [List.concat_eq_append]
    constructor
    · intro h
      refine ⟨rest, top, rfl, ?_⟩
      intro ht
      subst ht
      simp [Script.verdict] at h
    · rintro ⟨rest', top', h, hne⟩
      obtain ⟨-, h2⟩ := List.append_inj' h rfl
      simp only [List.cons.injEq, and_true] at h2
      subst h2
      simpa [Script.verdict] using hne

theorem Script.callOperation_returns (operation : Operation) (stack : Stack) (extra : Extra)
    (cmds : List Cmd) (altstack : Stack) (value : Bool)
    (h : Script.callOperation operation stack extra cmds altstack = .returns value) :
    value = false := by
  unfold Script.callOperation at h
  split at h
  · cases h
  · cases h
  · cases h; rfl
  · split at h <;> cases h

theorem Script.p2sh_returns (imp : OpImports) (cmd h160 : List Nat) (stack altstack : Stack)
    (value : Bool) (h : Script.p2sh imp cmd h160 stack altstack = .returns value) :
    value = false := by
  unfold Script.p2sh at h
  repeat' split at h
  all_goals first | cases h; rfl | cases h

theorem Script.step_returns (imp : OpImports) (z : JsValue) (cmd : Cmd) (cmds : List Cmd)
    (stack altstack : Stack) (value : Bool)
    (h : Script.step imp z cmd cmds stack altstack = .returns value) : value = false := by
  unfold Script.step at h
  split at h
  · split at h
    · cases h
    · exact Script.callOperation_returns _ _ _ _ _ _ h
  · simp only at h
    split at h
    · split at h
      · exact Script.p2sh_returns _ _ _ _ _ _ h
      · cases h
    · cases h

theorem Script.evaluateLoop_of_aborts {imp : OpImports} {z : JsValue} {cmds : List Cmd}
    {stack altstack : Stack} (h : Script.Aborts imp z cmds stack altstack) :
    ∃ n, ∀ fuel, n ≤ fuel →
      Script.evaluateLoop imp z fuel cmds stack altstack = some (.ok false) := by
  induction h with
  | here hstep =>
    refine ⟨1, fun fuel hf => ?_⟩
    obtain ⟨k, rfl⟩ : ∃ k, fuel = k + 1 := ⟨fuel - 1, by omega⟩
    simp [Script.evaluateLoop, hstep]
  | later hstep _ ih =>
    obtain ⟨n, hn⟩ := ih
    refine ⟨n + 1, fun fuel hf => ?_⟩
    obtain ⟨k, rfl⟩ : ∃ k, fuel = k + 1 := ⟨fuel - 1, by omega⟩
    simp only [Script.evaluateLoop, hstep]
    exact hn k (by omega)

theorem Script.evaluateLoop_of_reaches {imp : OpImports} {z : JsValue} {cmds : List Cmd}
    {stack altstack final : Stack} (h : Script.Reaches imp z cmds stack altstack final) :
    ∃ n, ∀ fuel, n ≤ fuel →
      Script.evaluateLoop imp z fuel cmds stack altstack = some (.ok (Script.verdict final)) := by
  induction h with
  | done stack altstack =>
    refine ⟨1, fun fuel hf => ?_⟩
    obtain ⟨k, rfl⟩ : ∃ k, fuel = k + 1 := ⟨fuel - 1, by omega⟩
    simp [Script.evaluateLoop]
  | round hstep _ ih =>
    obtain ⟨n, hn⟩ := ih
    refine ⟨n + 1, fun fuel hf => ?_⟩
    obtain ⟨k, rfl⟩ : ∃ k, fuel = k + 1 := ⟨fuel - 1, by omega⟩
    simp only [Script.evaluateLoop, hstep]
    exact hn k (by omega)

theorem Script.reaches_of_evaluateLoop (imp : OpImports) (z : JsValue) (fuel : Nat) :
    ∀ (cmds : List Cmd) (stack altstack : Stack),
      Script.evaluateLoop imp z fuel cmds stack altstack = some (.ok true) →
      ∃ final, Script.Reaches imp z cmds stack altstack final ∧ Script.verdict final = true := by
  induction fuel with
  | zero => intro cmds stack altstack h; simp [Script.evaluateLoop] at h
  | succ k ih =>
    intro cmds stack altstack h
    cases cmds with
    | nil =>
      simp only [Script.evaluateLoop, Option.some.injEq, Except.ok.injEq] at h
      exact ⟨stack, .done stack altstack, h⟩
    | cons cmd cmds =>
      simp only [Script.evaluateLoop] at h
      split at h
      · rename_i value hstep
        have := Script.step_returns _ _ _ _ _ _ _ hstep
        subst this
        simp at h
      · simp at h
      · simp at h
      · rename_i cmds' stack' altstack' hstep
        obtain ⟨final, hr, hv⟩ := ih _ _ _ h
        exact ⟨final, .round hstep hr, hv⟩

/-- C3: `evaluate` returns false as soon as a handler returns failure, and when no round
of the loop stops early it returns true exactly if the final stack is non-empty and its top
element is not the empty byte string.  For every table of handlers `imp`:
a handler of the table that returns failure makes its round `return false`; a round never
returns anything but false; if rounds that go on lead to such a round the call returns false
(for every sufficient number of loop tests); if the rounds use up the instructions and leave
the stack `final` the call returns the verdict on `final`; the call returns true only in that
way; and the verdict is true exactly for a stack `rest ++ [top]` with `top` non-empty. -/
theorem C3_evaluate_fails_on_handler_failure_and_judges_final_stack
    (imp : OpImports) (z : JsValue) (this : Script) :
    (∀ code operation cmds stack altstack st ex,
      imp.OP_CODE_FUNCTIONS code = some operation →
      operation stack (Script.extraFor code cmds altstack z) = some (.ok (false, st, ex)) →
      Script.step imp z (.op code) cmds stack altstack = .returns false) ∧
    (∀ cmd cmds stack altstack value,
      Script.step imp z cmd cmds stack altstack = .returns value → value = false) ∧
    (Script.Aborts imp z this.cmds [] [] →
      ∃ n, ∀ fuel, n ≤ fuel → Script.evaluate imp fuel this z = some (.ok false)) ∧
    (∀ final, Script.Reaches imp z this.cmds [] [] final →
      ∃ n, ∀ fuel, n ≤ fuel →
        Script.evaluate imp fuel this z = some (.ok (Script.verdict final))) ∧
    (∀ fuel, Script.evaluate imp fuel this z = some (.ok true) →
      ∃ final, Script.Reaches imp z this.cmds [] [] final ∧ Script.verdict final = true) ∧
    (∀ final, Script.verdict final = true ↔ ∃ rest top, final = rest ++ [top] ∧ top ≠ []) := by
  refine ⟨?_, ?_, ?_, ?_, ?_, Script.verdict_iff⟩
  · intro code operation cmds stack altstack st ex hop hcall
    simp [Script.step, hop, Script.callOperation, hcall]
  · intro cmd cmds stack altstack value h
    exact Script.step_returns _ _ _ _ _ _ _ h
  · intro h
    exact Script.evaluateLoop_of_aborts h
  · intro final h
    exact Script.evaluateLoop_of_reaches h
  · intro fuel h
    exact Script.reaches_of_evaluateLoop imp z fuel _ _ _ h

theorem C3_evaluate_fails_on_handler_failure_and_judges_final_stack_witness :
    Script.Aborts (opImports Crypto.zeros) .undefined
      (Script.mk [.data [1], .op 0x76, .op 0x88, .op 0x76]).cmds [] [] ∧
    Script.Reaches (opImports Crypto.zeros) .undefined
      (Script.mk [.data [1], .op 0x76]).cmds [] [] [[1], [1]] ∧
    (∃ n, ∀ fuel, n ≤ fuel →
      Script.evaluate (opImports Crypto.zeros) fuel
        (Script.mk [.data [1], .op 0x76, .op 0x88, .op 0x76]) .undefined = some (.ok false)) ∧
    (∃ n, ∀ fuel, n ≤ fuel →
      Script.evaluate (opImports Crypto.zeros) fuel
        (Script.mk [.data [1], .op 0x76]) .undefined = some (.ok true)) := by
  have s1 : Script.step (opImports Crypto.zeros) .undefined (.data [1])
      [.op 0x76, .op 0x88, .op 0x76] [] [] = .continues [.op 0x76, .op 0x88, .op 0x76] [[1]] [] :=
    rfl
  have s2 : Script.step (opImports Crypto.zeros) .undefined (.op 0x76)
      [.op 0x88, .op 0x76] [[1]] [] = .continues [.op 0x88, .op 0x76] [[1], [1]] [] := rfl
  have s3 : Script.step (opImports Crypto.zeros) .undefined (.op 0x88)
      [.op 0x76] [[1], [1]] [] = .continues [.op 0x76] [] [] := rfl
  have s4 : Script.step (opImports Crypto.zeros) .undefined (.op 0x76) [] [] []
      = .returns false := rfl
  have ha : Script.Aborts (opImports Crypto.zeros) .undefined
      (Script.mk [.data [1], .op 0x76, .op 0x88, .op 0x76]).cmds [] [] :=
    .later s1 (.later s2 (.later s3 (.here s4)))
  have r1 : Script.step (opImports Crypto.zeros) .undefined (.data [1]) [.op 0x76] [] []
      = .continues [.op 0x76] [[1]] [] := rfl
  have r2 : Script.step (opImports Crypto.zeros) .undefined (.op 0x76) [] [[1]] []
      = .continues [] [[1], [1]] [] := rfl
  have hr : Script.Reaches (opImports Crypto.zeros) .undefined
      (Script.mk [.data [1], .op 0x76]).cmds [] [] [[1], [1]] :=
    .round r1 (.round r2 (.done _ _))
  exact ⟨ha, hr,
    (C3_evaluate_fails_on_handler_failure_and_judges_final_stack
      (opImports Crypto.zeros) .undefined _).2.2.1 ha,
    (C3_evaluate_fails_on_handler_failure_and_judges_final_stack
      (opImports Crypto.zeros) .undefined _).2.2.2.1 _ hr⟩

/-! ## tx.js -/

theorem Script.parse_script_raises (buffer : List Nat) :
    Script.parse buffer = some (.error .RangeError) ∨
      Script.parse buffer = some (.error .SyntaxError) := by
  unfold Script.parse
  cases buffer with
  | nil => left; rfl
  | cons i s =>
    right
    have hr : ∃ v, readVarint (i :: s) = .ok v := by
      simp only [readVarint]
      split_ifs <;> exact ⟨_, rfl⟩
    obtain ⟨v, hv⟩ := hr
    rw [hv]
    rfl

theorem TxIn.parse_input_raises (buffer : List Nat) :
    ∃ e, TxIn.parse buffer = some (.error e) := by
  unfold TxIn.parse
  rcases Script.parse_script_raises (buffer.drop 36) with h | h <;> rw [h] <;> exact ⟨_, rfl⟩

theorem TxOut.parse_output_raises (buffer : List Nat) :
    ∃ e, TxOut.parse buffer = some (.error e) := by
  unfold TxOut.parse
  rcases Script.parse_script_raises (buffer.drop 8) with h | h <;> rw [h] <;> exact ⟨_, rfl⟩

theorem Tx.parseInputs_ok (numInputs : JsValue) (fuel : Nat) :
    ∀ (i : Nat) (buf : List Nat) (inputs result : List TxIn) (rest : List Nat),
      Tx.parseInputs numInputs fuel i buf inputs = some (.ok (result, rest)) →
      result = inputs := by
  induction fuel with
  | zero => intro i buf inputs result rest h; simp [Tx.parseInputs] at h
  | succ k _ =>
    intro i buf inputs result rest h
    unfold Tx.parseInputs at h
    obtain ⟨e, he⟩ := TxIn.parse_input_raises buf
    rw [he] at h
    split_ifs at h
    · simp at h
    · simp only [Option.some.injEq, Except.ok.injEq, Prod.mk.injEq] at h
      exact h.1.symm

theorem Tx.parseOutputs_ok (numOutputs : JsValue) (fuel : Nat) :
    ∀ (i : Nat) (buf : List Nat) (outputs result : List TxOut) (rest : List Nat),
      Tx.parseOutputs numOutputs fuel i buf outputs = some (.ok (result, rest)) →
      result = outputs := by
  induction fuel with
  | zero => intro i buf outputs result rest h; simp [Tx.parseOutputs] at h
  | succ k _ =>
    intro i buf outputs result rest h
    unfold Tx.parseOutputs at h
    obtain ⟨e, he⟩ := TxOut.parse_output_raises buf
    rw [he] at h
    split_ifs at h
    · simp at h
    · simp only [Option.some.injEq, Except.ok.injEq, Prod.mk.injEq] at h
      exact h.1.symm

theorem Tx.parse_ok (fuel : Nat) (buffer : List Nat) (testnet : Bool) (tx : Tx)
    (h : Tx.parse fuel buffer testnet = some (.ok tx)) : tx.txIns = [] ∧ tx.txOuts = [] := by
  unfold Tx.parse at h
  simp only at h
  split at h
  · simp at h
  · split at h
    · simp at h
    · simp at h
    · rename_i hin
      split at h
      · simp at h
      · split at h
        · simp at h
        · simp at h
        · rename_i hout
          simp only [Option.some.injEq, Except.ok.injEq] at h
          subst h
          exact ⟨Tx.parseInputs_ok _ _ _ _ _ _ _ hin, Tx.parseOutputs_ok _ _ _ _ _ _ _ hout⟩

/-- C4 (code at a transaction with one input and one output, and at every buffer): the
transaction of version 1 with the input `(prevTx = 32 zero bytes, prevIndex = 0, empty
scriptSig, sequence = 0xffffffff)`, the output `(amount = 1, empty scriptPubkey)` and
locktime 0 serialises to 60 bytes, and `Tx.parse` of these bytes raises `SyntaxError`
instead of returning the transaction.  At every buffer `Script.parse` raises, so `TxIn.parse`
and `TxOut.parse` raise, and a transaction that `Tx.parse` returns has no input and no
output. -/
theorem C4_parse_of_serialize_raises :
    (Tx.serialize ⟨.number 1,
        [⟨List.replicate 32 0, .number 0, .script ⟨[]⟩, .number 0xffffffff⟩],
        [⟨.number 1, ⟨[]⟩⟩], .number 0, false⟩).1
      = .ok ([1, 0, 0, 0, 1] ++ List.replicate 32 0 ++ [0, 0, 0, 0, 0, 255, 255, 255, 255,
          1, 1, 0, 0, 0, 0, 0, 0, 0, 0, 0, 0, 0, 0]) ∧
    (∀ fuel, Tx.parse (fuel + 1)
        ([1, 0, 0, 0, 1] ++ List.replicate 32 0 ++ [0, 0, 0, 0, 0, 255, 255, 255, 255,
          1, 1, 0, 0, 0, 0, 0, 0, 0, 0, 0, 0, 0, 0]) false = some (.error .SyntaxError)) ∧
    (∀ buffer, Script.parse buffer = some (.error .RangeError) ∨
      Script.parse buffer = some (.error .SyntaxError)) ∧
    (∀ buffer, ∃ e, TxIn.parse buffer = some (.error e)) ∧
    (∀ buffer, ∃ e, TxOut.parse buffer = some (.error e)) ∧
    (∀ fuel buffer testnet tx, Tx.parse fuel buffer testnet = some (.ok tx) →
      tx.txIns = [] ∧ tx.txOuts = []) := by
  refine ⟨by decide, ?_, Script.parse_script_raises, TxIn.parse_input_raises,
    TxOut.parse_output_raises, Tx.parse_ok⟩
  intro fuel
  rfl

theorem JsValue.opAdd_promise (sum : JsValue) (hs : sum = .number 0 ∨
    ∃ t, sum = .string ("0[object Promise]".toList ++ t)) :
    ∃ t, JsValue.opAdd sum (.object .Promise) = .ok (.string ("0[object Promise]".toList ++ t)) := by
  rcases hs with rfl | ⟨t, rfl⟩
  · exact ⟨[], by decide⟩
  · exact ⟨t ++ "[object Promise]".toList, by simp [JsValue.opAdd, JsValue.toPrimitive, JsValue.toStr]⟩

theorem Tx.fee_inputSum (testnet : Bool) (txIns : List TxIn) :
    ∀ sum, (sum = .number 0 ∨ ∃ t, sum = .string ("0[object Promise]".toList ++ t)) →
      txIns ≠ [] ∨ sum ≠ .number 0 →
      ∃ t, txIns.foldlM (fun inputSum txIn => JsValue.opAdd inputSum (TxIn.value txIn testnet)) sum
        = .ok (.string ("0[object Promise]".toList ++ t)) := by
  induction txIns with
  | nil =>
    intro sum hs hne
    rcases hs with rfl | ⟨t, rfl⟩
    · simp at hne
    · exact ⟨t, rfl⟩
  | cons txIn rest ih =>
    intro sum hs _
    obtain ⟨t, ht⟩ := JsValue.opAdd_promise sum hs
    simp only [List.foldlM, TxIn.value, ht]
    exact ih _ (Or.inr ⟨t, rfl⟩) (Or.inr (by simp))

theorem JsValue.opSub_promise_string (t : List Char) (outputSum : JsValue) :
    (∃ e, JsValue.opSub (.string ("0[object Promise]".toList ++ t)) outputSum = .error e) ∨
      JsValue.opSub (.string ("0[object Promise]".toList ++ t)) outputSum = .ok .nan := by
  have h1 : JsValue.toNumeric (.string ("0[object Promise]".toList ++ t)) = .nan := by
    simp [JsValue.toNumeric, JsValue.toPrimitive, JsValue.stringToNumber]
  unfold JsValue.opSub JsValue.numericOp
  rw [h1]
  split <;> simp_all

theorem Tx.fee_of_input (version : JsValue) (txIn : TxIn) (rest : List TxIn)
    (txOuts : List TxOut) (locktime : JsValue) (testnet : Bool) :
    (∃ e, Tx.fee ⟨version, txIn :: rest, txOuts, locktime, testnet⟩ = .error e) ∨
      Tx.fee ⟨version, txIn :: rest, txOuts, locktime, testnet⟩ = .ok .nan := by
  obtain ⟨t, ht⟩ := Tx.fee_inputSum testnet (txIn :: rest) (.number 0) (Or.inl rfl)
    (Or.inl (by simp))
  unfold Tx.fee
  simp only [ht]
  cases hout : txOuts.foldlM (fun outputSum txOut => JsValue.opAdd outputSum txOut.amount)
      (JsValue.number 0) with
  | error e => left; exact ⟨e, by simp only [bind, Except.bind]⟩
  | ok outputSum =>
    rcases JsValue.opSub_promise_string t outputSum with ⟨e, he⟩ | he
    · left; exact ⟨e, by simp only [bind, Except.bind, he]⟩
    · right; simp only [bind, Except.bind, he]

theorem TxIn.serialize_promise (prevTx : List Nat) (prevIndex sequence : JsValue) :
    ∃ e copy, TxIn.serialize ⟨prevTx, prevIndex, .promise, sequence⟩ = (.error e, copy) := by
  unfold TxIn.serialize
  simp only
  cases intToLittleEndianOf prevIndex 4 with
  | error e => exact ⟨e, _, rfl⟩
  | ok v => exact ⟨.TypeError, _, rfl⟩

theorem Tx.sigHash_first_raises (c : Crypto) (version : JsValue) (txIn : TxIn)
    (rest : List TxIn) (txOuts : List TxOut) (locktime : JsValue) (testnet : Bool) :
    ∃ e, (Tx.sigHash c ⟨version, txIn :: rest, txOuts, locktime, testnet⟩ 0).1 = .error e := by
  unfold Tx.sigHash
  simp only
  split
  · exact ⟨_, rfl⟩
  · simp only [Tx.sigHashInputs, if_true, TxIn.scriptPubkey]
    obtain ⟨e, copy, he⟩ := TxIn.serialize_promise txIn.prevTx txIn.prevIndex txIn.sequence
    rw [he]
    exact ⟨_, rfl⟩

theorem Tx.verifyInput_first_raises (c : Crypto) (version : JsValue) (txIn : TxIn)
    (rest : List TxIn) (txOuts : List TxOut) (locktime : JsValue) (testnet : Bool) :
    ∃ e, (Tx.verifyInput c ⟨version, txIn :: rest, txOuts, locktime, testnet⟩ 0).1
      = .error e := by
  unfold Tx.verifyInput
  simp only [List.get?_cons_zero]
  split
  · exact ⟨_, rfl⟩
  · exact ⟨_, rfl⟩

/-- C5 (code at every transaction with an input): `verify()` raises and returns nothing,
false included, whatever the amounts are.  `txIn.value(..)` is an `async` method, so
`inputSum += ..` appends `[object Promise]` to a string and `fee()` is `NaN` (or raises on a
BigInt amount); `NaN < 0` is false, and `verifyInput(0)` raises when `sigHash` serialises
the promise of `scriptPubkey`.  For the transaction with one input spending nothing the
model can see and one output of amount 1 the exception is `TypeError`. -/
theorem C5_verify_raises_when_there_is_an_input (c : Crypto) (version : JsValue)
    (txIn : TxIn) (rest : List TxIn) (txOuts : List TxOut) (locktime : JsValue)
    (testnet : Bool) :
    (∃ e, (Tx.verify c ⟨version, txIn :: rest, txOuts, locktime, testnet⟩).1 = .error e) ∧
    ((∃ e, Tx.fee ⟨version, txIn :: rest, txOuts, locktime, testnet⟩ = .error e) ∨
      Tx.fee ⟨version, txIn :: rest, txOuts, locktime, testnet⟩ = .ok .nan) ∧
    Tx.fee ⟨.number 1, [⟨List.replicate 32 0, .number 0, .script ⟨[]⟩, .number 0xffffffff⟩],
      [⟨.number 1, ⟨[]⟩⟩], .number 0, false⟩ = .ok .nan ∧
    (Tx.verify c ⟨.number 1,
      [⟨List.replicate 32 0, .number 0, .script ⟨[]⟩, .number 0xffffffff⟩],
      [⟨.number 1, ⟨[]⟩⟩], .number 0, false⟩).1 = .error .TypeError := by
  refine ⟨?_, Tx.fee_of_input _ _ _ _ _ _, by decide, by rfl⟩
  unfold Tx.verify
  rcases Tx.fee_of_input version txIn rest txOuts locktime testnet with ⟨e, he⟩ | he
  · rw [he]
    exact ⟨e, rfl⟩
  · rw [he]
    have hlt : JsValue.opLt .nan (.number 0) = false := by decide
    simp only [hlt, Bool.false_eq_true, if_false, List.length_cons, Tx.verifyInputs]
    obtain ⟨e, he⟩ := Tx.verifyInput_first_raises c version txIn rest txOuts locktime testnet
    split
    · exact ⟨_, rfl⟩
    · rename_i h; rw [h] at he; simp at he
    · rename_i h; rw [h] at he; simp at he

/-- C6 (code at the transaction of version 1 with the input `(prevTx = [1, 2, .., 32],
prevIndex = 0, empty scriptSig, sequence = 0xffffffff)`, the output `(amount = 1, empty
scriptPubkey)` and locktime 0): `serialize` and `sigHash` change the transaction, and two
successive calls of `serialize` return different bytes.  `TxIn.serialize` starts with
`this.prevTx.reverse()`, which reverses the buffer in place: after the call of any input
`prevTx` is the reverse of what it was and the other fields are as before.
`Tx.serialize` leaves the input with `prevTx = [32, .., 1]`, and the second call returns
bytes that differ from those of the first; `sigHash(0)` raises `TypeError` and leaves
`prevTx` reversed; `signInput(0, ..)` raises as well, with `prevTx` reversed and `scriptSig`
as it was. -/
theorem C6_serialize_reverses_prevTx_in_place :
    (∀ txIn : TxIn, (TxIn.serialize txIn).2
      = ⟨txIn.prevTx.reverse, txIn.prevIndex, txIn.scriptSig, txIn.sequence⟩) ∧
    (TxIn.serialize ⟨List.range' 1 32, .number 0, .script ⟨[]⟩, .number 0xffffffff⟩).2.prevTx
      ≠ List.range' 1 32 ∧
    (Tx.serialize ⟨.number 1,
        [⟨List.range' 1 32, .number 0, .script ⟨[]⟩, .number 0xffffffff⟩],
        [⟨.number 1, ⟨[]⟩⟩], .number 0, false⟩).2
      = ⟨.number 1,
        [⟨(List.range' 1 32).reverse, .number 0, .script ⟨[]⟩, .number 0xffffffff⟩],
        [⟨.number 1, ⟨[]⟩⟩], .number 0, false⟩ ∧
    (∃ first second,
      (Tx.serialize ⟨.number 1,
        [⟨List.range' 1 32, .number 0, .script ⟨[]⟩, .number 0xffffffff⟩],
        [⟨.number 1, ⟨[]⟩⟩], .number 0, false⟩).1 = .ok first ∧
      (Tx.serialize (Tx.serialize ⟨.number 1,
        [⟨List.range' 1 32, .number 0, .script ⟨[]⟩, .number 0xffffffff⟩],
        [⟨.number 1, ⟨[]⟩⟩], .number 0, false⟩).2).1 = .ok second ∧
      first ≠ second) ∧
    (∀ c : Crypto, Tx.sigHash c ⟨.number 1,
        [⟨List.range' 1 32, .number 0, .script ⟨[]⟩, .number 0xffffffff⟩],
        [⟨.number 1, ⟨[]⟩⟩], .number 0, false⟩ 0
      = (.error .TypeError, ⟨.number 1,
        [⟨(List.range' 1 32).reverse, .number 0, .script ⟨[]⟩, .number 0xffffffff⟩],
        [⟨.number 1, ⟨[]⟩⟩], .number 0, false⟩)) ∧
    (∀ (c : Crypto) (deterministicK : Int → JsValue → Except JsError Int) (secret : Int),
      Tx.signInput c deterministicK ⟨.number 1,
        [⟨List.range' 1 32, .number 0, .script ⟨[]⟩, .number 0xffffffff⟩],
        [⟨.number 1, ⟨[]⟩⟩], .number 0, false⟩ 0 secret
      = (.error .TypeError, ⟨.number 1,
        [⟨(List.range' 1 32).reverse, .number 0, .script ⟨[]⟩, .number 0xffffffff⟩],
        [⟨.number 1, ⟨[]⟩⟩], .number 0, false⟩)) := by
  refine ⟨fun txIn => rfl, by decide, by decide, ?_, fun c => rfl, fun c k secret => rfl⟩
  refine ⟨_, _, rfl, rfl, by decide⟩

/-! ## `readVarint` and `encodeVarint` -/

theorem intToLittleEndian_spec (v k : Nat) (hk : 1 ≤ k) (hv : v < 256 ^ k) :
    (intToLittleEndian (v : Int) k).length = k ∧
      bigEndian (intToLittleEndian (v : Int) k).reverse = v := by
  have hlt : v < 16 ^ (k * 2) := by
    have : (16 : Nat) ^ (k * 2) = 256 ^ k := by
      rw [Nat.mul_comm, pow_mul]
      norm_num
    omega
  obtain ⟨h1, h2, h3⟩ := toStringHex_spec v (k * 2) hlt (by omega)
  have hpadlen : (padStart (k * 2) (toStringHex (v : Int))).length = 2 * k := by
    unfold padStart
    rw [List.length_append, List.length_replicate]
    omega
  have hpadvalid : ∀ c ∈ padStart (k * 2) (toStringHex (v : Int)), (hexVal c).isSome := by
    intro c hc
    unfold padStart at hc
    rcases List.mem_append.1 hc with hc | hc
    · rw [(List.mem_replicate.1 hc).2]
      decide
    · exact h2 c hc
  obtain ⟨d1, _, d3⟩ := hexDecode_spec k _ 0 hpadlen hpadvalid
  unfold intToLittleEndian
  refine ⟨by rw [List.length_reverse, d1], ?_⟩
  rw [List.reverse_reverse]
  have e1 : bigEndian (hexDecode (padStart (k * 2) (toStringHex (v : Int))))
      = (padStart (k * 2) (toStringHex (v : Int))).foldl
          (fun a c => a * 16 + (hexVal c).getD 0) 0 := d3
  rw [e1]
  unfold padStart
  rw [hexFold_zeros, h3]

theorem littleEndianToInt_intToLittleEndian (v k : Nat) (hk : 1 ≤ k) (hv : v < 256 ^ k)
    (rest : List Nat) :
    littleEndianToInt ((intToLittleEndian (v : Int) k ++ rest).take k)
        = .number (roundToNumber v) ∧
      (intToLittleEndian (v : Int) k ++ rest).drop k = rest := by
  obtain ⟨hlen, hval⟩ := intToLittleEndian_spec v k hk hv
  have htake : (intToLittleEndian (v : Int) k ++ rest).take k = intToLittleEndian (v : Int) k := by
    rw [List.take_append_of_le_length (by omega), List.take_of_length_le (by omega)]
  have hdrop : (intToLittleEndian (v : Int) k ++ rest).drop k = rest := by
    rw [List.drop_append_of_le_length (by omega), List.drop_of_length_le (by omega),
      List.nil_append]
  refine ⟨?_, hdrop⟩
  rw [htake]
  unfold littleEndianToInt
  have hne : intToLittleEndian (v : Int) k ≠ [] := by
    intro h
    rw [h] at hlen
    simp at hlen
    omega
  rw [if_neg hne, hval]
  rfl

theorem roundToNumber_small (n : Nat) (h : n < 2 ^ 53) : roundToNumber n = n := by
  unfold roundToNumber
  rw [if_pos h]

/-- What `readVarint` reads back from `encodeVarint(i)`: the Number nearest to `i`. -/
theorem readVarint_encodeVarint (i : Nat) (rest : List Nat) (h : i < 2 ^ 64) :
    ∃ bytes, encodeVarint i = .ok bytes ∧
      readVarint (bytes ++ rest) = .ok ⟨.number (roundToNumber i), rest⟩ := by
  unfold encodeVarint
  by_cases h1 : i < 0xfd
  · rw [if_pos h1]
    refine ⟨[i], rfl, ?_⟩
    simp only [List.singleton_append, readVarint]
    rw [if_neg (by omega), if_neg (by omega), if_neg (by omega),
      roundToNumber_small i (by omega)]
  · rw [if_neg h1]
    by_cases h2 : i < 0x10000
    · rw [if_pos h2]
      obtain ⟨e1, e2⟩ := littleEndianToInt_intToLittleEndian i 2 (by norm_num)
        (by norm_num; omega) rest
      refine ⟨_, rfl, ?_⟩
      simp only [List.singleton_append, List.cons_append, List.nil_append, readVarint]
      rw [if_pos trivial, e1, e2]
    · rw [if_neg h2]
      by_cases h3 : i < 0x100000000
      · rw [if_pos h3]
        obtain ⟨e1, e2⟩ := littleEndianToInt_intToLittleEndian i 4 (by norm_num)
          (by norm_num; omega) rest
        refine ⟨_, rfl, ?_⟩
        simp only [List.singleton_append, List.cons_append, List.nil_append, readVarint]
        rw [if_pos trivial, e1, e2, if_neg (by decide)]
      · rw [if_neg h3, if_pos (by norm_num at h ⊢; omega)]
        obtain ⟨e1, e2⟩ := littleEndianToInt_intToLittleEndian i 8 (by norm_num)
          (by norm_num at h ⊢; omega) rest
        refine ⟨_, rfl, ?_⟩
        simp only [List.singleton_append, List.cons_append, List.nil_append, readVarint]
        rw [if_pos trivial, e1, e2, if_neg (by decide), if_neg (by decide)]

/-- C21 (as stated, at `i = 2 ^ 53 + 1` and `rest = [7]`): `encodeVarint` writes the nine
bytes `ff 01 00 00 00 00 00 20 00`, and `readVarint` reads the value `2 ^ 53` back, not
`i`: `littleEndianToInt` returns what `parseInt` returns, a Number, and no Number is
`2 ^ 53 + 1`. -/
theorem C21_readVarint_rounds_above_2_pow_53 :
    encodeVarint (2 ^ 53 + 1) = .ok [0xff, 1, 0, 0, 0, 0, 0, 0x20, 0] ∧
    readVarint ([0xff, 1, 0, 0, 0, 0, 0, 0x20, 0] ++ [7])
      = .ok ⟨.number (2 ^ 53), [7]⟩ ∧
    JsValue.number (2 ^ 53) ≠ JsValue.number (2 ^ 53 + 1) := by
  refine ⟨by decide, by decide, by decide⟩

/-- C21 (amended): for every integer `i` with `0 <= i < 2 ^ 64` that a Number holds exactly
(every `i < 2 ^ 53`, and above that every `i` that its rounding to 53 significant bits leaves
unchanged) and every byte string `rest`, `encodeVarint(i)` returns, and `readVarint` of its
result followed by `rest` returns the value `i` and the remaining buffer `rest`. -/
theorem C21_readVarint_encodeVarint_of_number (i : Nat) (rest : List Nat) (h : i < 2 ^ 64)
    (hnum : roundToNumber i = i) :
    ∃ bytes, encodeVarint i = .ok bytes ∧
      readVarint (bytes ++ rest) = .ok ⟨.number i, rest⟩ := by
  obtain ⟨bytes, h1, h2⟩ := readVarint_encodeVarint i rest h
  rw [hnum] at h2
  exact ⟨bytes, h1, h2⟩

theorem C21_readVarint_encodeVarint_of_number_witness :
    (2 ^ 63 + 2 ^ 11 : Nat) < 2 ^ 64 ∧ roundToNumber (2 ^ 63 + 2 ^ 11) = 2 ^ 63 + 2 ^ 11 ∧
    ∃ bytes, encodeVarint (2 ^ 63 + 2 ^ 11) = .ok bytes ∧
      readVarint (bytes ++ [1, 2, 3]) = .ok ⟨.number ((2 ^ 63 + 2 ^ 11 : Nat) : Int), [1, 2, 3]⟩ :=
  ⟨by decide, by decide,
    C21_readVarint_encodeVarint_of_number (2 ^ 63 + 2 ^ 11) [1, 2, 3] (by decide) (by decide)⟩

/-! ## `encodeNum` and `decodeNum` -/

theorem toInt32_of_lt (a : Int) (h0 : 0 ≤ a) (h : a < 2 ^ 31) : toInt32 a = a := by
  unfold toInt32
  norm_num at h ⊢
  omega

theorem encodeNumLoop_step (fuel a : Nat) (acc : List Nat) (h0 : 0 < a) (h : a < 2 ^ 31) :
    encodeNumLoop (fuel + 1) (a : Int) acc
      = encodeNumLoop fuel ((a / 256 : Nat) : Int) (acc ++ [a % 256]) := by
  have ha : ((a : Int)) ≠ 0 := by omega
  have h31 : (a : Int) < 2 ^ 31 := by exact_mod_cast h
  simp only [encodeNumLoop, if_pos ha]
  rw [toInt32_of_lt _ (by omega) h31, Int.fdiv_eq_ediv _ (by norm_num)]
  have h1 : ((a : Int) / 256) = ((a / 256 : Nat) : Int) := by omega
  have h2 : ((a : Int) % 256).toNat = a % 256 := by omega
  rw [h1, h2]

theorem encodeNumLoop_digits (fuel : Nat) :
    ∀ (a : Nat) (acc : List Nat), a < 256 ^ fuel → a < 2 ^ 31 →
      encodeNumLoop (fuel + 1) (a : Int) acc = some (acc ++ Nat.digits 256 a) := by
  induction fuel with
  | zero =>
    intro a acc h _
    have : a = 0 := by simpa using h
    subst this
    simp [encodeNumLoop]
  | succ k ih =>
    intro a acc h h31
    rcases Nat.eq_zero_or_pos a with h0 | h0
    · subst h0
      simp [encodeNumLoop]
    · rw [encodeNumLoop_step _ _ _ h0 h31, ih _ _ _ (by omega),
        Nat.digits_def' (by norm_num) h0, List.append_assoc, List.singleton_append]
      rw [pow_succ] at h
      exact Nat.div_lt_of_lt_mul (by omega)

/-- The fold of `decodeNum` over the bytes below the top one: no shift overflows while
the value stays below `2 ^ 31`. -/
theorem decodeNum_foldr (ds : List Nat) :
    ∀ x : Nat, x * 256 ^ ds.length + Nat.ofDigits 256 ds < 2 ^ 31 →
      ds.foldr (fun byte result => toInt32 (result * 256) + Int.ofNat byte) (x : Int)
        = ((x * 256 ^ ds.length + Nat.ofDigits 256 ds : Nat) : Int) := by
  induction ds with
  | nil => intro x _; simp
  | cons d ds ih =>
    intro x h
    rw [List.length_cons, Nat.ofDigits_cons, pow_succ] at h
    have hb : x * 256 ^ ds.length + Nat.ofDigits 256 ds < 2 ^ 31 := by
      norm_num at h ⊢
      nlinarith
    rw [List.foldr_cons, ih x hb, List.length_cons, Nat.ofDigits_cons, pow_succ]
    have h2 : (((x * 256 ^ ds.length + Nat.ofDigits 256 ds : Nat) : Int) * 256) < 2 ^ 31 := by
      have : (x * 256 ^ ds.length + Nat.ofDigits 256 ds) * 256 < 2 ^ 31 := by
        norm_num at h ⊢
        nlinarith
      exact_mod_cast this
    rw [toInt32_of_lt _ (by positivity) h2, Int.ofNat_eq_coe]
    push_cast
    ring

theorem decodeNum_concat (ds : List Nat) (last : Nat)
    (h : (last % 128) * 256 ^ ds.length + Nat.ofDigits 256 ds < 2 ^ 31) :
    decodeNum (ds ++ [last])
      = if last % 256 ≥ 128
        then -(((last % 128) * 256 ^ ds.length + Nat.ofDigits 256 ds : Nat) : Int)
        else (((last % 128) * 256 ^ ds.length + Nat.ofDigits 256 ds : Nat) : Int) := by
  unfold decodeNum
  rw [List.reverse_append, List.reverse_singleton, List.singleton_append]
  simp only [List.foldl_reverse]
  rw [show Int.ofNat (last % 128) = ((last % 128 : Nat) : Int) from rfl, decodeNum_foldr ds _ h]

/-- The shape of `encodeNum(n)` for `0 < |n| < 2 ^ 31`: the base-256 digits `ds ++ [l]` of
`|n|`, least significant first, with the sign in a further byte when the top digit `l`
has its top bit set and in the top bit of `l` otherwise. -/
theorem encodeNum_shape (n : Int) (hn : n ≠ 0) (h : n.natAbs < 2 ^ 31) :
    ∃ (ds : List Nat) (l : Nat), 0 < l ∧ l < 256 ∧ (∀ d ∈ ds, d < 256) ∧
      n.natAbs = Nat.ofDigits 256 ds + 256 ^ ds.length * l ∧
      encodeNum n = some (if 128 ≤ l then ds ++ [l] ++ [if n < 0 then 0x80 else 0]
        else if n < 0 then ds ++ [l + 128] else ds ++ [l]) := by
  have ha : n.natAbs ≠ 0 := by omega
  have hD : Nat.digits 256 n.natAbs ≠ [] := Nat.digits_ne_nil_iff_ne_zero.mpr ha
  have hl0 := Nat.getLast_digit_ne_zero 256 ha
  have hsplit := List.dropLast_append_getLast hD
  have hlt : ∀ d ∈ Nat.digits 256 n.natAbs, d < 256 := fun d hd =>
    Nat.digits_lt_base (by norm_num) hd
  have hval := Nat.ofDigits_digits 256 n.natAbs
  have hloop := encodeNumLoop_digits 7 n.natAbs [] (by norm_num at h ⊢; omega) h
  generalize (Nat.digits 256 n.natAbs).getLast hD = l at hl0 hsplit
  generalize (Nat.digits 256 n.natAbs).dropLast = ds at hsplit
  rw [← hsplit] at hlt hval hloop
  rw [Nat.ofDigits_append, Nat.ofDigits_singleton] at hval
  have hl : l < 256 := hlt l (by simp)
  refine ⟨ds, l, by omega, hl, fun d hd => hlt d (by simp [hd]), hval.symm, ?_⟩
  unfold encodeNum
  rw [if_neg hn]
  simp only [List.nil_append] at hloop
  have hloop' : encodeNumLoop 8 (Int.ofNat n.natAbs) [] = some (ds ++ [l]) := hloop
  rw [hloop']
  simp only [List.getLastD_concat, List.dropLast_concat, ge_iff_le]
  rw [Nat.mod_eq_of_lt hl]
  by_cases h128 : 128 ≤ l
  · rw [if_pos h128, if_pos h128]
    by_cases hneg : n < 0 <;> simp [hneg]
  · rw [if_neg h128, if_neg h128]
    by_cases hneg : n < 0 <;> simp [hneg]

theorem decodeNum_encodeNum (n : Int) (h : n.natAbs < 2 ^ 31) :
    ∃ e, encodeNum n = some e ∧ decodeNum e = n := by
  by_cases hn : n = 0
  · subst hn
    exact ⟨[], by decide, by decide⟩
  · obtain ⟨ds, l, hl0, hl, _, hval, henc⟩ := encodeNum_shape n hn h
    refine ⟨_, henc, ?_⟩
    have hcomm : Nat.ofDigits 256 ds + 256 ^ ds.length * l
        = l * 256 ^ ds.length + Nat.ofDigits 256 ds := by ring
    by_cases h128 : 128 ≤ l
    · rw [if_pos h128]
      have hA : Nat.ofDigits 256 (ds ++ [l]) = n.natAbs := by
        rw [Nat.ofDigits_append, Nat.ofDigits_singleton, ← hval]
      by_cases hneg : n < 0
      · rw [if_pos hneg]
        have hb : (128 % 128) * 256 ^ (ds ++ [l]).length
            + Nat.ofDigits 256 (ds ++ [l]) < 2 ^ 31 := by
          rw [hA]
          simpa using h
        rw [decodeNum_concat _ _ hb, hA, if_pos (by norm_num)]
        simp only [Nat.mod_self, Nat.zero_mul, Nat.zero_add]
        omega
      · rw [if_neg hneg]
        have hb : (0 % 128) * 256 ^ (ds ++ [l]).length
            + Nat.ofDigits 256 (ds ++ [l]) < 2 ^ 31 := by
          rw [hA]
          simpa using h
        rw [decodeNum_concat _ _ hb, hA, if_neg (by norm_num)]
        simp only [Nat.zero_mod, Nat.zero_mul, Nat.zero_add]
        omega
    · rw [if_neg h128]
      by_cases hneg : n < 0
      · rw [if_pos hneg]
        have e1 : (l + 128) % 128 = l := by omega
        have hb : ((l + 128) % 128) * 256 ^ ds.length + Nat.ofDigits 256 ds < 2 ^ 31 := by
          rw [e1, ← hcomm, ← hval]
          exact h
        rw [decodeNum_concat _ _ hb, e1, ← hcomm, ← hval, if_pos (by omega)]
        omega
      · rw [if_neg hneg]
        have e1 : l % 128 = l := by omega
        have hb : (l % 128) * 256 ^ ds.length + Nat.ofDigits 256 ds < 2 ^ 31 := by
          rw [e1, ← hcomm, ← hval]
          exact h
        rw [decodeNum_concat _ _ hb, e1, ← hcomm, ← hval, if_neg (by omega)]
        omega

/-- C22: for every integer `n` with `|n| < 2 ^ 31`, `encodeNum(n)` returns and
`decodeNum` of its result is `n`; `decodeNum` of the empty byte string is 0. -/
theorem C22_decodeNum_encodeNum (n : Int) (h : n.natAbs < 2 ^ 31) :
    (∃ e, encodeNum n = some e ∧ decodeNum e = n) ∧ decodeNum [] = 0 :=
  ⟨decodeNum_encodeNum n h, rfl⟩

theorem C22_decodeNum_encodeNum_witness :
    (-8388608 : Int).natAbs < 2 ^ 31 ∧
    ((∃ e, encodeNum (-8388608) = some e ∧ decodeNum e = -8388608) ∧ decodeNum [] = 0) :=
  ⟨by decide, C22_decodeNum_encodeNum (-8388608) (by decide)⟩

/-- A byte string of `k + 1 <= 4` bytes decodes to a value below `2 ^ (8 k + 7)` in
magnitude. -/
theorem decodeNum_bound (ds : List Nat) (last : Nat) (hds : ∀ d ∈ ds, d < 256)
    (hlen : ds.length ≤ 3) : (decodeNum (ds ++ [last])).natAbs < 128 * 256 ^ ds.length := by
  have h1 : Nat.ofDigits 256 ds < 256 ^ ds.length :=
    Nat.ofDigits_lt_base_pow_length (by norm_num) hds
  have h2 : last % 128 < 128 := Nat.mod_lt _ (by norm_num)
  have h5 : (last % 128) * 256 ^ ds.length ≤ 127 * 256 ^ ds.length :=
    Nat.mul_le_mul_right _ (by omega)
  have h3 : (last % 128) * 256 ^ ds.length + Nat.ofDigits 256 ds < 128 * 256 ^ ds.length := by
    omega
  have h4 : (256 : Nat) ^ ds.length ≤ 256 ^ 3 := Nat.pow_le_pow_right (by norm_num) hlen
  have hb : (last % 128) * 256 ^ ds.length + Nat.ofDigits 256 ds < 2 ^ 31 := by
    norm_num at h4 ⊢
    omega
  rw [decodeNum_concat ds last hb]
  split <;> omega

/-- C23: for every integer `n` with `|n| < 2 ^ 31`, `encodeNum(n)` is the shortest
sign-magnitude encoding of `n`.  `encodeNum(0)` is empty; `encodeNum(n)` returns a byte
string `e`; for `n != 0` its final byte is `0x00` or `0x80` only when there is a byte before
it and that byte has its top bit set; and no byte string shorter than `e` is decoded to `n`
by `decodeNum`. -/
theorem C23_encodeNum_is_shortest (n : Int) (h : n.natAbs < 2 ^ 31) :
    encodeNum 0 = some [] ∧
    ∃ e, encodeNum n = some e ∧
      (n ≠ 0 → (e.getLast? = some 0 ∨ e.getLast? = some 0x80) →
        ∃ prev, e.dropLast.getLast? = some prev ∧ 128 ≤ prev) ∧
      (∀ s : List Nat, (∀ b ∈ s, b < 256) → s.length < e.length → decodeNum s ≠ n) := by
  refine ⟨by decide, ?_⟩
  by_cases hn : n = 0
  · subst hn
    refine ⟨[], by decide, fun h0 => absurd rfl h0, ?_⟩
    intro s _ hs
    simp at hs
  · obtain ⟨ds, l, hl0, hl, hds, hval, henc⟩ := encodeNum_shape n hn h
    refine ⟨_, henc, ?_, ?_⟩
    · intro _ hlast
      by_cases h128 : 128 ≤ l
      · rw [if_pos h128]
        exact ⟨l, by simp, h128⟩
      · rw [if_neg h128] at hlast
        exfalso
        by_cases hneg : n < 0
        · rw [if_pos hneg] at hlast
          simp at hlast
          omega
        · rw [if_neg hneg] at hlast
          simp at hlast
          omega
    · intro s hs hlen heq
      have hpos : 0 < 256 ^ ds.length := pow_pos (by norm_num) _
      have hge : 256 ^ ds.length * l ≤ n.natAbs := by omega
      rcases List.eq_nil_or_concat s with h0 | ⟨ds', last', h0⟩
      · subst h0
        exact hn heq.symm
      · rw [List.concat_eq_append] at h0
        subst h0
        have hds' : ∀ d ∈ ds', d < 256 := fun d hd => hs d (by simp [hd])
        have habs : (decodeNum (ds' ++ [last'])).natAbs = n.natAbs := by rw [heq]
        by_cases h128 : 128 ≤ l
        · rw [if_pos h128] at hlen
          simp only [List.length_append, List.length_singleton] at hlen
          have hk : ds'.length ≤ ds.length := by omega
          have hmono : (256 : Nat) ^ ds'.length ≤ 256 ^ ds.length :=
            Nat.pow_le_pow_right (by norm_num) hk
          have h3 : ds.length ≤ 2 := by
            by_contra hc
            have : (256 : Nat) ^ 3 ≤ 256 ^ ds.length :=
              Nat.pow_le_pow_right (by norm_num) (by omega)
            norm_num at this h
            nlinarith
          have hb := decodeNum_bound ds' last' hds' (by omega)
          rw [habs] at hb
          nlinarith
        · have hlen' : ds'.length + 1 < ds.length + 1 := by
            rw [if_neg h128] at hlen
            by_cases hneg : n < 0
            · rw [if_pos hneg] at hlen
              simpa using hlen
            · rw [if_neg hneg] at hlen
              simpa using hlen
          have hmono : (256 : Nat) ^ (ds'.length + 1) ≤ 256 ^ ds.length :=
            Nat.pow_le_pow_right (by norm_num) (by omega)
          have h3 : ds.length ≤ 3 := by
            by_contra hc
            have : (256 : Nat) ^ 4 ≤ 256 ^ ds.length :=
              Nat.pow_le_pow_right (by norm_num) (by omega)
            norm_num at this h
            nlinarith
          have hb := decodeNum_bound ds' last' hds' (by omega)
          rw [habs, ] at hb
          rw [pow_succ] at hmono
          nlinarith

theorem C23_encodeNum_is_shortest_witness :
    (32768 : Int).natAbs < 2 ^ 31 ∧
    (encodeNum 0 = some [] ∧
    ∃ e, encodeNum 32768 = some e ∧
      ((32768 : Int) ≠ 0 → (e.getLast? = some 0 ∨ e.getLast? = some 0x80) →
        ∃ prev, e.dropLast.getLast? = some prev ∧ 128 ≤ prev) ∧
      (∀ s : List Nat, (∀ b ∈ s, b < 256) → s.length < e.length → decodeNum s ≠ 32768)) :=
  ⟨by decide, C23_encodeNum_is_shortest 32768 (by decide)⟩

/-! ## `op_if` and `op_notif` -/

/-- The scan of a stretch `items` that stays inside the block under scan: every item goes
to the current array, and the count of `OP_ENDIF`s needed follows the nesting depth. -/
theorem op_ifLoop_nested (items : List Cmd) :
    ∀ (depth depth' : Nat) (rest trueItems falseItems : List Cmd) (inFalse : Bool),
      nestingAfter depth items = some depth' →
      op_ifLoop (items ++ rest) trueItems falseItems inFalse ((depth : Int) + 1)
        = op_ifLoop rest (if inFalse then trueItems else trueItems ++ items)
            (if inFalse then falseItems ++ items else falseItems) inFalse
            ((depth' : Int) + 1) := by
  induction items with
  | nil =>
    intro depth depth' rest trueItems falseItems inFalse h
    simp only [nestingAfter, Option.some.injEq] at h
    subst h
    cases inFalse <;> simp
  | cons item items ih =>
    intro depth depth' rest trueItems falseItems inFalse h
    rw [List.cons_append]
    unfold nestingAfter at h
    rw [op_ifLoop]
    by_cases h1 : item = .op 99 ∨ item = .op 100
    · rw [if_pos h1] at h
      simp only [if_pos h1]
      have := ih (depth + 1) depth' rest (if inFalse then trueItems else trueItems ++ [item])
        (if inFalse then falseItems ++ [item] else falseItems) inFalse h
      push_cast at this
      rw [this]
      cases inFalse <;> simp
    · rw [if_neg h1] at h
      simp only [if_neg h1]
      by_cases h2 : item = .op 103
      · rw [if_pos h2] at h
        by_cases hd : depth = 0
        · rw [if_pos hd] at h
          cases h
        · rw [if_neg hd] at h
          have hne : ¬ ((depth : Int) + 1 = 1 ∧ item = .op 103) := by
            intro hc
            omega
          have h104 : ¬ item = .op 104 := by rw [h2]; decide
          simp only [if_neg hne, if_neg h104]
          rw [ih depth depth' rest _ _ inFalse h]
          cases inFalse <;> simp
      · rw [if_neg h2] at h
        have hne : ¬ ((depth : Int) + 1 = 1 ∧ item = .op 103) := fun hc => h2 hc.2
        simp only [if_neg hne]
        by_cases h3 : item = .op 104
        · rw [if_pos h3] at h
          simp only [if_pos h3]
          by_cases hd : depth = 0
          · rw [if_pos hd] at h
            cases h
          · rw [if_neg hd] at h
            have hd1 : ¬ ((depth : Int) + 1 = 1) := by omega
            simp only [if_neg hd1]
            have := ih (depth - 1) depth' rest
              (if inFalse then trueItems else trueItems ++ [item])
              (if inFalse then falseItems ++ [item] else falseItems) inFalse h
            have hcast : (((depth - 1 : Nat) : Int) + 1) = (depth : Int) + 1 - 1 := by omega
            rw [hcast] at this
            rw [this]
            cases inFalse <;> simp
        · rw [if_neg h3] at h
          simp only [if_neg h3]
          rw [ih depth depth' rest _ _ inFalse h]
          cases inFalse <;> simp

theorem op_ifLoop_if_else_endif (T F R : List Cmd) (hT : balancedBranch T = true)
    (hF : balancedBranch F = true) :
    op_ifLoop (T ++ [.op 103] ++ F ++ [.op 104] ++ R) [] [] false 1 = (true, R, T, F) := by
  have hT' : nestingAfter 0 T = some 0 := by simpa [balancedBranch] using hT
  have hF' : nestingAfter 0 F = some 0 := by simpa [balancedBranch] using hF
  have e1 := op_ifLoop_nested T 0 0 ([.op 103] ++ F ++ [.op 104] ++ R) [] [] false hT'
  have e2 := op_ifLoop_nested F 0 0 ([.op 104] ++ R) T [] true hF'
  simp only [Nat.cast_zero, zero_add, Bool.false_eq_true, if_false, if_true, List.nil_append,
    List.append_assoc, List.singleton_append, List.cons_append] at e1 e2 ⊢
  rw [e1, op_ifLoop]
  simp only [show ¬ ((Cmd.op 103 = Cmd.op 99) ∨ (Cmd.op 103 = Cmd.op 100)) by decide,
    if_false, true_and, if_true]
  rw [e2, op_ifLoop]
  simp only [show ¬ ((Cmd.op 104 = Cmd.op 99) ∨ (Cmd.op 104 = Cmd.op 100)) by decide,
    show ¬ (Cmd.op 104 = Cmd.op 103) by decide, if_false, and_false, if_true]

/-- C24: for instruction lists `T`, `F`, `R` in which `T` and `F` hold only balanced
`IF/NOTIF .. ENDIF` blocks and no `OP_ELSE` or `OP_ENDIF` outside them, and every stack with
top element `e`: `op_if` on the items `T ++ [OP_ELSE] ++ F ++ [OP_ENDIF] ++ R` returns true,
pops `e` and nothing else, and leaves the items `T ++ R` when `decodeNum(e) != 0` and
`F ++ R` when `decodeNum(e) = 0`; `op_notif` leaves the other branch. -/
theorem C24_op_if_selects_the_branch (T F R : List Cmd) (stack : Stack) (e : List Nat)
    (hT : balancedBranch T = true) (hF : balancedBranch F = true) :
    op_if (stack ++ [e]) (T ++ [.op 103] ++ F ++ [.op 104] ++ R)
      = (true, stack, if decodeNum e = 0 then F ++ R else T ++ R) ∧
    op_notif (stack ++ [e]) (T ++ [.op 103] ++ F ++ [.op 104] ++ R)
      = (true, stack, if decodeNum e = 0 then T ++ R else F ++ R) := by
  have hlen : ¬ (stack ++ [e]).length < 1 := by simp
  constructor
  · unfold op_if
    rw [if_neg hlen, op_ifLoop_if_else_endif T F R hT hF]
    simp only [List.getLastD_concat, List.dropLast_concat]
    split <;> rfl
  · unfold op_notif
    rw [if_neg hlen, op_ifLoop_if_else_endif T F R hT hF]
    simp only [List.getLastD_concat, List.dropLast_concat]
    split <;> rfl

theorem C24_op_if_selects_the_branch_witness :
    balancedBranch [.op 81, .op 99, .op 82, .op 103, .op 83, .op 104] = true ∧
    balancedBranch [.data [7], .op 100, .op 104] = true ∧
    op_if ([[5]] ++ [[]])
        ([.op 81, .op 99, .op 82, .op 103, .op 83, .op 104] ++ [.op 103]
          ++ [.data [7], .op 100, .op 104] ++ [.op 104] ++ [.op 118])
      = (true, [[5]], if decodeNum [] = 0 then [.data [7], .op 100, .op 104] ++ [.op 118]
          else [.op 81, .op 99, .op 82, .op 103, .op 83, .op 104] ++ [.op 118]) ∧
    op_notif ([[5]] ++ [[]])
        ([.op 81, .op 99, .op 82, .op 103, .op 83, .op 104] ++ [.op 103]
          ++ [.data [7], .op 100, .op 104] ++ [.op 104] ++ [.op 118])
      = (true, [[5]], if decodeNum [] = 0
          then [.op 81, .op 99, .op 82, .op 103, .op 83, .op 104] ++ [.op 118]
          else [.data [7], .op 100, .op 104] ++ [.op 118]) :=
  ⟨by decide, by decide,
    C24_op_if_selects_the_branch [.op 81, .op 99, .op 82, .op 103, .op 83, .op 104]
      [.data [7], .op 100, .op 104] [.op 118] [[5]] [] (by decide) (by decide)⟩

/-! ## `op_checksig` and `op_checkmultisig` -/

theorem op_checksig_of_parse_error (stack : Stack) (z : JsValue) (h2 : 2 ≤ stack.length)
    (hp : (∃ e, S256Point.parse (stack.getLastD []) = .error e) ∨
      (∃ e, Signature.parse (stack.dropLast.getLastD []).dropLast = .error e)) :
    op_checksig stack z = some (.ok (false, stack.dropLast.dropLast)) := by
  unfold op_checksig
  rw [if_neg (by omega)]
  simp only
  cases hpoint : S256Point.parse (stack.getLastD []) with
  | error e => rfl
  | ok point =>
    cases hsig : Signature.parse (stack.dropLast.getLastD []).dropLast with
    | error e => rfl
    | ok sig =>
      rcases hp with ⟨e, he⟩ | ⟨e, he⟩
      · rw [hpoint] at he
        cases he
      · rw [hsig] at he
        cases he

/-- C25 (as stated, at the stack `[sig, sec]` with `sig = 31 00 01`, whose first byte is not
`0x30`, and `sec = 02 01`): `op_checksig` returns false, the failure of the handler, and
leaves the stack empty; it does not push the empty byte string and return true. -/
theorem C25_op_checksig_returns_failure_on_parse_error :
    op_checksig [[0x31, 0x00, 0x01], [0x02, 0x01]] .undefined = some (.ok (false, [])) ∧
    op_checksig [[0x31, 0x00, 0x01], [0x02, 0x01]] .undefined ≠ some (.ok (true, [[]])) := by
  have h := op_checksig_of_parse_error [[0x31, 0x00, 0x01], [0x02, 0x01]] .undefined
    (by decide) (Or.inr ⟨.Error, by decide⟩)
  refine ⟨h, ?_⟩
  rw [h]
  decide

/-- C25 (amended): for every stack with at least two elements whose public-key element or
signature element fails to parse, `op_checksig` pops the two elements, pushes nothing and
returns false (the failure of the handler); it does not raise. -/
theorem C25_op_checksig_fails_on_parse_error (stack : Stack) (z : JsValue)
    (h2 : 2 ≤ stack.length)
    (hp : (∃ e, S256Point.parse (stack.getLastD []) = .error e) ∨
      (∃ e, Signature.parse (stack.dropLast.getLastD []).dropLast = .error e)) :
    op_checksig stack z = some (.ok (false, stack.dropLast.dropLast)) :=
  op_checksig_of_parse_error stack z h2 hp

theorem C25_op_checksig_fails_on_parse_error_witness :
    2 ≤ ([[5], [0x31, 0x00, 0x01], [0x02, 0x01]] : Stack).length ∧
    Signature.parse [0x31, 0x00] = .error .Error ∧
    op_checksig [[5], [0x31, 0x00, 0x01], [0x02, 0x01]] (.bigint 1) = some (.ok (false, [[5]])) :=
  ⟨by decide, by decide,
    C25_op_checksig_fails_on_parse_error [[5], [0x31, 0x00, 0x01], [0x02, 0x01]] (.bigint 1)
      (by decide) (Or.inr ⟨.Error, by decide⟩)⟩

theorem S256Point.mapM_parse_raises (sec : List Nat) (secs : List (List Nat)) :
    ∃ e, (sec :: secs).mapM S256Point.parse = .error e := by
  rcases S256Point.parse_raises sec with h | h
  · exact ⟨_, by rw [List.mapM_cons, h]; rfl⟩
  · exact ⟨_, by rw [List.mapM_cons, h]; rfl⟩

/-- With at least one public key to pop, `op_checkmultisig` never returns true. -/
theorem op_checkmultisig_true (stack st : Stack) (z : JsValue)
    (h : op_checkmultisig stack z = some (.ok (true, st))) :
    decodeNum (stack.getLastD []) ≤ 0 := by
  by_contra hn
  unfold op_checkmultisig op_checkmultisigWith at h
  simp only at h
  split_ifs at h with h1 h2
  · simp at h
  · simp at h
  · have hne : (stack.dropLast.reverse.take (decodeNum (stack.getLastD [])).toNat) ≠ [] := by
      intro hc
      have := congrArg List.length hc
      simp only [List.length_take, List.length_reverse, List.length_nil] at this
      have h3 : 0 < (decodeNum (stack.getLastD [])).toNat := by omega
      omega
    obtain ⟨sec, secs, hs⟩ := List.exists_cons_of_ne_nil hne
    obtain ⟨e, he⟩ := S256Point.mapM_parse_raises sec secs
    rw [hs, he] at h
    split at h
    · simp at h
    · split_ifs at h <;> simp at h

theorem decodeNum_small_literals :
    decodeNum [1] = 1 ∧ decodeNum [2] = 2 ∧ decodeNum [3] = 3 := by decide

theorem op_checkmultisig_one_of_one (extra sig sec : List Nat) (z : JsValue) :
    op_checkmultisig [extra, sig, [1], sec, [1]] z = some (.ok (false, [])) := by
  obtain ⟨e, he⟩ := S256Point.mapM_parse_raises sec []
  have he' : List.mapM.loop S256Point.parse [sec] [] = .error e := he
  unfold op_checkmultisig op_checkmultisigWith
  simp [decodeNum_small_literals, he']

theorem op_checkmultisig_two_of_three (extra sig1 sig2 sec1 sec2 sec3 : List Nat)
    (z : JsValue) :
    op_checkmultisig [extra, sig1, sig2, [2], sec1, sec2, sec3, [3]] z
      = some (.ok (false, [])) := by
  obtain ⟨e, he⟩ := S256Point.mapM_parse_raises sec3 [sec2, sec1]
  have he' : List.mapM.loop S256Point.parse [sec3, sec2, sec1] [] = .error e := he
  unfold op_checkmultisig op_checkmultisigWith
  simp [decodeNum_small_literals, he']

/-- C26 (code at a 1-of-1 stack, and at every stack): for the stack
`[extra, sig, 1, sec, 1]` with `sec` the compressed SEC encoding of the generator `G` (the
key of the secret 1), `sig` the DER encoding of `(r, s) = (G.x, G.x + 1)`, the signature of
`z = 1` under that key with `k = 1`, followed by the byte `SIGHASH_ALL`, `op_checkmultisig`
returns false and pushes nothing: `S256Point.parse` raises on the key, inside `try`.  The
same holds whatever the three byte strings are, and at every stack the handler returns true
only when the count of keys it pops is not positive. -/
theorem C26_op_checkmultisig_fails_with_a_key :
    op_checkmultisig
      [[],
       hexDecode ("3044022079be667ef9dcbbac55a06295ce870b07029bfcdb2dce28d959f2815b16f81798"
         ++ "022079be667ef9dcbbac55a06295ce870b07029bfcdb2dce28d959f2815b16f81799"
         ++ "01").toList,
       [1],
       hexDecode "0279be667ef9dcbbac55a06295ce870b07029bfcdb2dce28d959f2815b16f81798".toList,
       [1]] (.bigint 1)
      = some (.ok (false, [])) ∧
    (∀ (extra sig sec : List Nat) (z : JsValue),
      op_checkmultisig [extra, sig, [1], sec, [1]] z = some (.ok (false, []))) ∧
    (∀ (stack st : Stack) (z : JsValue),
      op_checkmultisig stack z = some (.ok (true, st)) →
        decodeNum (stack.getLastD []) ≤ 0) :=
  ⟨op_checkmultisig_one_of_one _ _ _ _, op_checkmultisig_one_of_one, op_checkmultisig_true⟩

theorem op_checkmultisig_mapM_three {α β : Type} (f : α → Except JsError β) (a1 a2 a3 : α)
    (b1 b2 b3 : β) (h1 : f a1 = .ok b1) (h2 : f a2 = .ok b2) (h3 : f a3 = .ok b3) :
    List.mapM.loop f [a1, a2, a3] [] = .ok [b1, b2, b3] := by
  show [a1, a2, a3].mapM f = .ok [b1, b2, b3]
  rw [List.mapM_cons, List.mapM_cons, List.mapM_cons, List.mapM_nil, h1, h2, h3]
  rfl

theorem op_checkmultisig_mapM_two {α β : Type} (f : α → Except JsError β) (a1 a2 : α)
    (b1 b2 : β) (h1 : f a1 = .ok b1) (h2 : f a2 = .ok b2) :
    List.mapM.loop f [a1, a2] [] = .ok [b1, b2] := by
  show [a1, a2].mapM f = .ok [b1, b2]
  rw [List.mapM_cons, List.mapM_cons, List.mapM_nil, h1, h2]
  rfl

/-- Two signatures in the reverse of their keys' order: the signature popped first uses up
the keys down to its own, and none is left that verifies the second. -/
theorem op_checkmultisigWith_reversed {P S : Type}
    (parsePoint : List Nat → Except JsError P) (parseSignature : List Nat → Except JsError S)
    (verify : P → JsValue → S → Except JsError Bool) (z : JsValue)
    (extra sigX sigY : List Nat) (key : Fin 3 → List Nat) (point : Fin 3 → P) (X Y : S)
    (a b : Fin 3)
    (hkey : ∀ i, parsePoint (key i) = .ok (point i))
    (hX : parseSignature sigX.dropLast = .ok X) (hY : parseSignature sigY.dropLast = .ok Y)
    (hvX : ∀ i, verify (point i) z X = .ok (decide (i = b)))
    (hvY : ∀ i, verify (point i) z Y = .ok (decide (i = a)))
    (hab : a < b) :
    op_checkmultisigWith parsePoint parseSignature verify
        [extra, sigX, sigY, [2], key 0, key 1, key 2, [3]] z
      = some (.ok (true, [[]])) := by
  have hp := op_checkmultisig_mapM_three parsePoint _ _ _ _ _ _ (hkey 2) (hkey 1) (hkey 0)
  have hs := op_checkmultisig_mapM_two parseSignature _ _ _ _ hY hX
  have e0 : encodeNum 0 = some [] := by decide
  unfold op_checkmultisigWith
  fin_cases a <;> fin_cases b <;> simp at hab <;>
    simp [decodeNum_small_literals, hp, hs, op_checkmultisigLoop, op_checkmultisigScan, hvX,
      hvY, pushNum, e0]

/-- C27 (as stated, for a 2-of-3 stack with the signatures in the reverse of their keys'
order): `op_checkmultisig` does not push true.  With the repository's `S256Point.parse`
the handler returns false and pushes nothing, whatever the eight byte strings are.  With
keys and signatures that parse and a `verify` that accepts a signature under its own key
only (here: a key is its byte string, and a signature is valid under the key of the same
bytes), the body of the handler pushes the empty byte string for the signatures of the
second and the first key in this order on the stack, and `encodeNum(1)` for the same two
in the order of their keys. -/
theorem C27_reversed_signatures_do_not_push_true :
    (∀ (extra sig1 sig2 sec1 sec2 sec3 : List Nat) (z : JsValue),
      op_checkmultisig [extra, sig1, sig2, [2], sec1, sec2, sec3, [3]] z
        = some (.ok (false, []))) ∧
    op_checkmultisigWith (fun sec => Except.ok sec) (fun der => Except.ok der)
        (fun (point : List Nat) _ (sig : List Nat) => Except.ok (decide (point = sig)))
        [[], [2, 9], [1, 9], [2], [1], [2], [3], [3]] .undefined
      = some (.ok (true, [[]])) ∧
    op_checkmultisigWith (fun sec => Except.ok sec) (fun der => Except.ok der)
        (fun (point : List Nat) _ (sig : List Nat) => Except.ok (decide (point = sig)))
        [[], [1, 9], [2, 9], [2], [1], [2], [3], [3]] .undefined
      = some (.ok (true, [[1]])) :=
  ⟨op_checkmultisig_two_of_three, by decide, by decide⟩

/-- C27 (amended): for a 2-of-3 `OP_CHECKMULTISIG` whose three keys and two signatures
parse, each signature being verified by exactly one key and the two by different keys,
with the signatures placed in the reverse of their keys' order (the signature on top belongs
to the earlier key `a`, the one below it to the later key `b`), the body of
`op_checkmultisig` does not push true: it removes the eight elements, pushes the empty byte
string and returns true. -/
theorem C27_reversed_signatures_push_false {P S : Type}
    (parsePoint : List Nat → Except JsError P) (parseSignature : List Nat → Except JsError S)
    (verify : P → JsValue → S → Except JsError Bool) (z : JsValue)
    (extra sigX sigY : List Nat) (key : Fin 3 → List Nat) (point : Fin 3 → P) (X Y : S)
    (a b : Fin 3)
    (hkey : ∀ i, parsePoint (key i) = .ok (point i))
    (hX : parseSignature sigX.dropLast = .ok X) (hY : parseSignature sigY.dropLast = .ok Y)
    (hvX : ∀ i, verify (point i) z X = .ok (decide (i = b)))
    (hvY : ∀ i, verify (point i) z Y = .ok (decide (i = a)))
    (hab : a < b) :
    op_checkmultisigWith parsePoint parseSignature verify
        [extra, sigX, sigY, [2], key 0, key 1, key 2, [3]] z
      = some (.ok (true, [[]])) :=
  op_checkmultisigWith_reversed parsePoint parseSignature verify z extra sigX sigY key point
    X Y a b hkey hX hY hvX hvY hab

theorem C27_reversed_signatures_push_false_witness :
    op_checkmultisigWith (fun sec => Except.ok sec) (fun der => Except.ok der)
        (fun (point : List Nat) _ (sig : List Nat) => Except.ok (decide (point = sig)))
        [[7], [3, 1], [1, 1], [2], [1], [2], [3], [3]] (.bigint 5)
      = some (.ok (true, [[]])) :=
  C27_reversed_signatures_push_false (fun sec => Except.ok sec) (fun der => Except.ok der)
    (fun (point : List Nat) _ (sig : List Nat) => Except.ok (decide (point = sig)))
    (.bigint 5) [7] [3, 1] [1, 1] (fun i => [i.val + 1]) (fun i => [i.val + 1]) [3] [1] 0 2
    (fun _ => rfl) rfl rfl (by decide) (by decide) (by decide)

/-! ## `op_checklocktimeverify` and `op_checksequenceverify` -/

/-- C28 (code at the stack `[01]`, `locktime = 500000000`, `sequence = 0`, and at every
input): the top element decodes to the block height 1 and the locktime is the smallest
timestamp, so the two are of different kinds, and `op_checklocktimeverify` returns true.
The test `element < 500000000 && locktime > 500000000` leaves out `locktime = 500000000`:
at every input the handler returns true exactly if `sequence` is not `0xffffffff`, the stack
is not empty, its top element decodes to `n >= 0`, `n <= locktime`, and not both
`n < 500000000` and `locktime > 500000000`. -/
theorem C28_op_checklocktimeverify_accepts_the_threshold :
    op_checklocktimeverify [[1]] 500000000 0 = true ∧
    decodeNum [1] = 1 ∧
    (∀ (stack : Stack) (locktime sequence : Int),
      op_checklocktimeverify stack locktime sequence = true ↔
        sequence ≠ 0xffffffff ∧ stack ≠ [] ∧ 0 ≤ decodeNum (stack.getLastD []) ∧
        ¬ (decodeNum (stack.getLastD []) < 500000000 ∧ locktime > 500000000) ∧
        decodeNum (stack.getLastD []) ≤ locktime) := by
  refine ⟨by decide, by decide, ?_⟩
  intro stack locktime sequence
  unfold op_checklocktimeverify
  have hlen : stack.length < 1 ↔ stack = [] := by
    cases stack <;> simp
  simp only
  split_ifs with h1 h2 h3 h4 h5
  · simp [h1]
  · simp [hlen.1 h2]
  · constructor
    · intro h; cases h
    · rintro ⟨_, _, h0, _, _⟩; omega
  · constructor
    · intro h; cases h
    · rintro ⟨_, _, _, hk, _⟩; exact absurd h4 hk
  · constructor
    · intro h; cases h
    · rintro ⟨_, _, _, _, hle⟩; omega
  · refine ⟨fun _ => ⟨h1, fun hc => h2 (hlen.2 hc), by omega, h4, by omega⟩, fun _ => rfl⟩

theorem bitAnd_shiftLeftOne_31 (n : Int) (h0 : 0 ≤ n) (h : n < 2 ^ 31) :
    bitAnd n (shiftLeftOne 31) = 0 := by
  have hs : (shiftLeftOne 31 % 2 ^ 32).toNat = 2 ^ 31 := by decide
  have hn : (n % 2 ^ 32).toNat < 2 ^ 31 := by
    norm_num at h ⊢
    omega
  unfold bitAnd
  rw [hs]
  have hz : Nat.land (n % 2 ^ 32).toNat (2 ^ 31) = 0 := by
    apply Nat.eq_of_testBit_eq
    intro i
    show ((n % 2 ^ 32).toNat &&& 2 ^ 31).testBit i = (0 : Nat).testBit i
    rw [Nat.testBit_and, Nat.testBit_two_pow, Nat.zero_testBit]
    by_cases hi : 31 = i
    · subst hi
      rw [Nat.testBit_lt_two_pow hn]
      rfl
    · simp [hi]
  rw [hz]
  decide

/-- C29 (code at the stack `[01]`, `version = 1`, `sequence = 0`, and further inputs): the
top element decodes to 1, whose bit 31 is clear, and the version is below 2, yet
`op_checksequenceverify` returns true.  The handler makes its four checks under
`if (element & (1 << 31))`, that is when the disable flag is set, and none when it is
clear: for a top element that decodes to `0 <= n < 2 ^ 31` the result is true exactly if
bit 31 of `sequence` is clear, whatever `version`, bit 22 and the low 16 bits are; and for the
element `00 00 00 80 80`, which decodes to `2 ^ 31`, the handler fails for `version = 1`. -/
theorem C29_op_checksequenceverify_checks_under_the_disable_flag :
    op_checksequenceverify [[1]] 1 0 = true ∧
    decodeNum [1] = 1 ∧
    op_checksequenceverify [[1]] 2 (2 ^ 22) = true ∧
    op_checksequenceverify [[5]] 2 3 = true ∧
    decodeNum [0, 0, 0, 0x80, 0x80] = 2 ^ 31 ∧
    op_checksequenceverify [[0, 0, 0, 0x80, 0x80]] 1 0 = false ∧
    op_checksequenceverify [[0, 0, 0, 0x80, 0x80]] 2 (2 ^ 31) = false ∧
    (∀ (stack : Stack) (top : List Nat) (version sequence : Int),
      0 ≤ decodeNum top → decodeNum top < 2 ^ 31 →
      op_checksequenceverify (stack ++ [top]) version sequence
        = decide (bitAnd sequence (shiftLeftOne 31) = 0)) := by
  refine ⟨by decide, by decide, by decide, by decide, by decide, by decide, by decide, ?_⟩
  intro stack top version sequence h0 h31
  unfold op_checksequenceverify
  have hlen : ¬ (stack ++ [top]).length < 1 := by simp
  simp only [List.getLastD_concat, bitAnd_shiftLeftOne_31 _ h0 h31, if_neg hlen,
    if_neg (not_lt.2 h0)]
  by_cases hs : bitAnd sequence (shiftLeftOne 31) = 0 <;> simp [hs]

/-! ## The pay-to-script-hash branch of `evaluate` -/

theorem Script.parse_nonempty (i : Nat) (buffer : List Nat) :
    Script.parse (i :: buffer) = some (.error .SyntaxError) := by
  have hr : ∃ v, readVarint (i :: buffer) = .ok v := by
    simp only [readVarint]
    split_ifs <;> exact ⟨_, rfl⟩
  obtain ⟨v, hv⟩ := hr
  unfold Script.parse
  rw [hv]
  rfl

theorem encodeVarint_head (n : Nat) (h : n < 2 ^ 64) :
    ∃ i bytes, encodeVarint n = .ok (i :: bytes) := by
  unfold encodeVarint
  split_ifs with h1 h2 h3 h4
  · exact ⟨_, _, rfl⟩
  · exact ⟨_, _, rfl⟩
  · exact ⟨_, _, rfl⟩
  · exact ⟨_, _, rfl⟩
  · exfalso
    norm_num at h h4
    omega

/-- The round of `evaluate` that pushes `R` in front of `OP_HASH160 h OP_EQUAL`, with the
handlers of op.js behind the three imported names. -/
theorem Script.step_p2sh (c : Crypto) (z : JsValue) (R h : List Nat) (stack altstack : Stack)
    (hh : h.length = 20) (hR : R.length ≤ 520) :
    Script.step (opImports c) z (.data R) [.op 0xa9, .data h, .op 0x87] stack altstack
      = if c.ripemd160 (c.sha256 R) = h then .raises .SyntaxError else .returns false := by
  obtain ⟨i, bytes, hv⟩ := encodeVarint_head R.length (by norm_num; omega)
  have e1 : encodeNum 1 = some [1] := by decide
  have e0 : encodeNum 0 = some [] := by decide
  by_cases heq : c.ripemd160 (c.sha256 R) = h
  · rw [if_pos heq]
    simp [Script.step, hh, Script.p2sh, opImports, op_hash160, op_equal, op_verify, pushNum,
      e1, e0, heq, decodeNum, hv, Script.parse_nonempty]
  · rw [if_neg heq]
    have heq' : ¬ h = c.ripemd160 (c.sha256 R) := fun hc => heq hc.symm
    simp [Script.step, hh, Script.p2sh, opImports, op_hash160, op_equal, op_verify, pushNum,
      e1, e0, heq', decodeNum]

/-- C30 (code at every data push `R` of at most 520 bytes and every 20-byte `h`, with the
handlers of op.js behind `opHash160`, `opEqual` and `opVerify`): when `hash160(R) = h` the
round that pushes `R` in front of `OP_HASH160 h OP_EQUAL` raises `SyntaxError`, on every
stack a prefix `S` may have left, and so does `evaluate` on `[R, OP_HASH160, h, OP_EQUAL]`;
the redeem script is never run.  `Script.parse` raises on `varint(len R) ++ R` as on every
buffer.  When `hash160(R) != h` the round returns false. -/
theorem C30_p2sh_raises_on_a_matching_hash (c : Crypto) (z : JsValue) (R h : List Nat) :
    (h.length = 20 → R.length ≤ 520 → ∀ stack altstack : Stack,
      Script.step (opImports c) z (.data R) [.op 0xa9, .data h, .op 0x87] stack altstack
        = if c.ripemd160 (c.sha256 R) = h then .raises .SyntaxError else .returns false) ∧
    (h.length = 20 → R.length ≤ 520 → ∀ fuel,
      Script.evaluate (opImports c) (fuel + 1) ⟨[.data R, .op 0xa9, .data h, .op 0x87]⟩ z
        = if c.ripemd160 (c.sha256 R) = h then some (.error .SyntaxError)
          else some (.ok false)) ∧
    (∀ i buffer, Script.parse (i :: buffer) = some (.error .SyntaxError)) ∧
    Script.evaluate (opImports Crypto.zeros) 5
        ⟨[.data [0x51], .op 0xa9, .data (List.replicate 20 0), .op 0x87]⟩ .undefined
      = some (.error .SyntaxError) := by
  refine ⟨fun hh hR stack altstack => Script.step_p2sh c z R h stack altstack hh hR, ?_,
    Script.parse_nonempty, ?_⟩
  · intro hh hR fuel
    simp only [Script.evaluate, Script.evaluateLoop, Script.step_p2sh c z R h [] [] hh hR]
    split_ifs <;> rfl
  · have hs := Script.step_p2sh Crypto.zeros .undefined [0x51] (List.replicate 20 0) [] []
      (by decide) (by decide)
    rw [if_pos (by decide)] at hs
    simp only [Script.evaluate, Script.evaluateLoop, hs]

theorem Script.serialize_nonempty (s : Script) (bytes : List Nat)
    (h : s.serialize = .ok bytes) : ∃ i rest, bytes = i :: rest := by
  unfold Script.serialize at h
  cases hraw : s.rawSerialize with
  | error e =>
    rw [hraw] at h
    cases h
  | ok raw =>
    rw [hraw] at h
    cases hv : encodeVarint raw.length with
    | error e =>
      simp only [bind, Except.bind, hv] at h
      cases h
    | ok total =>
      simp only [bind, Except.bind, hv, pure, Except.pure, Except.ok.injEq] at h
      have hne : total ≠ [] := by
        intro hc
        rw [hc] at hv
        unfold encodeVarint at hv
        split_ifs at hv <;> simp at hv
      obtain ⟨i, rest, hcons⟩ := List.exists_cons_of_ne_nil hne
      exact ⟨i, rest ++ raw, by rw [← h, hcons]; rfl⟩

/-- C31 (code at the script `[OP_DUP]`, and at every script): `serialize()` returns the two
bytes `01 76`, and `Script.parse` of them raises `SyntaxError` instead of returning a script.
`Script.parse` binds `length` to the object that `readVarint` returns, so its loop never
runs and `count !== length` holds: whatever bytes `serialize()` returns for a script,
`Script.parse` raises on them. -/
theorem C31_parse_of_serialize_raises :
    Script.serialize ⟨[.op 0x76]⟩ = .ok [1, 0x76] ∧
    Script.parse [1, 0x76] = some (.error .SyntaxError) ∧
    (∀ (s : Script) (bytes : List Nat), s.serialize = .ok bytes →
      Script.parse bytes = some (.error .SyntaxError)) := by
  refine ⟨by decide, Script.parse_nonempty _ _, ?_⟩
  intro s bytes h
  obtain ⟨i, rest, hb⟩ := Script.serialize_nonempty s bytes h
  rw [hb]
  exact Script.parse_nonempty i rest

/-! ## `Script.rawSerialize` and `Script.serialize` -/

theorem intToLittleEndian_lt (v k : Nat) (hk : 1 ≤ k) (hv : v < 256 ^ k) :
    ∀ b ∈ intToLittleEndian (v : Int) k, b < 256 := by
  have hlt : v < 16 ^ (k * 2) := by
    have : (16 : Nat) ^ (k * 2) = 256 ^ k := by
      rw [Nat.mul_comm, pow_mul]
      norm_num
    omega
  obtain ⟨h1, h2, _⟩ := toStringHex_spec v (k * 2) hlt (by omega)
  have hpadlen : (padStart (k * 2) (toStringHex (v : Int))).length = 2 * k := by
    unfold padStart
    rw [List.length_append, List.length_replicate]
    omega
  have hpadvalid : ∀ c ∈ padStart (k * 2) (toStringHex (v : Int)), (hexVal c).isSome := by
    intro c hc
    unfold padStart at hc
    rcases List.mem_append.1 hc with hc | hc
    · rw [(List.mem_replicate.1 hc).2]
      decide
    · exact h2 c hc
  obtain ⟨_, d2, _⟩ := hexDecode_spec k _ 0 hpadlen hpadvalid
  intro b hb
  unfold intToLittleEndian at hb
  exact d2 b (List.mem_reverse.1 hb)

theorem intToLittleEndian_one (v : Nat) (hv : v < 256) : intToLittleEndian (v : Int) 1 = [v] := by
  obtain ⟨hlen, hval⟩ := intToLittleEndian_spec v 1 (by norm_num) (by simpa using hv)
  match h : intToLittleEndian (v : Int) 1, hlen with
  | [x], _ =>
    rw [h] at hval
    simp only [List.reverse_singleton, bigEndian, List.foldl_cons, List.foldl_nil] at hval
    rw [show x = v by omega]

theorem intToLittleEndian_two (v : Nat) (hv : v < 65536) :
    intToLittleEndian (v : Int) 2 = [v % 256, v / 256] := by
  obtain ⟨hlen, hval⟩ := intToLittleEndian_spec v 2 (by norm_num) (by simpa using hv)
  have hb := intToLittleEndian_lt v 2 (by norm_num) (by simpa using hv)
  match h : intToLittleEndian (v : Int) 2, hlen with
  | [x, y], _ =>
    rw [h] at hval hb
    have hx : x < 256 := hb x (by simp)
    simp only [List.reverse_cons, List.reverse_nil, List.nil_append, List.singleton_append,
      bigEndian, List.foldl_cons, List.foldl_nil] at hval
    rw [show x = v % 256 by omega, show y = v / 256 by omega]

/-- What `rawSerialize` writes for a single data push, by the length of the push. -/
theorem Script.rawSerialize_push (bytes : List Nat) :
    (bytes.length < 75 →
      Script.rawSerialize ⟨[.data bytes]⟩ = .ok ([bytes.length] ++ bytes)) ∧
    (75 ≤ bytes.length → bytes.length < 256 →
      Script.rawSerialize ⟨[.data bytes]⟩ = .ok ([76, bytes.length] ++ bytes)) ∧
    (256 ≤ bytes.length → bytes.length ≤ 520 →
      Script.rawSerialize ⟨[.data bytes]⟩
        = .ok ([77, bytes.length % 256, bytes.length / 256] ++ bytes)) ∧
    (520 < bytes.length → Script.rawSerialize ⟨[.data bytes]⟩ = .error .ReferenceError) := by
  have h76 : intToLittleEndian 76 1 = [76] := by decide
  have h77 : intToLittleEndian 77 1 = [77] := by decide
  refine ⟨?_, ?_, ?_, ?_⟩
  · intro h
    have e := intToLittleEndian_one bytes.length (by omega)
    simp [Script.rawSerialize, h, e, pure, Except.pure]
    rfl
  · intro h1 h2
    have e := intToLittleEndian_one bytes.length h2
    simp [Script.rawSerialize, h1, h2, e, h76, pure, Except.pure, Nat.not_lt.2 h1]
    rfl
  · intro h1 h2
    have e := intToLittleEndian_two bytes.length (by omega)
    have n1 : ¬ bytes.length < 75 := by omega
    have n2 : ¬ bytes.length < 256 := by omega
    simp [Script.rawSerialize, n1, n2, h1, h2, e, h77, pure, Except.pure]
    rfl
  · intro h
    have n1 : ¬ bytes.length < 75 := by omega
    have n2 : ¬ bytes.length < 256 := by omega
    have n3 : ¬ bytes.length ≤ 520 := by omega
    simp [Script.rawSerialize, n1, n2, n3, pure, Except.pure]
    rfl

/-- C32 (code at a data push of 75 bytes, and at every length): `rawSerialize` writes the
75 bytes `11 .. 11` as `4c 4b` followed by the data, the form with `0x4c` and a 1-byte
length, not as the single length byte `4b` followed by the data.  The first test is
`length < 75`: a push of `L < 75` bytes gets the single byte `L`, one of `75 <= L <= 255`
gets `4c L`, one of `256 <= L <= 520` gets `4d` and the two bytes of `L`, least
significant first, and one of more than 520 bytes raises. -/
theorem C32_rawSerialize_push_of_75_bytes :
    Script.rawSerialize ⟨[.data (List.replicate 75 0x11)]⟩
      = .ok ([0x4c, 0x4b] ++ List.replicate 75 0x11) ∧
    Script.rawSerialize ⟨[.data (List.replicate 74 0x11)]⟩
      = .ok ([0x4a] ++ List.replicate 74 0x11) ∧
    (∀ bytes : List Nat,
      (bytes.length < 75 →
        Script.rawSerialize ⟨[.data bytes]⟩ = .ok ([bytes.length] ++ bytes)) ∧
      (75 ≤ bytes.length → bytes.length < 256 →
        Script.rawSerialize ⟨[.data bytes]⟩ = .ok ([76, bytes.length] ++ bytes)) ∧
      (256 ≤ bytes.length → bytes.length ≤ 520 →
        Script.rawSerialize ⟨[.data bytes]⟩
          = .ok ([77, bytes.length % 256, bytes.length / 256] ++ bytes)) ∧
      (520 < bytes.length → Script.rawSerialize ⟨[.data bytes]⟩ = .error .ReferenceError)) := by
  refine ⟨?_, ?_, Script.rawSerialize_push⟩
  · have h := (Script.rawSerialize_push (List.replicate 75 0x11)).2.1 (by simp) (by simp)
    simpa using h
  · have h := (Script.rawSerialize_push (List.replicate 74 0x11)).1 (by simp)
    simpa using h

/-! ## `op_2swap` -/

/-- C33 (code at the stack `[01, 02, 03, 04]`, and at every stack of four or more
elements): `op_2swap` returns true and leaves `[03, 04, 03, 04]`, not `[03, 04, 01, 02]`.
`stack.splice(-4, 2, ...topTwo)` replaces `a, b` by copies of `c, d` and leaves the top two
where they are: a stack `[.., a, b, c, d]` becomes `[.., c, d, c, d]`, of the same length,
and `a` and `b` are lost. -/
theorem C33_op_2swap_overwrites_the_lower_pair :
    op_2swap [[1], [2], [3], [4]] = (true, [[3], [4], [3], [4]]) ∧
    (∀ (rest : Stack) (a b c d : List Nat),
      op_2swap (rest ++ [a, b, c, d]) = (true, rest ++ [c, d, c, d])) := by
  refine ⟨by decide, ?_⟩
  intro rest a b c d
  unfold op_2swap
  have hlen : (rest ++ [a, b, c, d]).length = rest.length + 4 := by simp
  have h1 : ¬ (rest ++ [a, b, c, d]).length < 4 := by omega
  have h2 : (rest ++ [a, b, c, d]).drop ((rest ++ [a, b, c, d]).length - 2) = [c, d] := by
    rw [hlen, show rest.length + 4 - 2 = rest.length + 2 by omega, List.drop_append]
    rfl
  have h3 : (rest ++ [a, b, c, d]).take ((rest ++ [a, b, c, d]).length - 4) = rest := by
    rw [hlen, show rest.length + 4 - 4 = rest.length by omega, List.take_left]
  simp only [if_neg h1, h2, h3, List.append_assoc]
  rfl

/-! ## Termination of `encodeNum` -/

theorem toInt32_range (a : Int) : -2 ^ 31 ≤ toInt32 a ∧ toInt32 a < 2 ^ 31 := by
  unfold toInt32
  norm_num
  omega

theorem toInt32_of_int32 (a : Int) (h0 : -2 ^ 31 ≤ a) (h : a < 2 ^ 31) : toInt32 a = a := by
  unfold toInt32
  norm_num at h0 h ⊢
  omega

/-- Once `absNum` is negative the loop of `encodeNum` goes on for ever: `>>= 8` keeps the
sign, and the value settles at `-1`. -/
theorem encodeNumLoop_negative (fuel : Nat) :
    ∀ (a : Int) (acc : List Nat), -2 ^ 31 ≤ a → a < 0 → encodeNumLoop fuel a acc = none := by
  induction fuel with
  | zero => intro a acc _ _; rfl
  | succ k ih =>
    intro a acc h0 h
    have hne : a ≠ 0 := by omega
    simp only [encodeNumLoop, if_pos hne]
    rw [toInt32_of_int32 a h0 (by norm_num; omega), Int.fdiv_eq_ediv _ (by norm_num)]
    apply ih
    · norm_num at h0 ⊢
      omega
    · omega

theorem encodeNumLoop_sign_bit (fuel : Nat) (a : Int) (acc : List Nat) (h : toInt32 a < 0) :
    encodeNumLoop fuel a acc = none := by
  cases fuel with
  | zero => rfl
  | succ k =>
    have hne : a ≠ 0 := by
      intro hc
      rw [hc] at h
      exact absurd h (by decide)
    have hr := toInt32_range a
    simp only [encodeNumLoop, if_pos hne]
    rw [Int.fdiv_eq_ediv _ (by norm_num)]
    apply encodeNumLoop_negative
    · norm_num at hr ⊢
      omega
    · omega

theorem encodeNum_sign_bit (n : Int) (fuel : Nat) (h : toInt32 (Int.ofNat n.natAbs) < 0) :
    encodeNum n fuel = none := by
  have hne : n ≠ 0 := by
    intro hc
    rw [hc] at h
    exact absurd h (by decide)
  unfold encodeNum
  rw [if_neg hne, encodeNumLoop_sign_bit fuel _ [] h]

theorem encodeNum_returns (n : Int) (h : 0 ≤ toInt32 (Int.ofNat n.natAbs)) :
    ∃ e, encodeNum n = some e := by
  by_cases hn : n = 0
  · exact ⟨[], by rw [hn]; rfl⟩
  · have hr := toInt32_range (Int.ofNat n.natAbs)
    have hne : Int.ofNat n.natAbs ≠ 0 := by
      simp only [Int.ofNat_eq_coe, ne_eq, Int.natCast_eq_zero, Int.natAbs_eq_zero]
      exact hn
    obtain ⟨m, hm⟩ : ∃ m : Nat, (toInt32 (Int.ofNat n.natAbs)).fdiv 256 = (m : Int) ∧
        m < 2 ^ 23 := by
      refine ⟨((toInt32 (Int.ofNat n.natAbs)) / 256).toNat, ?_, ?_⟩
      · rw [Int.fdiv_eq_ediv _ (by norm_num)]
        omega
      · norm_num at hr ⊢
        omega
    have hloop : encodeNumLoop 8 (Int.ofNat n.natAbs) []
        = some ([(Int.ofNat n.natAbs % 256).toNat] ++ Nat.digits 256 m) := by
      rw [show (8 : Nat) = 7 + 1 from rfl, encodeNumLoop, if_pos hne, hm.1,
        encodeNumLoop_digits 6 m _ (by have := hm.2; norm_num at this ⊢; omega)
          (by have := hm.2; norm_num at this ⊢; omega)]
      rfl
    unfold encodeNum
    rw [if_neg hn, hloop]
    simp only
    split_ifs <;> exact ⟨_, rfl⟩

/-- C34 (code at `n = 2 ^ 31`, and at every integer): `encodeNum(2147483648)` does not
terminate; whatever number of rounds its loop is given, it has not returned.  `>>= 8`
turns the magnitude `2 ^ 31` into the 32-bit value `-2 ^ 31` and shifts it with its sign, so
`absNum` runs through `-2 ^ 23`, `-2 ^ 15`, `-128` to `-1` and stays there, never `0`.  The
same holds for every `n` whose magnitude has bit 31 set when read as a 32-bit value; for
every other integer `encodeNum` returns. -/
theorem C34_encodeNum_does_not_terminate_on_2_pow_31 :
    (∀ fuel, encodeNum 2147483648 fuel = none) ∧
    (∀ fuel acc, encodeNumLoop fuel (-1) acc = none) ∧
    (∀ (n : Int) (fuel : Nat), toInt32 (Int.ofNat n.natAbs) < 0 → encodeNum n fuel = none) ∧
    (∀ n : Int, 0 ≤ toInt32 (Int.ofNat n.natAbs) → ∃ e, encodeNum n = some e) := by
  refine ⟨fun fuel => encodeNum_sign_bit _ fuel (by decide),
    fun fuel acc => encodeNumLoop_negative fuel _ acc (by norm_num) (by norm_num),
    encodeNum_sign_bit, encodeNum_returns⟩
